import Mathlib

/-! # Sphere-exclusion clustering of fingerprints (`cluster.cc`)

A shallow embedding of the neighbour-list builder, the seed selection, the
removal of an emitted cluster from the neighbour graph, the serial clustering
loop, the master/worker clustering loop with the event loop of a worker, the
subset filter and the collapse of singletons of `cluster.cc`, of the similarity
calculations, of the cluster amendment of `amtec.cc` with the name lookup it
shares with `cad.cc`, and of the name buffer of `count_bits_set.cc`, followed by
theorems about them.

Conventions of the embedding.

* A fingerprint is identified by its position in the array `fps`; the array
  itself enters only through its size `num_fps` and through the function
  `calc_distance i j t`, which stands for `fps[i]->calc_distance( *fps[j] , t )`
  (the fingerprint classes themselves are not modelled).
* Distances live in a linearly ordered type `D` (finite `double` values are
  such a type).  `toFloat` is the narrowing of the `double` distance to the
  `float` that `pair<int,float>` stores.
* `vector<int>` neighbour lists are `List Nat`; the neighbour graph
  `vector<vector<int> >` is `List (List Nat)`.
* Reading past the end of a vector is undefined in the source; the embedding
  reads a default there (`0`, `[]`, `""` or `false`) and writing past the end leaves
  the vector unchanged.
* A `while` loop is a function of a bound `fuel` on its passes that returns
  `none` when the bound is reached first; the theorems give a bound that
  suffices.
* An output stream is the list of the items inserted into it.
* Where a run works on the input file, a fingerprint of the file is identified by
  its name, or is a name with the data `bits` that the distance works on.
* `operator<` of `std::string` is the lexicographic order of the characters.
-/

namespace Flush

/-! ## Definitions -/

/-- Comparator `SortNbsByDist::operator()` on `pair<int,float>`: equal distances
are ordered by descending index, otherwise by ascending distance. -/
def SortNbsByDist {D : Type} [LinearOrder D] (a b : Nat × D) : Bool :=
  if a.2 = b.2 then decide (a.1 > b.1) else decide (a.2 < b.2)

/-- Insertion of one element in front of the first element that it precedes
under the strict comparator `comp`. -/
def sort_insert {α : Type} (comp : α → α → Bool) (x : α) : List α → List α
  | [] => [x]
  | y :: ys => if comp x y then x :: y :: ys else y :: sort_insert comp x ys

/-- The library routine `std::sort( first , last , comp )`, as an insertion sort
with the strict comparator `comp`. -/
def std_sort {α : Type} (comp : α → α → Bool) : List α → List α
  | [] => []
  | x :: xs => sort_insert comp x (std_sort comp xs)

/-- The vector `nbs` of `make_nnlists` for pivot `i`, before it is sorted: the
pivot with distance `0.0F`, then every `j ≠ i` in ascending order of `j` whose
distance to the pivot is below the threshold, with that distance narrowed to
`float`. -/
def make_nbs {D : Type} [LinearOrder D] [Zero D] (calc_distance : Nat → Nat → D → D)
    (toFloat : D → D) (threshold : D) (num_fps i : Nat) : List (Nat × D) :=
  (i, 0) :: (List.range num_fps).filterMap (fun j =>
    if i = j then none
    else
      let dist := calc_distance i j threshold
      if dist < threshold then some (j, toFloat dist) else none)

/-- The step `if( nbs.size() > 1 ) sort( nbs.begin() + 1 , nbs.end() , SortNbsByDist() )`. -/
def sort_nbs_tail {D : Type} [LinearOrder D] (nbs : List (Nat × D)) : List (Nat × D) :=
  match nbs with
  | [] => []
  | p :: tl => if (p :: tl).length > 1 then p :: std_sort SortNbsByDist tl else p :: tl

/-- One pass of the pivot loop of `make_nnlists`: the neighbour list of pivot `i`,
which is the projection of the sorted `nbs` on the indices. -/
def make_nnlist {D : Type} [LinearOrder D] [Zero D] (calc_distance : Nat → Nat → D → D)
    (toFloat : D → D) (threshold : D) (num_fps i : Nat) : List Nat :=
  (sort_nbs_tail (make_nbs calc_distance toFloat threshold num_fps i)).map Prod.fst

/-- The function `make_nnlists( warm_feeling , threshold , start_num , stop_num , fps , nns )`:
`stop_num` is capped at `fps.size()` and one list per pivot in
`[start_num, stop_num)` is appended to `nns`. -/
def make_nnlists {D : Type} [LinearOrder D] [Zero D] (calc_distance : Nat → Nat → D → D)
    (toFloat : D → D) (threshold : D) (start_num stop_num num_fps : Nat)
    (nns : List (List Nat)) : List (List Nat) :=
  let stop_num := if stop_num > num_fps then num_fps else stop_num
  nns ++ (List.range' start_num (stop_num - start_num)).map
    (make_nnlist calc_distance toFloat threshold num_fps)

/-- Body of the loop of `find_next_seed` for index `i`, with `next_seed` the best
position so far: a longer list wins; among lists of equal length the one at `i`
wins when the original size of its seed is greater or equal. -/
def find_next_seed_step (nns : List (List Nat)) (orig_nn_sizes : List Nat)
    (next_seed i : Nat) : Nat :=
  if (nns.getD i []).length > (nns.getD next_seed []).length then i
  else if (nns.getD i []).length = (nns.getD next_seed []).length then
    if orig_nn_sizes.getD ((nns.getD i []).headD 0) 0
        ≥ orig_nn_sizes.getD ((nns.getD next_seed []).headD 0) 0 then i
    else next_seed
  else next_seed

/-- The function `find_next_seed( nns , orig_nn_sizes )`: `next_seed` starts at `0`
and the loop runs over `i = 1 , ... , nns.size() - 1`. -/
def find_next_seed (nns : List (List Nat)) (orig_nn_sizes : List Nat) : Nat :=
  (List.range' 1 (nns.length - 1)).foldl (find_next_seed_step nns orig_nn_sizes) 0

/-- The loops `in_cluster[cluster[i]] = v` of `remove_cluster_from_nns`. -/
def mark_in_cluster (v : Bool) (cluster : List Nat) (in_cluster : List Bool) : List Bool :=
  cluster.foldl (fun ic c => ic.set c v) in_cluster

/-- Treatment of one list `nns[i]` in `remove_cluster_from_nns`: an empty list is
skipped; a list whose seed is in the cluster is cleared; otherwise the members
that are in the cluster are overwritten by the sentinel `-1` (here `none`, no
index being `-1`) and the sentinels are erased. -/
def remove_cluster_from_list (in_cluster : List Bool) (l : List Nat) : List Nat :=
  if l.isEmpty then l
  else
    let l1 := if in_cluster.getD (l.headD 0) false then [] else l
    let l2 : List (Option Nat) := l1.map (fun x => if in_cluster.getD x false then none else some x)
    l2.filterMap id

/-- The function `remove_cluster_from_nns( num_fps , cluster , nns )`.  The static
vector `in_cluster` is passed in and handed back: it is allocated with `num_fps`
zeros when it is empty, the members of the cluster are flagged, every list is
treated by `remove_cluster_from_list`, the empty lists are erased and the flags
are reset. -/
def remove_cluster_from_nns (in_cluster : List Bool) (num_fps : Nat) (cluster : List Nat)
    (nns : List (List Nat)) : List Bool × List (List Nat) :=
  let ic0 := if in_cluster.isEmpty then List.replicate num_fps false else in_cluster
  let ic1 := mark_in_cluster true cluster ic0
  let nns1 := nns.map (remove_cluster_from_list ic1)
  let nns2 := nns1.filter (fun l => !l.isEmpty)
  (mark_in_cluster false cluster ic1, nns2)

/-- Successive calls of `remove_cluster_from_nns` with the clusters of a list, the
static `in_cluster` being threaded through. -/
def remove_clusters_from_nns (num_fps : Nat) (clusters : List (List Nat))
    (st : List Bool × List (List Nat)) : List Bool × List (List Nat) :=
  clusters.foldl (fun s c => remove_cluster_from_nns s.1 num_fps c s.2) st

/-- The two output formats. -/
inductive OUTPUT_FORMAT where
  | SAMPLES_FORMAT
  | CSV_FORMAT
  deriving DecidableEq, Repr

/-- The function `write_cluster`.  The output stream is the list of the items
inserted into it, in order (`endl` is a line feed); the result is the stream, `seed_names`
and `singleton_names` after the call. -/
def write_cluster (output_format : OUTPUT_FORMAT) (clus_num : Nat) (fp_names : List String)
    (clus : List Nat) (orig_nn_size : Nat) (output_stream : List String)
    (seed_names singleton_names : List String) :
    List String × List String × List String :=
  let front := fp_names.getD (clus.headD 0) ""
  let out :=
    match output_format with
    | OUTPUT_FORMAT.SAMPLES_FORMAT =>
      output_stream ++ [front, " : ", toString clus.length, "(", toString orig_nn_size, ") : "]
        ++ clus.flatMap (fun m => [fp_names.getD m "", "  "]) ++ ["\n"]
    | OUTPUT_FORMAT.CSV_FORMAT =>
      output_stream ++ clus.flatMap (fun m =>
        [toString clus_num, ",", toString clus.length, ",", front, ",",
         fp_names.getD m "", ",", toString orig_nn_size, "\n"])
  (out, seed_names ++ [front],
    if clus.length = 1 then singleton_names ++ [front] else singleton_names)

/-- The `while( !nns.empty() )` loop of `output_clusters`, returning the
arguments `( nns[next_seed_num] , orig_nn_sizes[nns[next_seed_num].front()] )` of
its successive `write_cluster` calls.  `fuel` bounds the number of passes;
`none` means that the bound was reached with lists left. -/
def output_clusters_loop (num_fps : Nat) (orig_nn_sizes : List Nat) :
    Nat → List Bool → List (List Nat) → Option (List (List Nat × Nat))
  | 0, _, nns => if nns.isEmpty then some [] else none
  | fuel + 1, in_cluster, nns =>
    if nns.isEmpty then some []
    else
      let next_seed_num := find_next_seed nns orig_nn_sizes
      let cluster := nns.getD next_seed_num []
      let orig_nn_size := orig_nn_sizes.getD (cluster.headD 0) 0
      let r := remove_cluster_from_nns in_cluster num_fps cluster nns
      (output_clusters_loop num_fps orig_nn_sizes fuel r.1 r.2).map
        (fun rest => (cluster, orig_nn_size) :: rest)

/-- The `write_cluster` calls of a clustering loop, in order, starting after
`num_written` clusters. -/
def write_clusters (output_format : OUTPUT_FORMAT) (fp_names : List String) :
    List (List Nat × Nat) → Nat → List String × List String × List String →
    List String × List String × List String
  | [], _, st => st
  | (clus, orig_nn_size) :: rest, num_written, st =>
    write_clusters output_format fp_names rest (num_written + 1)
      (write_cluster output_format (num_written + 1) fp_names clus orig_nn_size st.1 st.2.1 st.2.2)

/-- The clusters that `output_clusters` emits for the graph `nns`, each with the
original size written with it: `orig_nn_sizes[i] = nns[i].size()` is taken first
and the static `in_cluster` of `remove_cluster_from_nns` starts empty. -/
def output_clusters_emitted (fuel num_fps : Nat) (nns : List (List Nat)) :
    Option (List (List Nat × Nat)) :=
  output_clusters_loop num_fps (nns.map List.length) fuel [] nns

/-- The function `output_clusters`: the header in SAMPLES format, then one
`write_cluster` call per emitted cluster. -/
def output_clusters (fuel : Nat) (fp_names : List String) (nns : List (List Nat))
    (output_format : OUTPUT_FORMAT) (output_stream seed_names singleton_names : List String) :
    Option (List String × List String × List String) :=
  let out :=
    if output_format = OUTPUT_FORMAT.SAMPLES_FORMAT then
      output_stream ++ ["Molecule name : Cluster size : Cluster Members", "\n"]
    else output_stream
  (output_clusters_emitted fuel fp_names.length nns).map
    (fun calls => write_clusters output_format fp_names calls 0 (out, seed_names, singleton_names))

/-- The neighbours of pivot `i` that `make_nbs` records, in ascending index order. -/
def nbs_indices {D : Type} [LinearOrder D] (calc_distance : Nat → Nat → D → D)
    (threshold : D) (num_fps i : Nat) : List Nat :=
  (List.range num_fps).filter
    (fun j => decide (i ≠ j) && decide (calc_distance i j threshold < threshold))

/-- The sorted tail of `nbs` for pivot `i`. -/
def sorted_nbs_tail {D : Type} [LinearOrder D] (calc_distance : Nat → Nat → D → D)
    (toFloat : D → D) (threshold : D) (num_fps i : Nat) : List (Nat × D) :=
  std_sort SortNbsByDist ((List.range num_fps).filterMap (fun j =>
    if i = j then none
    else
      let dist := calc_distance i j threshold
      if dist < threshold then some (j, toFloat dist) else none))

/-- What `remove_cluster_from_list` leaves of the list `l` when the flags of
`in_cluster` are exactly the members of `cluster`: nothing when the seed of `l` is
a member, otherwise `l` without the members. -/
def remove_members (cluster l : List Nat) : List Nat :=
  if l.headD 0 ∈ cluster then [] else l.filter (fun x => decide (x ∉ cluster))

/-- What `remove_cluster_from_nns` leaves of the graph: the non-empty results of
`remove_members`, in graph order. -/
def remove_members_graph (cluster : List Nat) (nns : List (List Nat)) : List (List Nat) :=
  (nns.map (remove_members cluster)).filter (fun l => !l.isEmpty)

/-- A graph that the removal can work on without leaving its vectors: every list is
non-empty and every member is an index below `num_fps`. -/
def GraphOk (num_fps : Nat) (nns : List (List Nat)) : Prop :=
  ∀ l ∈ nns, l ≠ [] ∧ ∀ x ∈ l, x < num_fps

/-- The static `in_cluster` between two calls of `remove_cluster_from_nns`: not
yet allocated, or `num_fps` zeros. -/
def InClusterOk (num_fps : Nat) (in_cluster : List Bool) : Prop :=
  in_cluster = [] ∨ in_cluster = List.replicate num_fps false

/-- The clusters emitted from the graph `nns`, as a relation: each pass takes the
list at `find_next_seed`, reports it with the original size of its seed, and goes
on with what the removal leaves. -/
inductive Emits (orig_nn_sizes : List Nat) : List (List Nat) → List (List Nat × Nat) → Prop where
  | done : Emits orig_nn_sizes [] []
  | pass (nns : List (List Nat)) (rest : List (List Nat × Nat)) :
      nns ≠ [] →
      Emits orig_nn_sizes
        (remove_members_graph (nns.getD (find_next_seed nns orig_nn_sizes) []) nns) rest →
      Emits orig_nn_sizes nns
        ((nns.getD (find_next_seed nns orig_nn_sizes) [],
          orig_nn_sizes.getD ((nns.getD (find_next_seed nns orig_nn_sizes) []).headD 0) 0) :: rest)

/-- The order of seed selection on two lists: shorter current list first; equal
lengths by smaller original size of the seed; equal original sizes by smaller
seed index. -/
def seed_key_lt (orig_nn_sizes : List Nat) (a b : List Nat) : Prop :=
  a.length < b.length
  ∨ (a.length = b.length
      ∧ (orig_nn_sizes.getD (a.headD 0) 0 < orig_nn_sizes.getD (b.headD 0) 0
          ∨ (orig_nn_sizes.getD (a.headD 0) 0 = orig_nn_sizes.getD (b.headD 0) 0
              ∧ a.headD 0 < b.headD 0)))

/-- The graph invariant behind the partition property: every list is non-empty
and free of duplicates, no two lists have the same seed, and every member of a
list is the seed of a list of the graph. -/
def PartitionInv (nns : List (List Nat)) : Prop :=
  (∀ l ∈ nns, l ≠ [] ∧ l.Nodup)
  ∧ (nns.map (fun l => l.headD 0)).Nodup
  ∧ ∀ l ∈ nns, ∀ x ∈ l, x ∈ nns.map (fun l => l.headD 0)

/-- Every list of the graph is what is left of the list `built a` of its seed `a`:
it starts with `a`, an index below `num_fps`, and is a sublist of `built a`. -/
def SeededSublists (built : Nat → List Nat) (num_fps : Nat) (nns : List (List Nat)) : Prop :=
  ∀ l ∈ nns, ∃ a t, l = a :: t ∧ a < num_fps ∧ (a :: t).Sublist (built a)

/-! ## The master/worker run -/

/-- What a worker sends on `Send_Best_Cluster_Details`, as the master receives
it: the rank of the sender (`status.MPI_SOURCE`), `this_best_clus` (`-1` when the
worker has no list left) and `this_best_clus_details`, the size of the best
list, the original size of its seed and its seed, in this order.  The details are
not sent with `-1`; they are zero here and not read. -/
structure BestClusterReply where
  source : Nat
  this_best_clus : Int
  details : Nat × Nat × Nat
  deriving DecidableEq, Repr

/-- The variables `best_clus`, `best_clus_slave`, `best_clus_size`,
`best_orig_nn_size` and `best_clus_front` of `receive_best_clusters_from_slaves`. -/
structure BestCluster where
  best_clus : Int
  best_clus_slave : Nat
  best_clus_size : Nat
  best_orig_nn_size : Nat
  best_clus_front : Nat
  deriving DecidableEq, Repr

/-- The values of the variables before the first reply. -/
def BestCluster.init : BestCluster :=
  { best_clus := -1, best_clus_slave := 0, best_clus_size := 0, best_orig_nn_size := 0,
    best_clus_front := 0 }

/-- One pass of the `while( num_to_report < num_slaves )` loop of
`receive_best_clusters_from_slaves`, for the reply `r`. -/
def receive_best_step (b : BestCluster) (r : BestClusterReply) : BestCluster :=
  if r.this_best_clus = -1 then b
  else if r.details.1 > b.best_clus_size then
    { best_clus := r.this_best_clus, best_clus_slave := r.source,
      best_clus_size := r.details.1, best_orig_nn_size := r.details.2.1,
      best_clus_front := r.details.2.2 }
  else if r.details.1 = b.best_clus_size then
    if r.details.2.1 > b.best_orig_nn_size then
      { b with best_orig_nn_size := r.details.2.1, best_clus_front := r.details.2.2,
               best_clus := r.this_best_clus, best_clus_slave := r.source }
    else if r.details.2.1 = b.best_orig_nn_size then
      if r.details.2.2 > b.best_clus_front then
        { b with best_clus_front := r.details.2.2, best_clus := r.this_best_clus,
                 best_clus_slave := r.source }
      else b
    else b
  else b

/-- The reduction of `receive_best_clusters_from_slaves` over the replies in
their order of arrival. -/
def reduce_best_clusters (replies : List BestClusterReply) : BestCluster :=
  replies.foldl receive_best_step BestCluster.init

/-- The function `receive_best_clusters_from_slaves`, given the replies in their
order of arrival and `send_cluster rank clus_num`, the list that the worker of
that rank sends on `Send_Cluster`.  The result is `( cluster , orig_nn_size )`;
`none` is the `exit( 1 )` taken when the size received differs from
`best_clus_size`. -/
def receive_best_clusters_from_slaves (replies : List BestClusterReply)
    (send_cluster : Nat → Int → List Nat) : Option (List Nat × Nat) :=
  let b := reduce_best_clusters replies
  if b.best_clus = -1 then some ([], 0)
  else
    let cluster := send_cluster b.best_clus_slave b.best_clus
    if cluster.length ≠ b.best_clus_size then none
    else some (cluster, b.best_orig_nn_size)

/-- The order in which the master compares two replies: by size, then by original
size of the seed, then by seed index. -/
def reply_key_lt (a b : Nat × Nat × Nat) : Prop :=
  a.1 < b.1 ∨ (a.1 = b.1 ∧ (a.2.1 < b.2.1 ∨ (a.2.1 = b.2.1 ∧ a.2.2 < b.2.2)))

/-- The variables of the reduction hold the reply `r`. -/
def BestCluster.holds (b : BestCluster) (r : BestClusterReply) : Prop :=
  b.best_clus = r.this_best_clus ∧ b.best_clus_slave = r.source
  ∧ b.best_clus_size = r.details.1 ∧ b.best_orig_nn_size = r.details.2.1
  ∧ b.best_clus_front = r.details.2.2

/-- The state of the reduction after the replies `seen`: nothing held while every
reply seen is `-1`; otherwise a reply that is not `-1` is held and no other such
reply seen is greater in the order of the master. -/
def ReduceInv (seen : List BestClusterReply) (b : BestCluster) : Prop :=
  (b.best_clus = -1 ∧ b.best_clus_size = 0 ∧ ∀ r ∈ seen, r.this_best_clus = -1)
  ∨ (∃ r ∈ seen, r.this_best_clus ≠ -1 ∧ b.holds r
      ∧ ∀ r2 ∈ seen, r2.this_best_clus ≠ -1 → ¬ reply_key_lt r.details r2.details)

/-! ## The subset filter -/

/-- The loop of the library routine `std::lower_bound` on the vector `xs`, from
position `first` over `len` elements; `fuel` bounds the number of halvings.
`operator<` of `std::string` is the lexicographic order of the characters. -/
def lower_bound_loop (xs : List String) (value : String) : Nat → Nat → Nat → Nat
  | 0, first, _ => first
  | fuel + 1, first, len =>
    if len > 0 then
      let half := len / 2
      let middle := first + half
      if (xs.getD middle "").toList < value.toList then
        lower_bound_loop xs value fuel (middle + 1) (len - half - 1)
      else lower_bound_loop xs value fuel first half
    else first

/-- The library routine `std::binary_search( xs.begin() , xs.end() , value )`:
the lower bound is not the end and the value is not less than the element there. -/
def binary_search (xs : List String) (value : String) : Bool :=
  let first := lower_bound_loop xs value xs.length 0 xs.length
  decide (first ≠ xs.length) && !decide (value.toList < (xs.getD first "").toList)

/-- The function `read_subset_file`, given the names read from the file: they are
sorted with `operator<`. -/
def read_subset_file (names_in_file : List String) : List String :=
  std_sort (fun a b => decide (a.toList < b.toList)) names_in_file

/-- The function `apply_subset_names( subset_names , fps )` on the names of the
fingerprints: `fps[j++] = fps[i]` for every `i` with
`!binary_search( subset_names , fps[i]->get_name() )`, then the erasure of
`fps[j ..]`. -/
def apply_subset_names (subset_names : List String) (fps : List String) : List String :=
  let r := (List.range fps.length).foldl
    (fun (st : Nat × List String) i =>
      if !binary_search subset_names (st.2.getD i "") then
        (st.1 + 1, st.2.set st.1 (st.2.getD i ""))
      else st)
    (0, fps)
  r.2.take r.1

/-- The variables of a worker in `slave_event_loop` once `Search_Details` has been
handled: its lists `nns`, its `orig_nn_sizes`, the size of `fp_names` and the
static `in_cluster` of `remove_cluster_from_nns` in its process. -/
structure Slave where
  nns : List (List Nat)
  orig_nn_sizes : List Nat
  num_fps : Nat
  in_cluster : List Bool
  deriving DecidableEq, Repr

/-- The loop `while( slave_does * ( world_size - 1 ) < num_fps ) ++slave_does` of
`send_search_details`, in 32-bit unsigned arithmetic; `none` when `fuel` passes
do not end it. -/
def send_search_details_loop (num_fps world_size : Nat) : Nat → Nat → Option Nat
  | 0, slave_does =>
    if (slave_does * (world_size - 1)) % 2 ^ 32 < num_fps then none else some slave_does
  | fuel + 1, slave_does =>
    if (slave_does * (world_size - 1)) % 2 ^ 32 < num_fps then
      send_search_details_loop num_fps world_size fuel ((slave_does + 1) % 2 ^ 32)
    else some slave_does

/-- The value `slave_does` that `send_search_details` computes and sends to every
worker. -/
def send_search_details (fuel num_fps world_size : Nat) : Option Nat :=
  send_search_details_loop num_fps world_size fuel (num_fps / (world_size - 1))

/-- The function `receive_search_details`: the worker of rank `slave_rank` receives
`num_fps_to_do` and derives `start_fp = ( slave_rank - 1 ) * num_fps_to_do` in
32-bit unsigned arithmetic.  The result is `( num_fps_to_do , start_fp )`. -/
def receive_search_details (num_fps_to_do slave_rank : Nat) : Nat × Nat :=
  (num_fps_to_do, ((slave_rank - 1) * num_fps_to_do) % 2 ^ 32)

/-- The overload `make_nnlists( cs , start_fp , num_fps_to_do , fp_names , nns )`
for an array of `num_fps` fingerprints: `stop_fp = start_fp + num_fps_to_do` in
32-bit unsigned arithmetic; when it exceeds `fps.size()`, `num_fps_to_do` is
revised to `fps.size() - start_fp` (truncated to 32 bits) and `stop_fp` to
`fps.size()`.  The result is the revised `num_fps_to_do` and the lists. -/
def make_nnlists_cs {D : Type} [LinearOrder D] [Zero D] (calc_distance : Nat → Nat → D → D)
    (toFloat : D → D) (threshold : D) (num_fps start_fp num_fps_to_do : Nat) :
    Nat × List (List Nat) :=
  let stop_fp := (start_fp + num_fps_to_do) % 2 ^ 32
  if stop_fp > num_fps then
    ((num_fps + 2 ^ 32 - start_fp) % 2 ^ 32,
      make_nnlists calc_distance toFloat threshold start_fp num_fps num_fps [])
  else
    (num_fps_to_do, make_nnlists calc_distance toFloat threshold start_fp stop_fp num_fps [])

/-- The function `make_orig_nn_sizes`: `num_fps` zeros, then
`orig_nn_sizes[i] = nns[j].size()` for `i = start_fp , ...` below
`start_fp + num_fps_to_do` (32-bit unsigned) and `j = 0 , ...`. -/
def make_orig_nn_sizes (num_fps start_fp num_fps_to_do : Nat) (nns : List (List Nat)) :
    List Nat :=
  let stop_fp := (start_fp + num_fps_to_do) % 2 ^ 32
  (List.range (stop_fp - start_fp)).foldl
    (fun orig j => orig.set (start_fp + j) (nns.getD j []).length)
    (List.replicate num_fps 0)

/-- The `Search_Details` branch of `slave_event_loop` for the worker of rank
`slave_rank`, which has read `num_fps` fingerprints. -/
def slave_search_details {D : Type} [LinearOrder D] [Zero D] (calc_distance : Nat → Nat → D → D)
    (toFloat : D → D) (threshold : D) (num_fps slave_does slave_rank : Nat) : Slave :=
  let d := receive_search_details slave_does slave_rank
  let m := make_nnlists_cs calc_distance toFloat threshold num_fps d.2 d.1
  { nns := m.2, orig_nn_sizes := make_orig_nn_sizes num_fps d.2 m.1 m.2, num_fps := num_fps,
    in_cluster := [] }

/-- The function `send_best_cluster_details_to_master` of the worker of rank
`rank`, as the reply the master receives. -/
def send_best_cluster_details_to_master (rank : Nat) (s : Slave) : BestClusterReply :=
  if s.nns.isEmpty then { source := rank, this_best_clus := -1, details := (0, 0, 0) }
  else
    let best_clus := find_next_seed s.nns s.orig_nn_sizes
    { source := rank, this_best_clus := (best_clus : Int),
      details := ((s.nns.getD best_clus []).length,
        s.orig_nn_sizes.getD ((s.nns.getD best_clus []).headD 0) 0,
        (s.nns.getD best_clus []).headD 0) }

/-- The function `send_cluster_to_master`: the list `nnlists[clus_num]`. -/
def send_cluster_to_master (s : Slave) (clus_num : Int) : List Nat :=
  s.nns.getD clus_num.toNat []

/-- The function `cross_off_cluster` for the received `cluster`. -/
def cross_off_cluster (cluster : List Nat) (s : Slave) : Slave :=
  let r := remove_cluster_from_nns s.in_cluster s.num_fps cluster s.nns
  { s with nns := r.2, in_cluster := r.1 }

/-- The worker of rank `rank` among `slaves` (rank 1 is the first). -/
def slave_of_rank (slaves : List Slave) (rank : Nat) : Slave :=
  slaves.getD (rank - 1) { nns := [], orig_nn_sizes := [], num_fps := 0, in_cluster := [] }

/-- The `while( 1 )` loop of `parallel_run`, returning the arguments
`( cluster , orig_nn_size )` of its successive `write_cluster` calls.
`arrival round` lists the ranks of the workers in the order in which their replies
arrive in pass `round`.  `none` stands for `exit( 1 )` or for `fuel` passes that do
not end the loop. -/
def parallel_cluster_loop (arrival : Nat → List Nat) :
    Nat → Nat → List Slave → Option (List (List Nat × Nat))
  | 0, _, _ => none
  | fuel + 1, round, slaves =>
    let replies := (arrival round).map
      (fun rank => send_best_cluster_details_to_master rank (slave_of_rank slaves rank))
    match receive_best_clusters_from_slaves replies
        (fun rank clus_num => send_cluster_to_master (slave_of_rank slaves rank) clus_num) with
    | none => none
    | some (cluster, orig_nn_size) =>
      if cluster.isEmpty then some []
      else
        (parallel_cluster_loop arrival fuel (round + 1)
          (slaves.map (cross_off_cluster cluster))).map
          (fun rest => (cluster, orig_nn_size) :: rest)

/-- The clusters that `parallel_run` emits, each with the original size written
with it.  The master counts `file_num_fps` fingerprints in the file; each of the
`world_size - 1` workers holds `num_fps` fingerprints.  Nothing is done when the
file is empty. -/
def parallel_run_emitted {D : Type} [LinearOrder D] [Zero D] (calc_distance : Nat → Nat → D → D)
    (toFloat : D → D) (threshold : D) (num_fps file_num_fps world_size : Nat)
    (arrival : Nat → List Nat) (fuel_share fuel : Nat) : Option (List (List Nat × Nat)) :=
  if file_num_fps = 0 then some []
  else
    match send_search_details fuel_share file_num_fps world_size with
    | none => none
    | some slave_does =>
      parallel_cluster_loop arrival fuel 0
        ((List.range' 1 (world_size - 1)).map
          (slave_search_details calc_distance toFloat threshold num_fps slave_does))

/-- The workers hold the graph `nns` between them: it is their lists in rank order,
every worker holds `num_fps` fingerprints, its static `in_cluster` is as between
two removals, and its `orig_nn_sizes` agrees with `orig_nn_sizes` of the serial
run on the seeds of its lists. -/
def SlavesInv (num_fps : Nat) (orig_nn_sizes : List Nat) (nns : List (List Nat))
    (slaves : List Slave) : Prop :=
  nns = (slaves.map (fun s => s.nns)).flatten
  ∧ ∀ s ∈ slaves, s.num_fps = num_fps ∧ InClusterOk num_fps s.in_cluster
      ∧ ∀ l ∈ s.nns, s.orig_nn_sizes.getD (l.headD 0) 0 = orig_nn_sizes.getD (l.headD 0) 0

/-! ## The text of the SAMPLES format -/

/-- The line of the SAMPLES format for the cluster `clus` with original size
`orig_nn_size`, as the items of the stream: the name of the seed, `" : "`, the
size in decimal, `"("`, the original size in decimal, `") : "`, then every member
name followed by two spaces, then the end of line. -/
def samples_line (fp_names : List String) (clus : List Nat) (orig_nn_size : Nat) :
    List String :=
  [fp_names.getD (clus.headD 0) "", " : ", toString clus.length, "(", toString orig_nn_size,
    ") : "]
    ++ clus.flatMap (fun m => [fp_names.getD m "", "  "]) ++ ["\n"]

/-! ## Spaces in fingerprint names -/

/-- The function `fix_spaces_in_fp_name`: every space of the name becomes an
underscore (the message it prints when `verbose` is left out). -/
def fix_spaces_in_fp_name (fp_name : String) : String :=
  String.mk (fp_name.toList.map (fun c => if c = ' ' then '_' else c))

/-- The loop of `check_for_spaces_in_fp_names` from index `i` on, over the names
that are left.  A name with a space stops the program when `fix_spaces` is off:
the result is then the error with the index and the name that are printed before
`exit( 1 )`; otherwise the name is replaced by its fixed form. -/
def check_for_spaces_loop (fix_spaces : Bool) : Nat → List String →
    Except (Nat × String) (List String)
  | _, [] => Except.ok []
  | i, name :: rest =>
    if ' ' ∈ name.toList then
      if !fix_spaces then Except.error (i, name)
      else
        (check_for_spaces_loop fix_spaces (i + 1) rest).map
          (fun done => fix_spaces_in_fp_name name :: done)
    else
      (check_for_spaces_loop fix_spaces (i + 1) rest).map (fun done => name :: done)

/-- The function `check_for_spaces_in_fp_names( fix_spaces , fp_names )`: the names
afterwards, or the error of the `exit( 1 )`. -/
def check_for_spaces_in_fp_names (fix_spaces : Bool) (fp_names : List String) :
    Except (Nat × String) (List String) :=
  check_for_spaces_loop fix_spaces 0 fp_names

/-! ## The similarity calculations of `similarity_calcs.cc` -/

/-- Modelled from the spec: the table `BIT_COUNT_ARRAY` of `bit_count.h`, which
holds for every `unsigned short` the number of its bits that are set (the
population count of the 16-bit word). -/
def BIT_COUNT_ARRAY (us : Nat) : Nat :=
  ((List.range 16).map (fun i => (us.testBit i).toNat)).sum

/-- The function `calc_tanimoto` in exact arithmetic: `pus_a` and `pus_b` are the
arrays of `unsigned short`, the loop adds the bit counts of `pus_a[j] & pus_b[j]`
for `j < i_num_shorts`, and the result is `1 - common / (a_bits + b_bits - common)`
(a zero divisor, left to the floating-point unit in the source, gives quotient 0
here).  The three `float` parameters are not used. -/
def calc_tanimoto (pus_a pus_b : List Nat) (i_num_shorts i_num_a_bits i_num_b_bits : Nat)
    (_r_alpha _r_beta _r_theta : ℚ) : ℚ :=
  let i_num_in_common := (List.range i_num_shorts).foldl
    (fun acc j => acc + BIT_COUNT_ARRAY (pus_a.getD j 0 &&& pus_b.getD j 0)) 0
  let r_div : ℚ := (i_num_a_bits : ℚ) + (i_num_b_bits : ℚ) - (i_num_in_common : ℚ)
  1 - (i_num_in_common : ℚ) / r_div

/-- The loop of `calc_tversky`: the counts `( i_num_in_common ,
i_num_in_a_and_not_b , i_num_in_b_and_not_a )` after the words `j < i_num_shorts`;
`x &~ y` on `unsigned short` is `x` and the 16-bit complement of `y`. -/
def tversky_counts (pus_a pus_b : List Nat) (i_num_shorts : Nat) : Nat × Nat × Nat :=
  (List.range i_num_shorts).foldl
    (fun (acc : Nat × Nat × Nat) j =>
      (acc.1 + BIT_COUNT_ARRAY (pus_a.getD j 0 &&& pus_b.getD j 0),
       acc.2.1 + BIT_COUNT_ARRAY (pus_a.getD j 0 &&& (65535 ^^^ pus_b.getD j 0)),
       acc.2.2 + BIT_COUNT_ARRAY (pus_b.getD j 0 &&& (65535 ^^^ pus_a.getD j 0))))
    (0, 0, 0)

/-- The function `calc_tversky` in exact arithmetic:
`1 - common / (a_not_b * r_alpha + b_not_a * r_beta + common * r_theta)`. -/
def calc_tversky (pus_a pus_b : List Nat) (i_num_shorts _i_num_a_bits _i_num_b_bits : Nat)
    (r_alpha r_beta r_theta : ℚ) : ℚ :=
  let counts := tversky_counts pus_a pus_b i_num_shorts
  let r_div : ℚ := (counts.2.1 : ℚ) * r_alpha + (counts.2.2 : ℚ) * r_beta
    + (counts.1 : ℚ) * r_theta
  1 - (counts.1 : ℚ) / r_div

/-- The number of bits set in the first `i_num_shorts` words of a bit array: what
the cached bit count of a fingerprint is to be equal to. -/
def true_bit_count (pus : List Nat) (i_num_shorts : Nat) : Nat :=
  ((List.range i_num_shorts).map (fun j => BIT_COUNT_ARRAY (pus.getD j 0))).sum

/-! ## The cluster files of `amtec.cc` -/

namespace Amtec

/-- Cluster file formats of `amtec`. -/
inductive CLUS_FILE_FORMAT where
  | SAMPLES_FORMAT
  | CSV_FORMAT
  deriving DecidableEq, Repr

/-- The function `write_cluster( os , output_format , cluster , orig_nn_size )` of
`amtec.cc`; the stream is the list of the items inserted into it. -/
def write_cluster (output_format : CLUS_FILE_FORMAT) (cluster : List String)
    (orig_nn_size : Nat) (os : List String) : List String :=
  match output_format with
  | CLUS_FILE_FORMAT.SAMPLES_FORMAT =>
    os ++ [cluster.headD "", " : ", toString cluster.length, "(", toString orig_nn_size, ") : "]
      ++ (List.range cluster.length).flatMap (fun i => [cluster.getD i "", "  "]) ++ ["\n"]
  | CLUS_FILE_FORMAT.CSV_FORMAT =>
    os ++ (List.range cluster.length).flatMap (fun j =>
      [toString (j + 1), ",", toString cluster.length, ",", cluster.headD "", ",",
       cluster.getD j "", ",", toString orig_nn_size, "\n"])

/-- The function `output_new_clusters`, as the items written to the output file:
the header in SAMPLES format, then `write_cluster` for `clusters[i]` and
`orig_sizes[i]`, `i = 0 , ...`. -/
def output_new_clusters (clusters : List (List String)) (orig_sizes : List Nat)
    (output_format : CLUS_FILE_FORMAT) : List String :=
  let ofs :=
    if output_format = CLUS_FILE_FORMAT.SAMPLES_FORMAT then
      ["Molecule name : Cluster size : Cluster Members", "\n"]
    else []
  (List.range clusters.length).foldl
    (fun ofs i => write_cluster output_format (clusters.getD i []) (orig_sizes.getD i 0) ofs)
    ofs

/-- The characters of the file that holds the items of a stream. -/
def file_text (items : List String) : List Char :=
  (items.map String.toList).flatten

/-- The pieces of a text between the occurrences of the character `sep` (the
pieces that `boost::algorithm::split` with `is_any_of` of one character gives). -/
def split_on (sep : Char) : List Char → List (List Char)
  | [] => [[]]
  | c :: cs =>
    if c = sep then [] :: split_on sep cs
    else
      match split_on sep cs with
      | [] => [[c]]
      | piece :: pieces => (c :: piece) :: pieces

/-- The lines that the loop `getline( is , next_line ); if( is.eof() ) break;`
hands on: every piece of the text that is ended by a line feed (a last piece
without line feed sets `eof` and is dropped). -/
def getlines (text : List Char) : List (List Char) :=
  (split_on '\n' text).dropLast

/-- The conversion `boost::lexical_cast<int>` of a string of decimal digits;
`none` when the string is empty or holds another character (the cast throws). -/
def lexical_cast_int (s : List Char) : Option Nat :=
  if s.isEmpty then none
  else
    s.foldl
      (fun acc c =>
        match acc with
        | none => none
        | some n => if c.isDigit then some (10 * n + (c.toNat - 48)) else none)
      (some 0)

/-- One pass of the loop of `read_csv_file` for a line: the line is split at the
commas, `clus_num` is the first field as a number, empty clusters are appended
while `clus_num > clusters.size()`, and the fourth field is appended to
`clusters[clus_num - 1]` (32-bit unsigned decrement). -/
def read_csv_line (clusters : List (List String)) (next_line : List Char) :
    Option (List (List String)) :=
  let splits := split_on ',' next_line
  match lexical_cast_int (splits.headD []) with
  | none => none
  | some clus_num =>
    let clusters := clusters ++ List.replicate (clus_num - clusters.length) []
    let clus_num := (clus_num + 2 ^ 32 - 1) % 2 ^ 32
    some (clusters.set clus_num (clusters.getD clus_num [] ++ [String.mk (splits.getD 3 [])]))

/-- The function `read_csv_file` on the text of the file: the clusters read, or
`none` when a first field is not a number. -/
def read_csv_file (text : List Char) : Option (List (List String)) :=
  (getlines text).foldl
    (fun acc next_line =>
      match acc with
      | none => none
      | some clusters => read_csv_line clusters next_line)
    (some [])

end Amtec

/-! ## The collapse of singletons -/

/-- A fingerprint as the collapse of singletons uses it: its name and the data
`bits` that `calc_distance` works on. -/
structure Fingerprint (β : Type) where
  name : String
  bits : β
  deriving DecidableEq, Repr

/-- The function `read_fp_file( cs , seed_names , singleton_names , seed_fps ,
singleton_fps )` on the fingerprints of the file, in file order: in SAMPLES format
the spaces of the name are fixed; a fingerprint whose name is found in the sorted
`seed_names` is appended to `seed_fps`, one found in `singleton_names` to
`singleton_fps`. -/
def read_fp_file {β : Type} (output_format : OUTPUT_FORMAT) (file_fps : List (Fingerprint β))
    (seed_names singleton_names : List String) :
    List (Fingerprint β) × List (Fingerprint β) :=
  file_fps.foldl
    (fun acc fp0 =>
      let fp : Fingerprint β :=
        if output_format = OUTPUT_FORMAT.SAMPLES_FORMAT then
          { name := fix_spaces_in_fp_name fp0.name, bits := fp0.bits }
        else fp0
      (if binary_search seed_names fp.name then acc.1 ++ [fp] else acc.1,
       if binary_search singleton_names fp.name then acc.2 ++ [fp] else acc.2))
    ([], [])

/-- Lookup `find` in the `map<string,int>` filled by `insert( make_pair( names[i] , i ) )`
for `i = 0 , ...`: the first index that holds the name (`insert` keeps the first
entry of a key), `none` for `end()`. -/
def map_find (names : List String) (name : String) : Option Nat :=
  if names.indexOf name < names.length then some (names.indexOf name) else none

/-- The search for the nearest seed in `collapse_singletons` for one singleton:
`nearest_dist` starts at the threshold and `nearest_seed` at `-1` (here `none`);
a seed slot that has been reset, or a seed with the name of the singleton, is
skipped; a seed at a distance strictly below `nearest_dist` takes over. -/
def nearest_seed_loop {β D : Type} [LinearOrder D] (calc_distance : β → β → D → D)
    (singletons_threshold : D) (seed_fps : List (Option (Fingerprint β)))
    (singleton : Fingerprint β) : D × Option Nat :=
  (List.range seed_fps.length).foldl
    (fun (st : D × Option Nat) j =>
      match seed_fps.getD j none with
      | none => st
      | some seed =>
        if singleton.name = seed.name then st
        else
          let dist := calc_distance seed.bits singleton.bits singletons_threshold
          if dist < st.1 then (dist, some j) else st)
    (singletons_threshold, none)

/-- The vectors that the singleton loop of `collapse_singletons` works on. -/
structure CollapseState (β D : Type) where
  seed_fps : List (Option (Fingerprint β))
  singleton_fps : List (Option (Fingerprint β))
  seed_nbs : List (List (Nat × D))

/-- One pass of the singleton loop of `collapse_singletons`, for singleton `i`.
`seed_map` and `singleton_map` are the names that `seed_fps_map` and
`singleton_fps_map` were filled from.  A lookup that ends at `end()` is
dereferenced in the source; here it changes nothing. -/
def collapse_step {β D : Type} [LinearOrder D] (calc_distance : β → β → D → D)
    (toFloat : D → D) (singletons_threshold : D) (seed_map singleton_map : List String)
    (st : CollapseState β D) (i : Nat) : CollapseState β D :=
  match st.singleton_fps.getD i none with
  | none => st
  | some singleton =>
    match nearest_seed_loop calc_distance singletons_threshold st.seed_fps singleton with
    | (_, none) => st
    | (nearest_dist, some nearest_seed) =>
      let seed_nbs := st.seed_nbs.set nearest_seed
        (st.seed_nbs.getD nearest_seed [] ++ [(i, toFloat nearest_dist)])
      let seed_fps :=
        match map_find seed_map singleton.name with
        | none => st.seed_fps
        | some p => st.seed_fps.set p none
      let singleton_fps :=
        match seed_fps.getD nearest_seed none with
        | none => st.singleton_fps
        | some seed =>
          match map_find singleton_map seed.name with
          | none => st.singleton_fps
          | some p => st.singleton_fps.set p none
      { seed_fps := seed_fps, singleton_fps := singleton_fps, seed_nbs := seed_nbs }

/-- The singleton loop of `collapse_singletons`, from the vectors that
`read_fp_file` gives. -/
def collapse_loop {β D : Type} [LinearOrder D] (calc_distance : β → β → D → D)
    (toFloat : D → D) (singletons_threshold : D) (num_seed_names : Nat)
    (seed_fps singleton_fps : List (Fingerprint β)) : CollapseState β D :=
  (List.range singleton_fps.length).foldl
    (collapse_step calc_distance toFloat singletons_threshold
      (seed_fps.map (fun fp => fp.name)) (singleton_fps.map (fun fp => fp.name)))
    { seed_fps := seed_fps.map some, singleton_fps := singleton_fps.map some,
      seed_nbs := List.replicate num_seed_names [] }

/-- The overload `write_cluster( os , output_format , cluster , orig_nn_size ,
clus_num )` of `cluster.cc`, on the names of the members. -/
def write_cluster_os (output_format : OUTPUT_FORMAT) (cluster : List String)
    (orig_nn_size clus_num : Nat) (os : List String) : List String :=
  match output_format with
  | OUTPUT_FORMAT.SAMPLES_FORMAT =>
    os ++ [cluster.headD "", " : ", toString cluster.length, "(", toString orig_nn_size, ") : "]
      ++ cluster.flatMap (fun m => [m, "  "]) ++ ["\n"]
  | OUTPUT_FORMAT.CSV_FORMAT =>
    os ++ cluster.flatMap (fun m =>
      [toString clus_num, ",", toString cluster.length, ",", cluster.headD "", ",", m, ",",
       toString orig_nn_size, "\n"])

/-- The names that `update_clusters_file` appends to the cluster of the seed in
slot `p`: `singleton_fps[seed_nbs[p][i].first]->get_name()`, in the order of
`seed_nbs[p]` (a slot that has been reset gives the empty name here). -/
def attached_names {β D : Type} (seed_nbs : List (List (Nat × D)))
    (singleton_fps : List (Option (Fingerprint β))) (p : Nat) : List String :=
  (seed_nbs.getD p []).map
    (fun nb =>
      match singleton_fps.getD nb.1 none with
      | none => ""
      | some fp => fp.name)

/-- The `while( 1 )` loop of `update_clusters_file`.  The clusters file is the list
of what `read_next_cluster` reads from it, cluster after cluster: the member
names and `orig_nn_size`; at the end of the file, or at an empty cluster, the loop
ends.  `none` is the `exit( 1 )` for a seed that is not in `seed_fps_map`. -/
def update_clusters_file_loop {β D : Type} (output_format : OUTPUT_FORMAT)
    (seed_nbs : List (List (Nat × D))) (seed_map : List String)
    (seed_fps singleton_fps : List (Option (Fingerprint β))) :
    List (List String × Nat) → Nat → List String → Option (List String)
  | [], _, ofs => some ofs
  | (cluster, orig_nn_size) :: rest, clus_num, ofs =>
    if cluster.isEmpty then some ofs
    else
      match map_find seed_map (cluster.headD "") with
      | none => none
      | some p =>
        match seed_fps.getD p none with
        | some _ =>
          update_clusters_file_loop output_format seed_nbs seed_map seed_fps singleton_fps rest
            (clus_num + 1)
            (write_cluster_os output_format
              (cluster ++ attached_names seed_nbs singleton_fps p) orig_nn_size clus_num ofs)
        | none =>
          update_clusters_file_loop output_format seed_nbs seed_map seed_fps singleton_fps rest
            clus_num ofs

/-- The function `update_clusters_file`, as the items written to the new clusters
file: the header in SAMPLES format, then the loop from `clus_num = 1`. -/
def update_clusters_file {β D : Type} (output_format : OUTPUT_FORMAT)
    (seed_nbs : List (List (Nat × D))) (seed_map : List String)
    (seed_fps singleton_fps : List (Option (Fingerprint β)))
    (file_clusters : List (List String × Nat)) : Option (List String) :=
  update_clusters_file_loop output_format seed_nbs seed_map seed_fps singleton_fps
    file_clusters 1
    (if output_format = OUTPUT_FORMAT.SAMPLES_FORMAT then
      ["Molecule name : Cluster size : Cluster Members", "\n"]
    else [])

/-- The function `collapse_singletons`: the names are sorted, the fingerprint
file is read again, the singleton loop runs and the clusters file is rewritten.
The result is the new clusters file. -/
def collapse_singletons {β D : Type} [LinearOrder D] (calc_distance : β → β → D → D)
    (toFloat : D → D) (output_format : OUTPUT_FORMAT) (singletons_threshold : D)
    (file_fps : List (Fingerprint β)) (seed_names singleton_names : List String)
    (file_clusters : List (List String × Nat)) : Option (List String) :=
  let seed_names := std_sort (fun a b => decide (a.toList < b.toList)) seed_names
  let singleton_names := std_sort (fun a b => decide (a.toList < b.toList)) singleton_names
  let fps := read_fp_file output_format file_fps seed_names singleton_names
  let st := collapse_loop calc_distance toFloat singletons_threshold seed_names.length
    fps.1 fps.2
  update_clusters_file output_format st.seed_nbs (fps.1.map (fun fp => fp.name)) st.seed_fps
    st.singleton_fps file_clusters

/-- The singletons attached to the seed in slot `p`, in the words of the
specification: the names of the singletons that the attachment result
`seed_nbs[p]` lists, in its order. -/
def attached_singletons {β D : Type} (seed_nbs : List (List (Nat × D)))
    (singleton_fps : List (Option (Fingerprint β))) (p : Nat) : List String :=
  (seed_nbs.getD p []).filterMap
    (fun nb => (singleton_fps.getD nb.1 none).map (fun fp => fp.name))

/-- The clusters that the rewritten file is to hold, in the words of the
specification: the clusters of the file whose seed has not been consumed, in
their order, each with its members followed by its attached singletons, and with
its original size. -/
def rewritten_clusters {β D : Type} (seed_nbs : List (List (Nat × D)))
    (seed_map : List String) (seed_fps singleton_fps : List (Option (Fingerprint β)))
    (file_clusters : List (List String × Nat)) : List (List String × Nat) :=
  file_clusters.filterMap
    (fun c =>
      match map_find seed_map (c.1.headD "") with
      | none => none
      | some p =>
        match seed_fps.getD p none with
        | none => none
        | some _ => some (c.1 ++ attached_singletons seed_nbs singleton_fps p, c.2))

/-- The distance that `collapse_singletons` computes between seed slot `j` and a
singleton, when the slot is considered at all: the slot has not been reset and
its seed does not have the name of the singleton. -/
def seed_distance {β D : Type} (calc_distance : β → β → D → D) (singletons_threshold : D)
    (seed_fps : List (Option (Fingerprint β))) (singleton : Fingerprint β) (j : Nat) :
    Option D :=
  match seed_fps.getD j none with
  | none => none
  | some seed =>
    if singleton.name = seed.name then none
    else some (calc_distance seed.bits singleton.bits singletons_threshold)

/-- The state of the search for the nearest seed after the slots below `k`. -/
def NearestInv {β D : Type} [LinearOrder D] (calc_distance : β → β → D → D)
    (singletons_threshold : D) (seed_fps : List (Option (Fingerprint β)))
    (singleton : Fingerprint β) (k : Nat) (st : D × Option Nat) : Prop :=
  (st.2 = none →
    st.1 = singletons_threshold
    ∧ ∀ j d, j < k →
        seed_distance calc_distance singletons_threshold seed_fps singleton j = some d →
        ¬ d < singletons_threshold)
  ∧ (∀ j0, st.2 = some j0 →
      j0 < k
      ∧ seed_distance calc_distance singletons_threshold seed_fps singleton j0 = some st.1
      ∧ st.1 < singletons_threshold
      ∧ ∀ j d, j < k →
          seed_distance calc_distance singletons_threshold seed_fps singleton j = some d →
          st.1 ≤ d ∧ (d = st.1 → j0 ≤ j))

/-! ## The name buffer of `count_bits_set.cc` -/

namespace CountBitsSet

/-- The name buffer of `main`: the number of `char`s of the array that `mol_name`
points to (`none` for the null pointer it starts as) and `max_mol_name_len`. -/
structure NameBuffer where
  mol_name : Option Nat
  max_mol_name_len : Nat
  deriving DecidableEq, Repr

/-- The guard of the loop for a record whose name length is `len`:
`if( len > max_mol_name_len )` the array is replaced by `new char[len + 1]` and
`max_mol_name_len = len + 1`. -/
def grow_mol_name (b : NameBuffer) (len : Nat) : NameBuffer :=
  if len > b.max_mol_name_len then { mol_name := some (len + 1), max_mol_name_len := len + 1 }
  else b

/-- The `while( 1 )` loop of `main` over the name lengths of the records of the
file: for every record the number `len + 1` of bytes that `fread` stores through
`mol_name`, with the capacity that `mol_name` has at that moment. -/
def name_reads : NameBuffer → List Nat → List (Nat × Option Nat)
  | _, [] => []
  | b, len :: rest =>
    (len + 1, (grow_mol_name b len).mol_name) :: name_reads (grow_mol_name b len) rest

/-- The reads of `main`, which starts with `max_mol_name_len = 0` and
`mol_name = 0`. -/
def main_name_reads (lens : List Nat) : List (Nat × Option Nat) :=
  name_reads { mol_name := none, max_mol_name_len := 0 } lens

end CountBitsSet

/-! ## The runs of `cluster.cc` on a fingerprint file -/

/-- The settings of `ClusterSettings` that the runs read: the names in the
subset file (`none` when no subset file is given), the output format and
`fix_spaces_in_names`. -/
structure ClusterSettings where
  subset_file : Option (List String)
  output_format : OUTPUT_FORMAT
  fix_spaces_in_names : Bool

/-- The function `apply_subset( cs , fps )` on the names of the fingerprints. -/
def apply_subset (cs : ClusterSettings) (fps : List String) : List String :=
  match cs.subset_file with
  | none => fps
  | some names_in_file => apply_subset_names (read_subset_file names_in_file) fps

/-- The overload `make_nnlists( cs , start_fp , num_fps_to_do , fp_names , nns )` on
the fingerprints of the input file.  A fingerprint is identified by the name it
has in the file, and `calc_distance a b t` is the distance between the
fingerprints named `a` and `b`.  All fingerprints are read, the subset is applied,
in SAMPLES format the names are checked for spaces, the lists are made and the
names are pulled out.  The result is the revised `num_fps_to_do`, `fp_names` and
`nns`; `none` is the `exit( 1 )` of the check for spaces. -/
def make_nnlists_file {D : Type} [LinearOrder D] [Zero D]
    (calc_distance : String → String → D → D) (toFloat : D → D) (threshold : D)
    (cs : ClusterSettings) (file_names : List String) (start_fp num_fps_to_do : Nat) :
    Option (Nat × List String × List (List Nat)) :=
  let fps := apply_subset cs file_names
  let checked :=
    if cs.output_format = OUTPUT_FORMAT.SAMPLES_FORMAT then
      check_for_spaces_in_fp_names cs.fix_spaces_in_names fps
    else Except.ok fps
  match checked with
  | Except.error _ => none
  | Except.ok fp_names =>
    let m := make_nnlists_cs (fun i j t => calc_distance (fps.getD i "") (fps.getD j "") t)
      toFloat threshold fps.length start_fp num_fps_to_do
    some (m.1, fp_names, m.2)

/-- The function `serial_run`: the lists are made from fingerprint 0 on with
`num_fps_to_do` the largest `unsigned int`, then `output_clusters` runs.  The
result is the output stream, `seed_names` and `singleton_names`. -/
def serial_run {D : Type} [LinearOrder D] [Zero D]
    (calc_distance : String → String → D → D) (toFloat : D → D) (threshold : D)
    (cs : ClusterSettings) (file_names : List String) (fuel : Nat) :
    Option (List String × List String × List String) :=
  match make_nnlists_file calc_distance toFloat threshold cs file_names 0 (2 ^ 32 - 1) with
  | none => none
  | some (_, fp_names, nns) => output_clusters fuel fp_names nns cs.output_format [] [] []

/-- Modelled from the spec: the library routine `get_fp_names` that `parallel_run`
calls, which is not part of these sources; it re-reads the input file and gives the
names of its fingerprints, in file order. -/
def get_fp_names (file_names : List String) : List String :=
  file_names

/-- Modelled from the spec: the library routine `count_fps_in_file` that
`parallel_run` calls, which is not part of these sources; it gives the number of
fingerprints in the input file. -/
def count_fps_in_file (file_names : List String) : Nat :=
  file_names.length

/-- The `Search_Details` branch of `slave_event_loop` on the input file, for the
worker of rank `slave_rank`; `none` when `make_nnlists` stops the worker. -/
def slave_search_details_file {D : Type} [LinearOrder D] [Zero D]
    (calc_distance : String → String → D → D) (toFloat : D → D) (threshold : D)
    (cs : ClusterSettings) (file_names : List String) (slave_does slave_rank : Nat) :
    Option Slave :=
  let d := receive_search_details slave_does slave_rank
  match make_nnlists_file calc_distance toFloat threshold cs file_names d.2 d.1 with
  | none => none
  | some (num_fps_to_do, fp_names, nns) =>
    some { nns := nns,
           orig_nn_sizes := make_orig_nn_sizes fp_names.length d.2 num_fps_to_do nns,
           num_fps := fp_names.length, in_cluster := [] }

/-- The workers of the ranks given, when each of them gets through
`Search_Details`. -/
def slaves_of_ranks (search : Nat → Option Slave) : List Nat → Option (List Slave)
  | [] => some []
  | rank :: rest =>
    match search rank, slaves_of_ranks search rest with
    | some s, some ss => some (s :: ss)
    | _, _ => none

/-- The function `parallel_run` with `world_size - 1` workers: the header, the
count of the fingerprints of the file, the shares, the names from `get_fp_names`
with the check for spaces, then the clustering loop with one `write_cluster` per
cluster received.  The result is the output stream, `seed_names` and
`singleton_names`; `none` when the run stops or does not end. -/
def parallel_run {D : Type} [LinearOrder D] [Zero D]
    (calc_distance : String → String → D → D) (toFloat : D → D) (threshold : D)
    (cs : ClusterSettings) (file_names : List String) (world_size : Nat)
    (arrival : Nat → List Nat) (fuel_share fuel : Nat) :
    Option (List String × List String × List String) :=
  let out :=
    if cs.output_format = OUTPUT_FORMAT.SAMPLES_FORMAT then
      ["Molecule name : Cluster size : Cluster Members", "\n"]
    else []
  let num_fps := count_fps_in_file file_names
  if num_fps = 0 then some (out, [], [])
  else
    match send_search_details fuel_share num_fps world_size with
    | none => none
    | some slave_does =>
      match check_for_spaces_in_fp_names cs.fix_spaces_in_names (get_fp_names file_names) with
      | Except.error _ => none
      | Except.ok fp_names =>
        match slaves_of_ranks
            (slave_search_details_file calc_distance toFloat threshold cs file_names slave_does)
            (List.range' 1 (world_size - 1)) with
        | none => none
        | some slaves =>
          (parallel_cluster_loop arrival fuel 0 slaves).map
            (fun calls => write_clusters cs.output_format fp_names calls 0 (out, [], []))

/-! ## The event loop of a worker -/

/-- What arrives at a worker for one pass of `slave_event_loop`: the control
string `msg`, then what the handler of that string receives from the master, the
unsigned and int `values` and the string `text` (the directory of `New_CWD`). -/
structure SlaveMessage where
  msg : String
  values : List Nat
  text : String
  deriving DecidableEq, Repr

/-- What a worker hands out in `slave_event_loop`: a string sent to the master, the
values of one `MPI_Send`, or the items inserted into `cout`. -/
inductive SlaveOutput where
  | send_string (s : String)
  | send_values (vs : List Int)
  | cout (items : List String)
  deriving DecidableEq, Repr

/-- How `slave_event_loop` stands when the messages given are used up: it has left
the loop at `Finished`, it waits in `mpi_rec_string` for the next message, or the
process has stopped with `exit( status )`. -/
inductive LoopStatus where
  | finished
  | waiting
  | exited (status : Nat)
  deriving DecidableEq, Repr

/-- The `Search_Details` branch on the variables of the loop, for the settings `cs`
that `receive_search_details` receives and the input file that they name
(`input_file` is the names of its fingerprints, `none` when it cannot be opened):
`make_nnlists` appends the new lists to `nns` and the names read to `fp_names`, and
`make_orig_nn_sizes` builds the table afresh for `fp_names.size()`.  `none` is the
`exit( 1 )` inside `make_nnlists`, of `open_fp_file` when the file cannot be opened
or of `check_for_spaces_in_fp_names` when a name has a space in SAMPLES format
without `fix_spaces_in_names`. -/
def search_details_branch {D : Type} [LinearOrder D] [Zero D]
    (calc_distance : String → String → D → D) (toFloat : D → D) (threshold : D)
    (cs : ClusterSettings) (input_file : Option (List String))
    (s : Slave) (num_fps_to_do slave_rank : Nat) : Option Slave :=
  let d := receive_search_details num_fps_to_do slave_rank
  match input_file with
  | none => none
  | some file_names =>
    match make_nnlists_file calc_distance toFloat threshold cs file_names d.2 d.1 with
    | none => none
    | some (revised_num_fps_to_do, fp_names, nns) =>
      some { nns := s.nns ++ nns,
             orig_nn_sizes := make_orig_nn_sizes (s.num_fps + fp_names.length) d.2
               revised_num_fps_to_do (s.nns ++ nns),
             num_fps := s.num_fps + fp_names.length,
             in_cluster := s.in_cluster }

/-- The function `send_best_cluster_to_master`, as the values of its sends. -/
def send_best_cluster_to_master (s : Slave) : List SlaveOutput :=
  if s.nns.isEmpty then [SlaveOutput.send_values [-1]]
  else
    let best_clus := find_next_seed s.nns s.orig_nn_sizes
    [SlaveOutput.send_values [((s.nns.getD best_clus []).length : Int)],
     SlaveOutput.send_values ((s.nns.getD best_clus []).map (fun x => (x : Int))),
     SlaveOutput.send_values [(s.orig_nn_sizes.getD ((s.nns.getD best_clus []).headD 0) 0 : Int)]]

/-- The function `slave_event_loop` of a worker of rank `world_rank`, over the
messages that arrive.  The settings `cs` and the threshold are those that the
master sends with `Search_Details`, `input_file` is the input file that they name
(the names of its fingerprints, `none` when it cannot be opened, with
`calc_distance a b t` the distance between the fingerprints named `a` and `b`), and
`chdir_ok` tells whether `chdir` to a directory succeeds.  The result is the
variables of the loop, what the worker has handed out (its sends to the master
and, of what it prints, the line about a suspect message), and how the loop
stands: the worker stops with `exit( 1 )` when `make_nnlists` stops it in the
`Search_Details` branch or when `chdir` fails in `receive_new_cwd`. -/
def slave_event_loop {D : Type} [LinearOrder D] [Zero D]
    (calc_distance : String → String → D → D) (toFloat : D → D) (threshold : D)
    (cs : ClusterSettings) (input_file : Option (List String))
    (chdir_ok : String → Bool) (world_rank : Nat) :
    Slave → List SlaveMessage → List SlaveOutput → Slave × List SlaveOutput × LoopStatus
  | s, [], out => (s, out, LoopStatus.waiting)
  | s, m :: rest, out =>
    if m.msg = "Finished" then (s, out, LoopStatus.finished)
    else if m.msg = "Search_Details" then
      match search_details_branch calc_distance toFloat threshold cs input_file s
          (m.values.getD 0 0) (m.values.getD 1 0) with
      | none => (s, out, LoopStatus.exited 1)
      | some s2 =>
        slave_event_loop calc_distance toFloat threshold cs input_file chdir_ok world_rank
          s2 rest (out ++ [SlaveOutput.send_string "NNLists_Done"])
    else if m.msg = "Send_Best_Cluster" then
      slave_event_loop calc_distance toFloat threshold cs input_file chdir_ok world_rank s rest
        (out ++ send_best_cluster_to_master s)
    else if m.msg = "Send_Best_Cluster_Details" then
      slave_event_loop calc_distance toFloat threshold cs input_file chdir_ok world_rank s rest
        (out ++
          (if (send_best_cluster_details_to_master world_rank s).this_best_clus = -1 then
            [SlaveOutput.send_values [-1]]
          else
            [SlaveOutput.send_values [(send_best_cluster_details_to_master world_rank s).this_best_clus],
             SlaveOutput.send_values
              [((send_best_cluster_details_to_master world_rank s).details.1 : Int),
               ((send_best_cluster_details_to_master world_rank s).details.2.1 : Int),
               ((send_best_cluster_details_to_master world_rank s).details.2.2 : Int)]]))
    else if m.msg = "Send_Cluster" then
      slave_event_loop calc_distance toFloat threshold cs input_file chdir_ok world_rank s rest
        (out ++
          [SlaveOutput.send_values
            [((send_cluster_to_master s (m.values.getD 0 0 : Nat)).length : Int)],
           SlaveOutput.send_values
            ((send_cluster_to_master s (m.values.getD 0 0 : Nat)).map (fun x => (x : Int)))])
    else if m.msg = "Cross_Off_Cluster" then
      slave_event_loop calc_distance toFloat threshold cs input_file chdir_ok world_rank
        (cross_off_cluster m.values s) rest out
    else if m.msg = "New_CWD" then
      if chdir_ok m.text then
        slave_event_loop calc_distance toFloat threshold cs input_file chdir_ok world_rank s
          rest out
      else (s, out, LoopStatus.exited 1)
    else
      slave_event_loop calc_distance toFloat threshold cs input_file chdir_ok world_rank s rest
        (out ++ [SlaveOutput.cout
          [toString world_rank, " received suspect message ", m.msg, "\n"]])

/-! ## The name lookup of `amtec.cc` and `cad.cc` -/

/-- The halving loop of the library routines `std::lower_bound` and
`std::upper_bound` over the `len` positions from `first`: `p middle` moves the
search to the right of `middle`, otherwise it goes on to the left; `fuel` bounds
the number of halvings. -/
def partition_loop (p : Nat → Bool) : Nat → Nat → Nat → Nat
  | 0, first, _ => first
  | fuel + 1, first, len =>
    if len > 0 then
      let half := len / 2
      let middle := first + half
      if p middle then partition_loop p fuel (middle + 1) (len - half - 1)
      else partition_loop p fuel first half
    else first

/-- The name of the fingerprint at position `i`. -/
def name_at {β : Type} (fps : List (Fingerprint β)) (i : Nat) : String :=
  (fps.map (fun fp => fp.name)).getD i ""

/-- The library routine `std::equal_range( fps.begin() , fps.end() , search_fp ,
comp )` with the comparator `comp( a , b ) = a->get_name() > b->get_name()`: the
positions `std::lower_bound` (which tests `comp( *middle , value )`) and
`std::upper_bound` (which tests `!comp( value , *middle )`) give. -/
def equal_range_greater {β : Type} (fps : List (Fingerprint β)) (fp_name : String) :
    Nat × Nat :=
  (partition_loop (fun i => decide (fp_name.toList < (name_at fps i).toList))
      fps.length 0 fps.length,
   partition_loop (fun i => !decide ((name_at fps i).toList < fp_name.toList))
      fps.length 0 fps.length)

/-- What `find_fingerprint` comes to: no fingerprint (`return 0` in `amtec.cc`,
`exit( 1 )` in `cad.cc`), a fingerprint of the array, or the dereference of a
position past the end of the array. -/
inductive FindResult (β : Type) where
  | not_found
  | found (fp : Fingerprint β)
  | past_the_end
  deriving DecidableEq, Repr

namespace Amtec

/-- The function `find_fingerprint` of `amtec.cc`. -/
def find_fingerprint {β : Type} (fps : List (Fingerprint β)) (fp_name : String) :
    FindResult β :=
  let seed_fp := equal_range_greater fps fp_name
  if seed_fp.1 = seed_fp.2 then FindResult.not_found
  else
    match fps.get? seed_fp.1 with
    | none => FindResult.past_the_end
    | some fp =>
      if fp_name = fp.name then FindResult.found fp
      else
        match fps.get? seed_fp.2 with
        | none => FindResult.past_the_end
        | some fp2 => FindResult.found fp2

/-- The function `find_nearest_seed`: `nearest_seed` starts at `-1` (here `none`)
and `nearest_dist` at the threshold; `cluster_seeds[i]->calc_distance( fp ,
nearest_dist )` strictly below `nearest_dist` takes over. -/
def find_nearest_seed {β D : Type} [LinearOrder D] (calc_distance : β → β → D → D)
    (threshold : D) (cluster_seeds : List (Fingerprint β)) (fp : Fingerprint β) :
    Option Nat :=
  (cluster_seeds.enum.foldl
    (fun (st : Option Nat × D) (seed : Nat × Fingerprint β) =>
      let dist := calc_distance seed.2.bits fp.bits st.2
      if dist < st.2 then (some seed.1, dist) else st)
    (none, threshold)).1

/-- The first loop of `add_fps_to_clusters`: the fingerprint of the seed of every
cluster that is not empty, in order; `none` when a seed is not found (`exit( 1 )`),
or when the lookup leaves the array. -/
def cluster_seeds_loop {β : Type} (cluster_fps : List (Fingerprint β)) :
    List (List String) → Option (List (Fingerprint β))
  | [] => some []
  | [] :: rest => cluster_seeds_loop cluster_fps rest
  | (seed_name :: _) :: rest =>
    match find_fingerprint cluster_fps seed_name with
    | FindResult.found fp => (cluster_seeds_loop cluster_fps rest).map (fun fps => fp :: fps)
    | _ => none

/-- The function `add_fps_to_clusters`: the result is `cluster_seed_fps`,
`clusters` and `additions_dests` after the call. -/
def add_fps_to_clusters {β D : Type} [LinearOrder D] (calc_distance : β → β → D → D)
    (threshold : D) (cluster_fps new_fps : List (Fingerprint β))
    (clusters : List (List String)) :
    Option (List (Fingerprint β) × List (List String) × List Int) :=
  match cluster_seeds_loop cluster_fps clusters with
  | none => none
  | some cluster_seed_fps =>
    let r := new_fps.foldl
      (fun (st : List (List String) × List Int) fp =>
        match find_nearest_seed calc_distance threshold cluster_seed_fps fp with
        | none => (st.1, st.2 ++ [-1])
        | some nearest_seed =>
          (st.1.set nearest_seed (st.1.getD nearest_seed [] ++ [fp.name]),
           st.2 ++ [(nearest_seed : Int)]))
      (clusters, [])
    some (cluster_seed_fps, r.1, r.2)

/-- The library routine `std::stable_sort( first , last , comp )`, as an insertion
sort that takes the elements from the front, so that equivalent elements keep
their order. -/
def std_stable_sort {α : Type} (comp : α → α → Bool) (xs : List α) : List α :=
  xs.foldl (fun sorted x => sort_insert comp x sorted) []

/-- The pairs that `re_sort_amended_clusters` pushes onto `new_clus` for the
members of a cluster: the name and the distance of its fingerprint, looked up in
`clus_fps` and then in `new_fps`, from the seed; `none` when a member is in
neither array (a null pointer is dereferenced). -/
def new_clus_pairs {β D : Type} (calc_distance : β → β → D) (seed : Fingerprint β)
    (clus_fps new_fps : List (Fingerprint β)) : List String → Option (List (String × D))
  | [] => some []
  | name :: rest =>
    let fp :=
      match find_fingerprint clus_fps name with
      | FindResult.found fp => some fp
      | FindResult.not_found =>
        match find_fingerprint new_fps name with
        | FindResult.found fp => some fp
        | _ => none
      | FindResult.past_the_end => none
    match fp, new_clus_pairs calc_distance seed clus_fps new_fps rest with
    | some fp, some pairs => some ((name, calc_distance seed.bits fp.bits) :: pairs)
    | _, _ => none

/-- The local vector `new_clus` of `re_sort_amended_clusters` at the end of the pass
for cluster `i`: the pairs, sorted on the name and then stably on the distance. -/
def sorted_new_clus {β D : Type} [LinearOrder D] (calc_distance : β → β → D)
    (cluster_seed_fps clus_fps new_fps : List (Fingerprint β)) (i : Nat)
    (cluster : List String) : Option (List (String × D)) :=
  match cluster_seed_fps.get? i with
  | none => none
  | some seed =>
    (new_clus_pairs calc_distance seed clus_fps new_fps cluster).map
      (fun new_clus =>
        std_stable_sort (fun a b => decide (a.2 < b.2))
          (std_sort (fun a b => decide (a.1.toList < b.1.toList)) new_clus))

/-- The function `re_sort_amended_clusters`: for every cluster whose size differs
from its original size the local vector `new_clus` is built and sorted.  The
result is `clusters` after the call, and the vectors `new_clus` of the passes that
built one, each with the number of its cluster. -/
def re_sort_amended_clusters {β D : Type} [LinearOrder D] (calc_distance : β → β → D)
    (orig_sizes : List Nat) (cluster_seed_fps clus_fps new_fps : List (Fingerprint β))
    (clusters : List (List String)) :
    List (List String) × List (Nat × Option (List (String × D))) :=
  (List.range clusters.length).foldl
    (fun (st : List (List String) × List (Nat × Option (List (String × D)))) i =>
      if (st.1.getD i []).length = orig_sizes.getD i 0 then st
      else
        (st.1, st.2 ++ [(i, sorted_new_clus calc_distance cluster_seed_fps clus_fps new_fps i
          (st.1.getD i []))]))
    (clusters, [])

/-- The function `main` of `amtec.cc` without a subset file, from the clusters read
from the cluster file and the fingerprints read from the two fingerprint files:
both arrays are sorted by descending name, the original sizes are taken, the new
fingerprints are added, the amended clusters are re-sorted and the clusters are
written.  The result is the output cluster file, `none` when the program stops. -/
def main {β D : Type} [LinearOrder D] (calc_distance_within : β → β → D → D)
    (calc_distance : β → β → D) (threshold : D) (clusters : List (List String))
    (cluster_fps_in_file new_fps_in_file : List (Fingerprint β))
    (output_format : CLUS_FILE_FORMAT) : Option (List String) :=
  let cluster_fps :=
    std_sort (fun (a b : Fingerprint β) => decide (b.name.toList < a.name.toList))
      cluster_fps_in_file
  let new_fps :=
    std_sort (fun (a b : Fingerprint β) => decide (b.name.toList < a.name.toList))
      new_fps_in_file
  let orig_sizes := clusters.map List.length
  match add_fps_to_clusters calc_distance_within threshold cluster_fps new_fps clusters with
  | none => none
  | some added =>
    let r := re_sort_amended_clusters calc_distance orig_sizes added.1 cluster_fps new_fps
      added.2.1
    some (output_new_clusters r.1 orig_sizes output_format)

end Amtec

namespace Cad

/-- The function `find_fingerprint` of `cad.cc`, which differs from the one of
`amtec.cc` in that it stops the program when the range is empty. -/
def find_fingerprint {β : Type} (fps : List (Fingerprint β)) (fp_name : String) :
    FindResult β :=
  let seed_fp := equal_range_greater fps fp_name
  if seed_fp.1 = seed_fp.2 then FindResult.not_found
  else
    match fps.get? seed_fp.1 with
    | none => FindResult.past_the_end
    | some fp =>
      if fp_name = fp.name then FindResult.found fp
      else
        match fps.get? seed_fp.2 with
        | none => FindResult.past_the_end
        | some fp2 => FindResult.found fp2

end Cad

/-! ## The partition through the collapse of singletons -/

theorem sort_insert_perm {α : Type} (comp : α → α → Bool) (x : α) (l : List α) :
    (sort_insert comp x l).Perm (x :: l) := by
  induction l with
  | nil => simp [sort_insert]
  | cons y ys ih =>
    simp only [sort_insert]
    split
    · exact List.Perm.refl _
    · exact (List.Perm.cons y ih).trans (List.Perm.swap x y ys)

theorem std_sort_perm {α : Type} (comp : α → α → Bool) (l : List α) :
    (std_sort comp l).Perm l := by
  induction l with
  | nil => simp [std_sort]
  | cons x xs ih =>
    simp only [std_sort]
    exact (sort_insert_perm comp x _).trans (List.Perm.cons x ih)

theorem sort_insert_pairwise {α : Type} (comp : α → α → Bool)
    (hasym : ∀ a b, comp a b = true → comp b a = false)
    (htrans : ∀ a b c, comp b a = false → comp c b = false → comp c a = false)
    (x : α) (l : List α) (hl : l.Pairwise (fun a b => comp b a = false)) :
    (sort_insert comp x l).Pairwise (fun a b => comp b a = false) := by
  induction l with
  | nil => simp [sort_insert]
  | cons y ys ih =>
    simp only [sort_insert]
    rw [List.pairwise_cons] at hl
    split
    · rename_i hxy
      refine List.Pairwise.cons ?_ (List.Pairwise.cons hl.1 hl.2)
      intro b hb
      rcases List.mem_cons.mp hb with rfl | hb
      · exact hasym _ _ hxy
      · exact htrans _ _ _ (hasym _ _ hxy) (hl.1 b hb)
    · rename_i hxy
      refine List.Pairwise.cons ?_ (ih hl.2)
      intro b hb
      have hb2 := (sort_insert_perm comp x ys).subset hb
      rcases List.mem_cons.mp hb2 with rfl | hb2
      · simpa using hxy
      · exact hl.1 b hb2

theorem std_sort_pairwise {α : Type} (comp : α → α → Bool)
    (hasym : ∀ a b, comp a b = true → comp b a = false)
    (htrans : ∀ a b c, comp b a = false → comp c b = false → comp c a = false)
    (l : List α) : (std_sort comp l).Pairwise (fun a b => comp b a = false) := by
  induction l with
  | nil => simp [std_sort]
  | cons x xs ih =>
    simp only [std_sort]
    exact sort_insert_pairwise comp hasym htrans x _ ih

theorem SortNbsByDist_iff {D : Type} [LinearOrder D] (a b : Nat × D) :
    SortNbsByDist a b = true ↔ (a.2 < b.2 ∨ (a.2 = b.2 ∧ a.1 > b.1)) := by
  unfold SortNbsByDist
  by_cases h : a.2 = b.2
  · simp [h]
  · simp [h]

theorem SortNbsByDist_false_iff {D : Type} [LinearOrder D] (a b : Nat × D) :
    SortNbsByDist a b = false ↔ (b.2 < a.2 ∨ (a.2 = b.2 ∧ a.1 ≤ b.1)) := by
  unfold SortNbsByDist
  by_cases h : a.2 = b.2
  · simp [h]
  · simp only [h, if_false, decide_eq_false_iff_not, not_lt, false_and, or_false]
    exact ⟨fun h2 => lt_of_le_of_ne h2 (Ne.symm h), le_of_lt⟩

theorem SortNbsByDist_asymm {D : Type} [LinearOrder D] (a b : Nat × D)
    (h : SortNbsByDist a b = true) : SortNbsByDist b a = false := by
  rw [SortNbsByDist_iff] at h
  rw [SortNbsByDist_false_iff]
  rcases h with h | ⟨h1, h2⟩
  · exact Or.inl h
  · exact Or.inr ⟨h1.symm, le_of_lt h2⟩

theorem SortNbsByDist_trans {D : Type} [LinearOrder D] (a b c : Nat × D)
    (h1 : SortNbsByDist b a = false) (h2 : SortNbsByDist c b = false) :
    SortNbsByDist c a = false := by
  rw [SortNbsByDist_false_iff] at *
  rcases h1 with h1 | ⟨h1, h1b⟩ <;> rcases h2 with h2 | ⟨h2, h2b⟩
  · exact Or.inl (lt_trans h1 h2)
  · exact Or.inl (h2 ▸ h1)
  · exact Or.inl (h1 ▸ h2)
  · exact Or.inr ⟨h2.trans h1, le_trans h2b h1b⟩

theorem SortNbsByDist_total {D : Type} [LinearOrder D] (a b : Nat × D)
    (hne : a.1 ≠ b.1) (h : SortNbsByDist b a = false) : SortNbsByDist a b = true := by
  rw [SortNbsByDist_false_iff] at h
  rw [SortNbsByDist_iff]
  rcases h with h | ⟨h1, h2⟩
  · exact Or.inl h
  · exact Or.inr ⟨h1.symm, lt_of_le_of_ne h2 (Ne.symm hne)⟩

theorem nbs_filterMap_fst {D : Type} [LinearOrder D] (calc_distance : Nat → Nat → D → D)
    (toFloat : D → D) (threshold : D) (i : Nat) (l : List Nat) :
    (l.filterMap (fun j =>
      if i = j then none
      else
        let dist := calc_distance i j threshold
        if dist < threshold then some (j, toFloat dist) else none)).map Prod.fst
    = l.filter (fun j => decide (i ≠ j) && decide (calc_distance i j threshold < threshold)) := by
  induction l with
  | nil => rfl
  | cons j js ih =>
    by_cases h1 : i = j
    · simpa [List.filterMap_cons, List.filter_cons, h1] using ih
    · by_cases h2 : calc_distance i j threshold < threshold
      · simp only [List.filterMap_cons, List.filter_cons, h1, h2, if_false, if_true,
          List.map_cons, ne_eq, not_false_eq_true, decide_True, Bool.and_self]
        rw [ih]
      · simp only [List.filterMap_cons, List.filter_cons, h1, h2, if_false,
          ne_eq, not_false_eq_true, decide_True, decide_False, Bool.and_false]
        rw [ih]
        simp

theorem nbs_filterMap_snd {D : Type} [LinearOrder D] (calc_distance : Nat → Nat → D → D)
    (toFloat : D → D) (threshold : D) (i : Nat) (l : List Nat) (p : Nat × D)
    (hp : p ∈ l.filterMap (fun j =>
      if i = j then none
      else
        let dist := calc_distance i j threshold
        if dist < threshold then some (j, toFloat dist) else none)) :
    p.2 = toFloat (calc_distance i p.1 threshold) := by
  rw [List.mem_filterMap] at hp
  obtain ⟨j, _, hj⟩ := hp
  by_cases h1 : i = j
  · simp [h1] at hj
  · by_cases h2 : calc_distance i j threshold < threshold
    · simp only [h1, h2, if_false, if_true, Option.some.injEq] at hj
      rw [← hj]
    · simp [h1, h2] at hj

theorem sort_nbs_tail_cons {D : Type} [LinearOrder D] (p : Nat × D) (tl : List (Nat × D)) :
    sort_nbs_tail (p :: tl) = p :: std_sort SortNbsByDist tl := by
  cases tl with
  | nil => simp [sort_nbs_tail, std_sort]
  | cons q tl => simp [sort_nbs_tail]

theorem make_nnlist_eq {D : Type} [LinearOrder D] [Zero D] (calc_distance : Nat → Nat → D → D)
    (toFloat : D → D) (threshold : D) (num_fps i : Nat) :
    make_nnlist calc_distance toFloat threshold num_fps i
      = i :: (sorted_nbs_tail calc_distance toFloat threshold num_fps i).map Prod.fst := by
  unfold make_nnlist make_nbs sorted_nbs_tail
  rw [sort_nbs_tail_cons]
  rfl

theorem make_nnlist_tail_perm {D : Type} [LinearOrder D] (calc_distance : Nat → Nat → D → D)
    (toFloat : D → D) (threshold : D) (num_fps i : Nat) :
    ((sorted_nbs_tail calc_distance toFloat threshold num_fps i).map Prod.fst).Perm
      (nbs_indices calc_distance threshold num_fps i) := by
  unfold sorted_nbs_tail nbs_indices
  rw [← nbs_filterMap_fst calc_distance toFloat threshold i]
  exact (std_sort_perm _ _).map _

theorem nbs_indices_nodup {D : Type} [LinearOrder D] (calc_distance : Nat → Nat → D → D)
    (threshold : D) (num_fps i : Nat) :
    (nbs_indices calc_distance threshold num_fps i).Nodup :=
  (List.nodup_range num_fps).filter _

theorem mem_nbs_indices {D : Type} [LinearOrder D] (calc_distance : Nat → Nat → D → D)
    (threshold : D) (num_fps i j : Nat) :
    j ∈ nbs_indices calc_distance threshold num_fps i
      ↔ (j < num_fps ∧ j ≠ i ∧ calc_distance i j threshold < threshold) := by
  unfold nbs_indices
  simp only [List.mem_filter, List.mem_range, Bool.and_eq_true, decide_eq_true_eq]
  constructor
  · rintro ⟨h1, h2, h3⟩
    exact ⟨h1, fun h => h2 h.symm, h3⟩
  · rintro ⟨h1, h2, h3⟩
    exact ⟨h1, fun h => h2 h.symm, h3⟩

theorem make_nnlists_eq {D : Type} [LinearOrder D] [Zero D] (calc_distance : Nat → Nat → D → D)
    (toFloat : D → D) (threshold : D) (start_num stop_num num_fps : Nat)
    (nns : List (List Nat)) :
    make_nnlists calc_distance toFloat threshold start_num stop_num num_fps nns
      = nns ++ (List.range' start_num (min stop_num num_fps - start_num)).map
          (make_nnlist calc_distance toFloat threshold num_fps) := by
  unfold make_nnlists
  simp only []
  congr 3
  split
  · rename_i h
    rw [Nat.min_eq_right (Nat.le_of_lt h)]
  · rename_i h
    rw [Nat.min_eq_left (Nat.le_of_not_lt h)]

theorem make_nnlists_getD {D : Type} [LinearOrder D] [Zero D] (calc_distance : Nat → Nat → D → D)
    (toFloat : D → D) (threshold : D) (start_num stop_num num_fps : Nat)
    (nns : List (List Nat)) (k : Nat) (hk : k < min stop_num num_fps - start_num) :
    (make_nnlists calc_distance toFloat threshold start_num stop_num num_fps nns).getD
        (nns.length + k) []
      = make_nnlist calc_distance toFloat threshold num_fps (start_num + k) := by
  rw [make_nnlists_eq, List.getD_eq_getElem?_getD, List.getElem?_append_right (Nat.le_add_right _ _)]
  simp [List.getElem?_range', hk]

/-- C5. Neighbour-list membership: `make_nnlists` keeps the lists it was given
and appends `min(stop_num, fps.size()) - start_num` lists; the `k`-th appended
list is the pivot `start_num + k` followed by a duplicate-free list that holds `j`
exactly when `j` is an index of the array other than the pivot whose
`calc_distance` to the pivot is below the threshold. -/
theorem make_nnlists_membership {D : Type} [LinearOrder D] [Zero D]
    (calc_distance : Nat → Nat → D → D) (toFloat : D → D) (threshold : D)
    (start_num stop_num num_fps : Nat) (nns : List (List Nat)) :
    (make_nnlists calc_distance toFloat threshold start_num stop_num num_fps nns).length
        = nns.length + (min stop_num num_fps - start_num)
    ∧ (make_nnlists calc_distance toFloat threshold start_num stop_num num_fps nns).take nns.length
        = nns
    ∧ ∀ k, k < min stop_num num_fps - start_num →
        ∃ tail : List Nat,
          (make_nnlists calc_distance toFloat threshold start_num stop_num num_fps nns).getD
              (nns.length + k) [] = (start_num + k) :: tail
          ∧ tail.Nodup
          ∧ ∀ j, j ∈ tail ↔
              (j < num_fps ∧ j ≠ start_num + k
                ∧ calc_distance (start_num + k) j threshold < threshold) := by
  refine ⟨?_, ?_, ?_⟩
  · rw [make_nnlists_eq]
    simp
  · rw [make_nnlists_eq]
    simp
  · intro k hk
    refine ⟨(sorted_nbs_tail calc_distance toFloat threshold num_fps (start_num + k)).map Prod.fst,
      ?_, ?_, ?_⟩
    · rw [make_nnlists_getD _ _ _ _ _ _ _ _ hk, make_nnlist_eq]
    · exact (make_nnlist_tail_perm calc_distance toFloat threshold num_fps _).nodup_iff.mpr
        (nbs_indices_nodup _ _ _ _)
    · intro j
      rw [(make_nnlist_tail_perm calc_distance toFloat threshold num_fps _).mem_iff]
      exact mem_nbs_indices _ _ _ _ _

/-- Witness for C5 on five fingerprints with distances `(i + j) % 4`, threshold 3,
pivots 1 to 3 appended to one earlier list. -/
theorem make_nnlists_membership_witness :
    (make_nnlists (fun i j (_ : Nat) => (i + j) % 4) id 3 1 4 5 [[0]]).length = 1 + (min 4 5 - 1)
    ∧ (make_nnlists (fun i j (_ : Nat) => (i + j) % 4) id 3 1 4 5 [[0]]).take 1 = [[0]]
    ∧ ∀ k, k < min 4 5 - 1 →
        ∃ tail : List Nat,
          (make_nnlists (fun i j (_ : Nat) => (i + j) % 4) id 3 1 4 5 [[0]]).getD (1 + k) []
            = (1 + k) :: tail
          ∧ tail.Nodup
          ∧ ∀ j, j ∈ tail ↔ (j < 5 ∧ j ≠ 1 + k ∧ (1 + k + j) % 4 < 3) :=
  make_nnlists_membership (fun i j (_ : Nat) => (i + j) % 4) id 3 1 4 5 [[0]]

theorem sorted_nbs_tail_chain {D : Type} [LinearOrder D] (calc_distance : Nat → Nat → D → D)
    (toFloat : D → D) (threshold : D) (num_fps i : Nat) :
    ((sorted_nbs_tail calc_distance toFloat threshold num_fps i).map Prod.fst).Chain'
      (fun j k =>
        toFloat (calc_distance i j threshold) < toFloat (calc_distance i k threshold)
        ∨ (toFloat (calc_distance i j threshold) = toFloat (calc_distance i k threshold)
            ∧ j > k)) := by
  rw [List.chain'_map]
  apply List.Pairwise.chain'
  have hsorted := std_sort_pairwise (@SortNbsByDist D _) SortNbsByDist_asymm
    SortNbsByDist_trans ((List.range num_fps).filterMap (fun j =>
      if i = j then none
      else
        let dist := calc_distance i j threshold
        if dist < threshold then some (j, toFloat dist) else none))
  have hnodup : ((sorted_nbs_tail calc_distance toFloat threshold num_fps i).map Prod.fst).Nodup :=
    (make_nnlist_tail_perm calc_distance toFloat threshold num_fps i).nodup_iff.mpr
      (nbs_indices_nodup _ _ _ _)
  rw [List.Nodup, List.pairwise_map] at hnodup
  have hboth := hsorted.and hnodup
  refine List.Pairwise.imp_of_mem ?_ hboth
  intro a b ha hb hab
  have ha2 := nbs_filterMap_snd calc_distance toFloat threshold i _ a
    ((std_sort_perm _ _).subset ha)
  have hb2 := nbs_filterMap_snd calc_distance toFloat threshold i _ b
    ((std_sort_perm _ _).subset hb)
  have hlt := SortNbsByDist_total a b hab.2 hab.1
  rw [SortNbsByDist_iff] at hlt
  rw [← ha2, ← hb2]
  exact hlt

/-- The counterexample to C6: three fingerprints with `d(0,1) = 2` and
`d(0,2) = 3`, both below the threshold 5, and a narrowing to `float` that cannot
tell 2 from 3 (it gives 2 for both).  The two neighbours are stored at the same
distance, so the higher index comes first: the list of pivot 0 is `[0, 2, 1]`, with
the fingerprint at distance 3 before the one at distance 2; for its consecutive
tail entries `j = 2`, `k = 1` neither `d(j) < d(k)` holds nor `d(j) = d(k)`. -/
theorem make_nnlists_order_not_by_distance :
    make_nnlists
        (fun i j (_ : Nat) => (([[0, 2, 3], [2, 0, 9], [3, 9, 0]] : List (List Nat)).getD i []).getD j 0)
        (fun d => d / 2 * 2) 5 0 1 3 [] = [[0, 2, 1]]
    ∧ (fun i j (_ : Nat) => (([[0, 2, 3], [2, 0, 9], [3, 9, 0]] : List (List Nat)).getD i []).getD j 0)
        0 2 5 = 3
    ∧ (fun i j (_ : Nat) => (([[0, 2, 3], [2, 0, 9], [3, 9, 0]] : List (List Nat)).getD i []).getD j 0)
        0 1 5 = 2
    ∧ ¬ ((fun i j (_ : Nat) =>
            (([[0, 2, 3], [2, 0, 9], [3, 9, 0]] : List (List Nat)).getD i []).getD j 0) 0 2 5
          < (fun i j (_ : Nat) =>
            (([[0, 2, 3], [2, 0, 9], [3, 9, 0]] : List (List Nat)).getD i []).getD j 0) 0 1 5
        ∨ ((fun i j (_ : Nat) =>
            (([[0, 2, 3], [2, 0, 9], [3, 9, 0]] : List (List Nat)).getD i []).getD j 0) 0 2 5
          = (fun i j (_ : Nat) =>
            (([[0, 2, 3], [2, 0, 9], [3, 9, 0]] : List (List Nat)).getD i []).getD j 0) 0 1 5
          ∧ 2 > 1)) := by
  decide

/-- C6 (amended). Neighbour-list order: every list that `make_nnlists` appends
starts with its pivot `i`, and the remaining entries are sorted by ascending stored
distance, the distance to the pivot narrowed to the `float` of `pair<int,float>`,
with entries at equal stored distance in descending index order: for consecutive
entries `j`, `k` after the pivot the stored distances
`d(j) = float(calc_distance(i, j))` satisfy `d(j) < d(k)`, or `d(j) = d(k)` and
`j > k`. -/
theorem make_nnlists_order {D : Type} [LinearOrder D] [Zero D]
    (calc_distance : Nat → Nat → D → D) (toFloat : D → D) (threshold : D)
    (start_num stop_num num_fps : Nat) (nns : List (List Nat)) (l : List Nat)
    (hl : l ∈ (make_nnlists calc_distance toFloat threshold start_num stop_num num_fps nns).drop
      nns.length) :
    ∃ (i : Nat) (tail : List Nat), l = i :: tail ∧ start_num ≤ i ∧ i < min stop_num num_fps
      ∧ tail.Chain' (fun j k =>
          toFloat (calc_distance i j threshold) < toFloat (calc_distance i k threshold)
          ∨ (toFloat (calc_distance i j threshold) = toFloat (calc_distance i k threshold)
              ∧ j > k)) := by
  rw [make_nnlists_eq, List.drop_left, List.mem_map] at hl
  obtain ⟨i, hi, rfl⟩ := hl
  rw [List.mem_range'_1] at hi
  refine ⟨i, _, make_nnlist_eq _ _ _ _ _, hi.1, by omega, ?_⟩
  exact sorted_nbs_tail_chain _ _ _ _ _

/-- Witness for C6 (amended): the list of pivot 1 among five fingerprints with
distances `(i + j) % 4` and threshold 3. -/
theorem make_nnlists_order_witness :
    ∃ (i : Nat) (tail : List Nat), [1, 3, 4, 0] = i :: tail ∧ 1 ≤ i ∧ i < min 4 5
      ∧ tail.Chain' (fun j k =>
          id ((i + j) % 4) < id ((i + k) % 4) ∨ (id ((i + j) % 4) = id ((i + k) % 4) ∧ j > k)) :=
  make_nnlists_order (fun i j (_ : Nat) => (i + j) % 4) id 3 1 4 5 [[0]] [1, 3, 4, 0] (by decide)

/-! ### The flags of `in_cluster` -/

theorem mark_in_cluster_length (v : Bool) (cluster : List Nat) (in_cluster : List Bool) :
    (mark_in_cluster v cluster in_cluster).length = in_cluster.length := by
  unfold mark_in_cluster
  induction cluster generalizing in_cluster with
  | nil => rfl
  | cons c cs ih => simp only [List.foldl_cons]; rw [ih]; simp

theorem mark_in_cluster_true_getD (cluster : List Nat) (in_cluster : List Bool) (x : Nat) :
    (mark_in_cluster true cluster in_cluster).getD x false
      = (decide (x ∈ cluster ∧ x < in_cluster.length) || in_cluster.getD x false) := by
  unfold mark_in_cluster
  induction cluster generalizing in_cluster with
  | nil => simp
  | cons c cs ih =>
    simp only [List.foldl_cons]
    rw [ih]
    simp only [List.length_set, List.getD_eq_getElem?_getD, List.getElem?_set, List.mem_cons]
    by_cases hc : c = x
    · subst hc
      by_cases hlen : c < in_cluster.length
      · simp [hlen]
      · have : in_cluster[c]? = none := List.getElem?_eq_none (Nat.le_of_not_lt hlen)
        simp [hlen, this]
    · have hc2 : ¬ x = c := fun h => hc h.symm
      simp [hc, hc2]

theorem mark_in_cluster_false_getD (cluster : List Nat) (in_cluster : List Bool) (x : Nat) :
    (mark_in_cluster false cluster in_cluster).getD x false
      = (in_cluster.getD x false && !decide (x ∈ cluster)) := by
  unfold mark_in_cluster
  induction cluster generalizing in_cluster with
  | nil => simp
  | cons c cs ih =>
    simp only [List.foldl_cons]
    rw [ih]
    simp only [List.getD_eq_getElem?_getD, List.getElem?_set, List.mem_cons]
    by_cases hc : c = x
    · subst hc
      by_cases hlen : c < in_cluster.length
      · simp [hlen]
      · simp [hlen]
    · have hc2 : ¬ x = c := fun h => hc h.symm
      simp [hc, hc2]

theorem getD_replicate_false (n x : Nat) : (List.replicate n false).getD x false = false := by
  rw [List.getD_eq_getElem?_getD, List.getElem?_replicate]
  split <;> rfl

theorem eq_replicate_false_of_getD (n : Nat) (l : List Bool) (hlen : l.length = n)
    (h : ∀ x, l.getD x false = false) : l = List.replicate n false := by
  rw [List.eq_replicate_iff]
  refine ⟨hlen, ?_⟩
  intro b hb
  obtain ⟨i, hi⟩ := List.mem_iff_getElem?.mp hb
  have := h i
  rw [List.getD_eq_getElem?_getD, hi] at this
  simpa using this

theorem in_cluster_alloc (num_fps : Nat) (in_cluster : List Bool)
    (hic : InClusterOk num_fps in_cluster) :
    (if in_cluster.isEmpty then List.replicate num_fps false else in_cluster)
      = List.replicate num_fps false := by
  rcases hic with h | h
  · simp [h]
  · split
    · rfl
    · exact h

/-! ### Removal in terms of membership -/

theorem remove_cluster_from_list_eq (num_fps : Nat) (cluster l : List Nat)
    (hl : ∀ x ∈ l, x < num_fps) :
    remove_cluster_from_list (mark_in_cluster true cluster (List.replicate num_fps false)) l
      = remove_members cluster l := by
  have hflag : ∀ x ∈ l, (mark_in_cluster true cluster (List.replicate num_fps false)).getD x false
      = decide (x ∈ cluster) := by
    intro x hx
    rw [mark_in_cluster_true_getD, getD_replicate_false]
    simp [hl x hx]
  unfold remove_cluster_from_list remove_members
  cases l with
  | nil => simp
  | cons a t =>
    simp only [List.isEmpty_cons, Bool.false_eq_true, if_false, List.headD_cons]
    have hfa := hflag a (List.mem_cons_self _ _)
    by_cases ha : a ∈ cluster
    · simp only [ha, decide_True] at hfa
      simp only [ha, hfa, if_true, List.map_nil, List.filterMap_nil]
    · simp only [ha, decide_False] at hfa
      simp only [ha, hfa, Bool.false_eq_true, if_false]
      rw [List.filterMap_map]
      generalize hat : a :: t = l at hflag
      clear hat hl ha
      induction l with
      | nil => rfl
      | cons b u ih =>
        have hb := hflag b (List.mem_cons_self _ _)
        have ih2 := ih (fun x hx => hflag x (List.mem_cons_of_mem _ hx))
        by_cases hbc : b ∈ cluster
        · simp only [hbc, decide_True] at hb
          simp only [List.filterMap_cons, Function.comp, hb, if_true, id, List.filter_cons,
            hbc, not_true_eq_false, decide_False, Bool.false_eq_true, if_false]
          exact ih2
        · simp only [hbc, decide_False] at hb
          simp only [List.filterMap_cons, Function.comp, hb, Bool.false_eq_true, if_false, id,
            List.filter_cons, hbc, not_false_eq_true, decide_True, if_true]
          rw [ih2]

theorem remove_cluster_from_nns_eq (num_fps : Nat) (in_cluster : List Bool)
    (cluster : List Nat) (nns : List (List Nat))
    (hic : InClusterOk num_fps in_cluster) (hg : ∀ l ∈ nns, ∀ x ∈ l, x < num_fps) :
    remove_cluster_from_nns in_cluster num_fps cluster nns
      = (List.replicate num_fps false, remove_members_graph cluster nns) := by
  unfold remove_cluster_from_nns remove_members_graph
  simp only []
  rw [in_cluster_alloc num_fps in_cluster hic]
  congr 1
  · apply eq_replicate_false_of_getD
    · rw [mark_in_cluster_length, mark_in_cluster_length, List.length_replicate]
    · intro x
      rw [mark_in_cluster_false_getD, mark_in_cluster_true_getD, getD_replicate_false]
      by_cases hx : x ∈ cluster <;> simp [hx]
  · congr 1
    apply List.map_congr_left
    intro l hl
    exact remove_cluster_from_list_eq num_fps cluster l (hg l hl)

/-! ### Seed selection -/

theorem find_next_seed_fold_succ (nns : List (List Nat)) (orig_nn_sizes : List Nat) (k : Nat) :
    (List.range' 1 (k + 1)).foldl (find_next_seed_step nns orig_nn_sizes) 0
      = find_next_seed_step nns orig_nn_sizes
          ((List.range' 1 k).foldl (find_next_seed_step nns orig_nn_sizes) 0) (k + 1) := by
  rw [List.range'_concat, List.foldl_append]
  simp [Nat.add_comm]

theorem find_next_seed_fold_le (nns : List (List Nat)) (orig_nn_sizes : List Nat) (k : Nat) :
    (List.range' 1 k).foldl (find_next_seed_step nns orig_nn_sizes) 0 ≤ k
    ∧ ∀ i, i ≤ k → (nns.getD i []).length
        ≤ (nns.getD ((List.range' 1 k).foldl (find_next_seed_step nns orig_nn_sizes) 0) []).length := by
  induction k with
  | zero =>
    refine ⟨by simp, ?_⟩
    intro i hi
    have : i = 0 := by omega
    subst this
    simp
  | succ k ih =>
    rw [find_next_seed_fold_succ]
    generalize (List.range' 1 k).foldl (find_next_seed_step nns orig_nn_sizes) 0 = b at ih
    obtain ⟨hb, hmax⟩ := ih
    unfold find_next_seed_step
    split
    · rename_i h1
      refine ⟨le_refl _, ?_⟩
      intro i hi
      by_cases hik : i = k + 1
      · subst hik; exact le_refl _
      · have := hmax i (by omega)
        omega
    · rename_i h1
      split
      · rename_i h2
        split
        · refine ⟨le_refl _, ?_⟩
          intro i hi
          by_cases hik : i = k + 1
          · subst hik; exact le_refl _
          · have := hmax i (by omega)
            omega
        · refine ⟨by omega, ?_⟩
          intro i hi
          by_cases hik : i = k + 1
          · subst hik; omega
          · exact hmax i (by omega)
      · refine ⟨by omega, ?_⟩
        intro i hi
        by_cases hik : i = k + 1
        · subst hik; omega
        · exact hmax i (by omega)

theorem find_next_seed_lt (nns : List (List Nat)) (orig_nn_sizes : List Nat) (h : nns ≠ []) :
    find_next_seed nns orig_nn_sizes < nns.length := by
  have hlen : 0 < nns.length := List.length_pos.mpr h
  have := (find_next_seed_fold_le nns orig_nn_sizes (nns.length - 1)).1
  unfold find_next_seed
  omega

theorem find_next_seed_mem (nns : List (List Nat)) (orig_nn_sizes : List Nat) (h : nns ≠ []) :
    nns.getD (find_next_seed nns orig_nn_sizes) [] ∈ nns := by
  have hlt := find_next_seed_lt nns orig_nn_sizes h
  rw [List.getD_eq_getElem _ _ hlt]
  exact List.getElem_mem _

theorem find_next_seed_longest (nns : List (List Nat)) (orig_nn_sizes : List Nat)
    (l : List Nat) (hl : l ∈ nns) :
    l.length ≤ (nns.getD (find_next_seed nns orig_nn_sizes) []).length := by
  obtain ⟨i, hi, rfl⟩ := List.getElem_of_mem hl
  have := (find_next_seed_fold_le nns orig_nn_sizes (nns.length - 1)).2 i (by omega)
  rw [List.getD_eq_getElem _ _ hi] at this
  exact this

theorem heads_ascending_getD (nns : List (List Nat))
    (hasc : (nns.map (fun l => l.headD 0)).Pairwise (fun a b => a < b))
    (i j : Nat) (hij : i < j) (hj : j < nns.length) :
    (nns.getD i []).headD 0 < (nns.getD j []).headD 0 := by
  rw [List.pairwise_map, List.pairwise_iff_getElem] at hasc
  have := hasc i j (by omega) hj hij
  rw [List.getD_eq_getElem _ _ hj, List.getD_eq_getElem _ _ (by omega : i < nns.length)]
  exact this

theorem find_next_seed_fold_max (nns : List (List Nat)) (orig_nn_sizes : List Nat)
    (hasc : (nns.map (fun l => l.headD 0)).Pairwise (fun a b => a < b))
    (k : Nat) (hk : k < nns.length) :
    ∀ i, i ≤ k → i ≠ (List.range' 1 k).foldl (find_next_seed_step nns orig_nn_sizes) 0 →
      seed_key_lt orig_nn_sizes (nns.getD i [])
        (nns.getD ((List.range' 1 k).foldl (find_next_seed_step nns orig_nn_sizes) 0) []) := by
  induction k with
  | zero =>
    intro i hi hne
    simp at hne
    omega
  | succ k ih =>
    have ih := ih (by omega)
    have hble := (find_next_seed_fold_le nns orig_nn_sizes k).1
    rw [find_next_seed_fold_succ]
    generalize (List.range' 1 k).foldl (find_next_seed_step nns orig_nn_sizes) 0 = b at ih hble
    have hhead : ∀ i, i ≤ k → (nns.getD i []).headD 0 < (nns.getD (k + 1) []).headD 0 :=
      fun i hi => heads_ascending_getD nns hasc i (k + 1) (by omega) hk
    have hb := hhead b hble
    unfold find_next_seed_step
    unfold seed_key_lt at ih ⊢
    split
    · rename_i h1
      intro i hi hne
      by_cases hib : i = b
      · subst hib; left; omega
      · have := ih i (by omega) hib
        omega
    · rename_i h1
      split
      · rename_i h2
        split
        · rename_i h3
          intro i hi hne
          by_cases hib : i = b
          · subst hib; omega
          · have := ih i (by omega) hib
            omega
        · rename_i h3
          intro i hi hne
          by_cases hik : i = k + 1
          · subst hik; omega
          · exact ih i (by omega) hne
      · rename_i h2
        intro i hi hne
        by_cases hik : i = k + 1
        · subst hik; omega
        · exact ih i (by omega) hne

theorem find_next_seed_max (nns : List (List Nat)) (orig_nn_sizes : List Nat)
    (hasc : (nns.map (fun l => l.headD 0)).Pairwise (fun a b => a < b))
    (i : Nat) (hi : i < nns.length) (hne : i ≠ find_next_seed nns orig_nn_sizes) :
    seed_key_lt orig_nn_sizes (nns.getD i [])
      (nns.getD (find_next_seed nns orig_nn_sizes) []) :=
  find_next_seed_fold_max nns orig_nn_sizes hasc (nns.length - 1) (by omega) i (by omega) hne

/-! ### What the removal leaves -/

theorem remove_members_cons (cluster : List Nat) (a : Nat) (t : List Nat) (ha : a ∉ cluster) :
    remove_members cluster (a :: t) = a :: t.filter (fun x => decide (x ∉ cluster)) := by
  simp [remove_members, ha, List.filter_cons]

theorem remove_members_of_mem (cluster : List Nat) (a : Nat) (t : List Nat) (ha : a ∈ cluster) :
    remove_members cluster (a :: t) = [] := by
  simp [remove_members, ha]

theorem remove_members_sublist (cluster l : List Nat) : (remove_members cluster l).Sublist l := by
  unfold remove_members
  split
  · exact List.nil_sublist _
  · exact List.filter_sublist _

theorem mem_remove_members_graph (cluster : List Nat) (nns : List (List Nat)) (l2 : List Nat)
    (h : l2 ∈ remove_members_graph cluster nns) :
    ∃ a t, (a :: t) ∈ nns ∧ a ∉ cluster
      ∧ l2 = a :: t.filter (fun x => decide (x ∉ cluster)) := by
  unfold remove_members_graph at h
  rw [List.mem_filter, List.mem_map] at h
  obtain ⟨⟨l, hl, rfl⟩, hne⟩ := h
  cases l with
  | nil => simp [remove_members] at hne
  | cons a t =>
    by_cases ha : a ∈ cluster
    · rw [remove_members_of_mem _ _ _ ha] at hne
      simp at hne
    · exact ⟨a, t, hl, ha, remove_members_cons _ _ _ ha⟩

theorem remove_members_graph_append (cluster : List Nat) (g1 g2 : List (List Nat)) :
    remove_members_graph cluster (g1 ++ g2)
      = remove_members_graph cluster g1 ++ remove_members_graph cluster g2 := by
  simp [remove_members_graph]

theorem remove_members_graph_ok (num_fps : Nat) (cluster : List Nat) (nns : List (List Nat))
    (hg : GraphOk num_fps nns) : GraphOk num_fps (remove_members_graph cluster nns) := by
  intro l2 hl2
  obtain ⟨a, t, hmem, _, rfl⟩ := mem_remove_members_graph cluster nns l2 hl2
  refine ⟨by simp, ?_⟩
  intro x hx
  have hsub : x ∈ a :: t := by
    rcases List.mem_cons.mp hx with rfl | hx
    · exact List.mem_cons_self _ _
    · exact List.mem_cons_of_mem _ (List.mem_of_mem_filter hx)
  exact (hg _ hmem).2 x hsub

theorem remove_members_graph_length_lt (cluster : List Nat) (nns : List (List Nat))
    (hmem : cluster ∈ nns) (hne : cluster ≠ []) :
    (remove_members_graph cluster nns).length < nns.length := by
  unfold remove_members_graph
  have h1 : (nns.map (remove_members cluster)).length = nns.length := List.length_map _ _
  rw [← h1]
  rw [List.length_filter_lt_length_iff_exists]
  refine ⟨remove_members cluster cluster, List.mem_map_of_mem _ hmem, ?_⟩
  cases cluster with
  | nil => exact absurd rfl hne
  | cons a t => simp [remove_members]

theorem remove_members_graph_heads (cluster : List Nat) (nns : List (List Nat))
    (hne : ∀ l ∈ nns, l ≠ []) :
    (remove_members_graph cluster nns).map (fun l => l.headD 0)
      = (nns.map (fun l => l.headD 0)).filter (fun x => decide (x ∉ cluster)) := by
  induction nns with
  | nil => rfl
  | cons l g ih =>
    have ih2 := ih (fun l2 hl2 => hne l2 (List.mem_cons_of_mem _ hl2))
    have hcons : remove_members_graph cluster (l :: g)
        = remove_members_graph cluster [l] ++ remove_members_graph cluster g :=
      remove_members_graph_append cluster [l] g
    rw [hcons, List.map_append, ih2]
    cases l with
    | nil => exact absurd rfl (hne [] (List.mem_cons_self _ _))
    | cons a t =>
      by_cases ha : a ∈ cluster
      · simp [remove_members_graph, remove_members_of_mem _ _ _ ha, List.filter_cons, ha]
      · simp [remove_members_graph, remove_members_cons _ _ _ ha, List.filter_cons, ha]

/-! ### The clustering loop -/

theorem output_clusters_loop_emits (num_fps : Nat) (orig_nn_sizes : List Nat) :
    ∀ (fuel : Nat) (in_cluster : List Bool) (nns : List (List Nat)),
      InClusterOk num_fps in_cluster → GraphOk num_fps nns → nns.length ≤ fuel →
      ∃ cs, output_clusters_loop num_fps orig_nn_sizes fuel in_cluster nns = some cs
        ∧ Emits orig_nn_sizes nns cs := by
  intro fuel
  induction fuel with
  | zero =>
    intro ic nns _ _ hlen
    have : nns = [] := List.eq_nil_of_length_eq_zero (by omega)
    subst this
    exact ⟨[], by simp [output_clusters_loop], Emits.done⟩
  | succ fuel ih =>
    intro ic nns hic hg hlen
    by_cases hnil : nns = []
    · subst hnil
      exact ⟨[], by simp [output_clusters_loop], Emits.done⟩
    · have hmem := find_next_seed_mem nns orig_nn_sizes hnil
      have hcne := (hg _ hmem).1
      have hlt := remove_members_graph_length_lt _ nns hmem hcne
      obtain ⟨rest, hrest, hemits⟩ := ih (List.replicate num_fps false)
        (remove_members_graph (nns.getD (find_next_seed nns orig_nn_sizes) []) nns)
        (Or.inr rfl) (remove_members_graph_ok _ _ _ hg) (by omega)
      refine ⟨_, ?_, Emits.pass nns rest hnil hemits⟩
      have hempty : nns.isEmpty = false := by
        cases nns with
        | nil => exact absurd rfl hnil
        | cons _ _ => rfl
      simp only [output_clusters_loop, hempty, Bool.false_eq_true, if_false]
      rw [remove_cluster_from_nns_eq num_fps ic _ nns hic (fun l hl => (hg l hl).2)]
      simp only [hrest, Option.map_some']

theorem Emits_unique (orig_nn_sizes : List Nat) (nns : List (List Nat))
    (cs1 cs2 : List (List Nat × Nat))
    (h1 : Emits orig_nn_sizes nns cs1) (h2 : Emits orig_nn_sizes nns cs2) : cs1 = cs2 := by
  induction h1 generalizing cs2 with
  | done =>
    cases h2 with
    | done => rfl
    | pass _ _ hne _ => exact absurd rfl hne
  | pass nns rest hne _ ih =>
    cases h2 with
    | done => exact absurd rfl hne
    | pass _ rest2 _ h2 => rw [ih rest2 h2]

theorem Emits_sizes (orig_nn_sizes : List Nat) (nns : List (List Nat))
    (cs : List (List Nat × Nat)) (h : Emits orig_nn_sizes nns cs) :
    (cs.map (fun c => c.1.length)).Chain' (fun a b => a ≥ b)
    ∧ ∀ c ∈ cs, ∃ l ∈ nns, c.1.length ≤ l.length := by
  induction h with
  | done => simp
  | pass nns rest hne _ ih =>
    obtain ⟨hchain, hbound⟩ := ih
    have hshrink : ∀ c ∈ rest, c.1.length
        ≤ (nns.getD (find_next_seed nns orig_nn_sizes) []).length := by
      intro c hc
      obtain ⟨l2, hl2, hle⟩ := hbound c hc
      obtain ⟨a, t, hmem, _, rfl⟩ := mem_remove_members_graph _ nns l2 hl2
      have h1 := find_next_seed_longest nns orig_nn_sizes (a :: t) hmem
      have h2 : (a :: t.filter (fun x => decide
          (x ∉ nns.getD (find_next_seed nns orig_nn_sizes) []))).length ≤ (a :: t).length := by
        simp only [List.length_cons]
        exact Nat.succ_le_succ (List.length_filter_le _ _)
      omega
    constructor
    · rw [List.map_cons, List.chain'_cons']
      refine ⟨?_, hchain⟩
      intro y hy
      cases rest with
      | nil => simp at hy
      | cons c rest2 =>
        simp only [List.map_cons, List.head?_cons, Option.mem_def, Option.some.injEq] at hy
        subst hy
        exact hshrink c (List.mem_cons_self _ _)
    · intro c hc
      rcases List.mem_cons.mp hc with rfl | hc
      · exact ⟨_, find_next_seed_mem nns orig_nn_sizes hne, le_refl _⟩
      · exact ⟨_, find_next_seed_mem nns orig_nn_sizes hne, hshrink c hc⟩

/-- C4. Monotone seed size: for a graph of non-empty lists with members below
`num_fps`, `output_clusters` finishes within `nns.size()` passes and the sizes of
the clusters it emits are non-increasing in emission order. -/
theorem output_clusters_monotone_sizes (num_fps fuel : Nat) (nns : List (List Nat))
    (hg : GraphOk num_fps nns) (hfuel : nns.length ≤ fuel) :
    ∃ cs, output_clusters_emitted fuel num_fps nns = some cs
      ∧ (cs.map (fun c => c.1.length)).Chain' (fun a b => a ≥ b) := by
  obtain ⟨cs, hcs, hemits⟩ := output_clusters_loop_emits num_fps (nns.map List.length) fuel []
    nns (Or.inl rfl) hg hfuel
  exact ⟨cs, hcs, (Emits_sizes _ _ _ hemits).1⟩

/-- Witness for C4 on a graph of five lists. -/
theorem output_clusters_monotone_sizes_witness :
    GraphOk 5 [[0, 4, 1, 2], [1, 3, 4, 0], [2, 3, 4, 0], [3, 1, 2], [4, 0, 1, 2]]
    ∧ ∃ cs, output_clusters_emitted 5 5
          [[0, 4, 1, 2], [1, 3, 4, 0], [2, 3, 4, 0], [3, 1, 2], [4, 0, 1, 2]] = some cs
        ∧ (cs.map (fun c => c.1.length)).Chain' (fun a b => a ≥ b) :=
  ⟨by unfold GraphOk; decide,
   output_clusters_monotone_sizes 5 5
    [[0, 4, 1, 2], [1, 3, 4, 0], [2, 3, 4, 0], [3, 1, 2], [4, 0, 1, 2]]
    (by unfold GraphOk; decide) (by decide)⟩

/-! ### Partition -/

theorem PartitionInv_remove (cluster : List Nat) (nns : List (List Nat))
    (h : PartitionInv nns) : PartitionInv (remove_members_graph cluster nns) := by
  obtain ⟨h1, h2, h3⟩ := h
  have hheads := remove_members_graph_heads cluster nns (fun l hl => (h1 l hl).1)
  refine ⟨?_, ?_, ?_⟩
  · intro l2 hl2
    obtain ⟨a, t, hmem, ha, rfl⟩ := mem_remove_members_graph cluster nns l2 hl2
    refine ⟨by simp, ?_⟩
    have hnd := (h1 _ hmem).2
    rw [← remove_members_cons cluster a t ha]
    exact List.Nodup.sublist (remove_members_sublist cluster (a :: t)) hnd
  · rw [hheads]
    exact h2.filter _
  · intro l2 hl2 x hx
    obtain ⟨a, t, hmem, ha, rfl⟩ := mem_remove_members_graph cluster nns l2 hl2
    rw [hheads, List.mem_filter]
    rcases List.mem_cons.mp hx with rfl | hx
    · exact ⟨h3 _ hmem _ (List.mem_cons_self _ _), by simpa using ha⟩
    · rw [List.mem_filter] at hx
      exact ⟨h3 _ hmem _ (List.mem_cons_of_mem _ hx.1), hx.2⟩

theorem append_filter_not_mem_perm (c h : List Nat) (hc : c.Nodup) (hh : h.Nodup)
    (hsub : ∀ x ∈ c, x ∈ h) :
    (c ++ h.filter (fun x => decide (x ∉ c))).Perm h := by
  rw [List.perm_ext_iff_of_nodup _ hh]
  · intro x
    simp only [List.mem_append, List.mem_filter, decide_eq_true_eq]
    constructor
    · rintro (hx | hx)
      · exact hsub x hx
      · exact hx.1
    · intro hx
      by_cases hxc : x ∈ c
      · exact Or.inl hxc
      · exact Or.inr ⟨hx, hxc⟩
  · rw [List.nodup_append]
    refine ⟨hc, hh.filter _, ?_⟩
    intro x hx1 hx2
    rw [List.mem_filter] at hx2
    simp only [decide_eq_true_eq] at hx2
    exact hx2.2 hx1

theorem Emits_partition (orig_nn_sizes : List Nat) (nns : List (List Nat))
    (cs : List (List Nat × Nat)) (h : Emits orig_nn_sizes nns cs) (hinv : PartitionInv nns) :
    ((cs.map Prod.fst).flatten).Perm (nns.map (fun l => l.headD 0)) := by
  induction h with
  | done => simp
  | pass nns rest hne _ ih =>
    have hmem := find_next_seed_mem nns orig_nn_sizes hne
    have ih2 := ih (PartitionInv_remove _ nns hinv)
    rw [remove_members_graph_heads _ nns (fun l hl => (hinv.1 l hl).1)] at ih2
    rw [List.map_cons, List.flatten_cons]
    exact (List.Perm.append_left _ ih2).trans
      (append_filter_not_mem_perm _ _ (hinv.1 _ hmem).2 hinv.2.1 (hinv.2.2 _ hmem))

/-! ### The graph of a serial run -/

theorem make_nnlists_full {D : Type} [LinearOrder D] [Zero D] (calc_distance : Nat → Nat → D → D)
    (toFloat : D → D) (threshold : D) (num_fps : Nat) :
    make_nnlists calc_distance toFloat threshold 0 num_fps num_fps []
      = (List.range num_fps).map (make_nnlist calc_distance toFloat threshold num_fps) := by
  rw [make_nnlists_eq]
  simp [List.range_eq_range']

theorem mem_make_nnlist {D : Type} [LinearOrder D] [Zero D] (calc_distance : Nat → Nat → D → D)
    (toFloat : D → D) (threshold : D) (num_fps i x : Nat) :
    x ∈ make_nnlist calc_distance toFloat threshold num_fps i
      ↔ x = i ∨ (x < num_fps ∧ x ≠ i ∧ calc_distance i x threshold < threshold) := by
  rw [make_nnlist_eq, List.mem_cons,
    (make_nnlist_tail_perm calc_distance toFloat threshold num_fps i).mem_iff, mem_nbs_indices]

theorem make_nnlist_nodup {D : Type} [LinearOrder D] [Zero D] (calc_distance : Nat → Nat → D → D)
    (toFloat : D → D) (threshold : D) (num_fps i : Nat) :
    (make_nnlist calc_distance toFloat threshold num_fps i).Nodup := by
  rw [make_nnlist_eq, List.nodup_cons]
  constructor
  · rw [(make_nnlist_tail_perm calc_distance toFloat threshold num_fps i).mem_iff, mem_nbs_indices]
    intro h
    exact h.2.1 rfl
  · exact (make_nnlist_tail_perm calc_distance toFloat threshold num_fps i).nodup_iff.mpr
      (nbs_indices_nodup _ _ _ _)

theorem make_nnlist_headD {D : Type} [LinearOrder D] [Zero D] (calc_distance : Nat → Nat → D → D)
    (toFloat : D → D) (threshold : D) (num_fps i : Nat) :
    (make_nnlist calc_distance toFloat threshold num_fps i).headD 0 = i := by
  rw [make_nnlist_eq]
  rfl

theorem make_nnlists_full_heads {D : Type} [LinearOrder D] [Zero D]
    (calc_distance : Nat → Nat → D → D) (toFloat : D → D) (threshold : D) (num_fps : Nat) :
    (make_nnlists calc_distance toFloat threshold 0 num_fps num_fps []).map (fun l => l.headD 0)
      = List.range num_fps := by
  rw [make_nnlists_full, List.map_map]
  conv => rhs; rw [← List.map_id (List.range num_fps)]
  apply List.map_congr_left
  intro i _
  exact make_nnlist_headD _ _ _ _ _

theorem make_nnlists_full_ok {D : Type} [LinearOrder D] [Zero D]
    (calc_distance : Nat → Nat → D → D) (toFloat : D → D) (threshold : D) (num_fps : Nat) :
    GraphOk num_fps (make_nnlists calc_distance toFloat threshold 0 num_fps num_fps []) := by
  intro l hl
  rw [make_nnlists_full, List.mem_map] at hl
  obtain ⟨i, hi, rfl⟩ := hl
  rw [List.mem_range] at hi
  constructor
  · rw [make_nnlist_eq]
    simp
  · intro x hx
    rw [mem_make_nnlist] at hx
    rcases hx with rfl | hx
    · exact hi
    · exact hx.1

theorem make_nnlists_full_inv {D : Type} [LinearOrder D] [Zero D]
    (calc_distance : Nat → Nat → D → D) (toFloat : D → D) (threshold : D) (num_fps : Nat) :
    PartitionInv (make_nnlists calc_distance toFloat threshold 0 num_fps num_fps []) := by
  have hok := make_nnlists_full_ok calc_distance toFloat threshold num_fps
  refine ⟨?_, ?_, ?_⟩
  · intro l hl
    refine ⟨(hok l hl).1, ?_⟩
    rw [make_nnlists_full, List.mem_map] at hl
    obtain ⟨i, _, rfl⟩ := hl
    exact make_nnlist_nodup _ _ _ _ _
  · rw [make_nnlists_full_heads]
    exact List.nodup_range _
  · intro l hl x hx
    rw [make_nnlists_full_heads, List.mem_range]
    exact (hok l hl).2 x hx

theorem make_nnlists_full_length {D : Type} [LinearOrder D] [Zero D]
    (calc_distance : Nat → Nat → D → D) (toFloat : D → D) (threshold : D) (num_fps : Nat) :
    (make_nnlists calc_distance toFloat threshold 0 num_fps num_fps []).length = num_fps := by
  rw [make_nnlists_full]
  simp

/-- C1. Partition: on the graph that `make_nnlists` builds over the full range
`[0, n)`, `output_clusters` finishes within `n` passes and the members of the
emitted clusters, taken together in emission order, are a permutation of
`0, ..., n - 1`: every index is emitted exactly once. -/
theorem output_clusters_partition {D : Type} [LinearOrder D] [Zero D]
    (calc_distance : Nat → Nat → D → D) (toFloat : D → D) (threshold : D)
    (n fuel : Nat) (hfuel : n ≤ fuel) :
    ∃ cs, output_clusters_emitted fuel n
        (make_nnlists calc_distance toFloat threshold 0 n n []) = some cs
      ∧ ((cs.map Prod.fst).flatten).Perm (List.range n) := by
  obtain ⟨cs, hcs, hemits⟩ := output_clusters_loop_emits n
    ((make_nnlists calc_distance toFloat threshold 0 n n []).map List.length) fuel []
    (make_nnlists calc_distance toFloat threshold 0 n n []) (Or.inl rfl)
    (make_nnlists_full_ok calc_distance toFloat threshold n)
    (by rw [make_nnlists_full_length]; exact hfuel)
  refine ⟨cs, hcs, ?_⟩
  have := Emits_partition _ _ _ hemits (make_nnlists_full_inv calc_distance toFloat threshold n)
  rw [make_nnlists_full_heads] at this
  exact this

/-- Witness for C1: five fingerprints with distances `(i + j) % 4`, threshold 3. -/
theorem output_clusters_partition_witness :
    5 ≤ 5 ∧ ∃ cs, output_clusters_emitted 5 5
        (make_nnlists (fun i j (_ : Nat) => (i + j) % 4) id 3 0 5 5 []) = some cs
      ∧ ((cs.map Prod.fst).flatten).Perm (List.range 5) :=
  ⟨by decide, output_clusters_partition (fun i j (_ : Nat) => (i + j) % 4) id 3 5 5 (by decide)⟩

/-! ### Lists keep their seed -/

theorem SeededSublists_remove (built : Nat → List Nat) (num_fps : Nat) (cluster : List Nat)
    (nns : List (List Nat)) (h : SeededSublists built num_fps nns) :
    SeededSublists built num_fps (remove_members_graph cluster nns) := by
  intro l2 hl2
  obtain ⟨a, t, hmem, ha, rfl⟩ := mem_remove_members_graph cluster nns l2 hl2
  obtain ⟨a2, t2, heq, hlt, hsub⟩ := h _ hmem
  have ha2 : a = a2 := by injection heq
  subst ha2
  refine ⟨a, _, rfl, hlt, ?_⟩
  rw [← heq] at hsub
  exact ((List.filter_sublist t).cons₂ a).trans hsub

theorem in_range_remove (num_fps : Nat) (cluster : List Nat) (nns : List (List Nat))
    (h : ∀ l ∈ nns, ∀ x ∈ l, x < num_fps) :
    ∀ l ∈ remove_members_graph cluster nns, ∀ x ∈ l, x < num_fps := by
  intro l2 hl2 x hx
  obtain ⟨a, t, hmem, _, rfl⟩ := mem_remove_members_graph cluster nns l2 hl2
  rcases List.mem_cons.mp hx with rfl | hx
  · exact h _ hmem _ (List.mem_cons_self _ _)
  · exact h _ hmem _ (List.mem_cons_of_mem _ (List.mem_of_mem_filter hx))

theorem remove_clusters_from_nns_seeded (built : Nat → List Nat) (num_fps : Nat) :
    ∀ (clusters : List (List Nat)) (in_cluster : List Bool) (nns : List (List Nat)),
      InClusterOk num_fps in_cluster → (∀ l ∈ nns, ∀ x ∈ l, x < num_fps) →
      SeededSublists built num_fps nns →
      SeededSublists built num_fps
        (remove_clusters_from_nns num_fps clusters (in_cluster, nns)).2 := by
  intro clusters
  induction clusters with
  | nil => intro ic nns _ _ h; exact h
  | cons c cs ih =>
    intro ic nns hic hr h
    simp only [remove_clusters_from_nns, List.foldl_cons]
    rw [remove_cluster_from_nns_eq num_fps ic c nns hic hr]
    exact ih _ _ (Or.inr rfl) (in_range_remove num_fps c nns hr)
      (SeededSublists_remove built num_fps c nns h)

theorem Emits_seeded (built : Nat → List Nat) (num_fps : Nat) (orig_nn_sizes : List Nat)
    (nns : List (List Nat)) (cs : List (List Nat × Nat)) (h : Emits orig_nn_sizes nns cs)
    (hs : SeededSublists built num_fps nns) :
    ∀ c ∈ cs, ∃ a t, c.1 = a :: t ∧ a < num_fps ∧ (a :: t).Sublist (built a) := by
  induction h with
  | done => simp
  | pass nns rest hne _ ih =>
    intro c hc
    rcases List.mem_cons.mp hc with rfl | hc
    · exact hs _ (find_next_seed_mem nns orig_nn_sizes hne)
    · exact ih (SeededSublists_remove built num_fps _ nns hs) c hc

theorem make_nnlists_full_seeded {D : Type} [LinearOrder D] [Zero D]
    (calc_distance : Nat → Nat → D → D) (toFloat : D → D) (threshold : D) (num_fps : Nat) :
    SeededSublists (make_nnlist calc_distance toFloat threshold num_fps) num_fps
      (make_nnlists calc_distance toFloat threshold 0 num_fps num_fps []) := by
  intro l hl
  rw [make_nnlists_full, List.mem_map] at hl
  obtain ⟨i, hi, rfl⟩ := hl
  rw [List.mem_range] at hi
  refine ⟨i, _, make_nnlist_eq _ _ _ _ _, hi, ?_⟩
  rw [← make_nnlist_eq]

/-- C2. Containment: on the graph that `make_nnlists` builds with threshold `T`
over `[0, n)`, `output_clusters` finishes and every member `m` of an emitted
cluster is a member of the neighbour list that was built for the seed of the
cluster; when `m` is not the seed, `calc_distance(seed, m, T) < T`. -/
theorem output_clusters_containment {D : Type} [LinearOrder D] [Zero D]
    (calc_distance : Nat → Nat → D → D) (toFloat : D → D) (threshold : D)
    (n fuel : Nat) (hfuel : n ≤ fuel) :
    ∃ cs, output_clusters_emitted fuel n
        (make_nnlists calc_distance toFloat threshold 0 n n []) = some cs
      ∧ ∀ c ∈ cs, ∀ m ∈ c.1,
          m ∈ make_nnlist calc_distance toFloat threshold n (c.1.headD 0)
          ∧ (m ≠ c.1.headD 0 → calc_distance (c.1.headD 0) m threshold < threshold) := by
  obtain ⟨cs, hcs, hemits⟩ := output_clusters_loop_emits n
    ((make_nnlists calc_distance toFloat threshold 0 n n []).map List.length) fuel []
    (make_nnlists calc_distance toFloat threshold 0 n n []) (Or.inl rfl)
    (make_nnlists_full_ok calc_distance toFloat threshold n)
    (by rw [make_nnlists_full_length]; exact hfuel)
  refine ⟨cs, hcs, ?_⟩
  intro c hc m hm
  obtain ⟨a, t, heq, _, hsub⟩ := Emits_seeded _ n _ _ _ hemits
    (make_nnlists_full_seeded calc_distance toFloat threshold n) c hc
  rw [heq] at hm ⊢
  simp only [List.headD_cons]
  have hmem := hsub.subset hm
  refine ⟨hmem, ?_⟩
  intro hne
  rw [mem_make_nnlist] at hmem
  rcases hmem with h | h
  · exact absurd h hne
  · exact h.2.2

/-- Witness for C2: five fingerprints with distances `(i + j) % 4`, threshold 3. -/
theorem output_clusters_containment_witness :
    5 ≤ 5 ∧ ∃ cs, output_clusters_emitted 5 5
        (make_nnlists (fun i j (_ : Nat) => (i + j) % 4) id 3 0 5 5 []) = some cs
      ∧ ∀ c ∈ cs, ∀ m ∈ c.1,
          m ∈ make_nnlist (fun i j (_ : Nat) => (i + j) % 4) id 3 5 (c.1.headD 0)
          ∧ (m ≠ c.1.headD 0 → (c.1.headD 0 + m) % 4 < 3) :=
  ⟨by decide, output_clusters_containment (fun i j (_ : Nat) => (i + j) % 4) id 3 5 5 (by decide)⟩

/-- C3. Self-inclusion: after any number of `remove_cluster_from_nns` calls on
the graph that `make_nnlists` builds over `[0, n)`, every list of the graph is
non-empty, starts with a seed `i` and is what is left of the list built for `i`;
`output_clusters` finishes, every cluster it emits is such a list, so it contains
its seed in first place, and `write_cluster` writes the name of the seed as the
first member in both formats. -/
theorem graph_self_inclusion {D : Type} [LinearOrder D] [Zero D]
    (calc_distance : Nat → Nat → D → D) (toFloat : D → D) (threshold : D) (n : Nat) :
    (∀ clusters : List (List Nat),
      ∀ l ∈ (remove_clusters_from_nns n clusters
          ([], make_nnlists calc_distance toFloat threshold 0 n n [])).2,
        ∃ i t, l = i :: t ∧ i < n
          ∧ l.Sublist (make_nnlist calc_distance toFloat threshold n i)
          ∧ (make_nnlist calc_distance toFloat threshold n i).head? = some i)
    ∧ ∃ cs, output_clusters_emitted n n
          (make_nnlists calc_distance toFloat threshold 0 n n []) = some cs
        ∧ ∀ c ∈ cs, ∃ i t, c.1 = i :: t ∧ i < n ∧ i ∈ c.1
          ∧ c.1.Sublist (make_nnlist calc_distance toFloat threshold n i)
          ∧ ∀ (clus_num : Nat) (fp_names out sn sg : List String),
              (write_cluster OUTPUT_FORMAT.SAMPLES_FORMAT clus_num fp_names c.1 c.2 out sn sg).1
                = out ++ [fp_names.getD i "", " : ", toString c.1.length, "(", toString c.2,
                    ") : ", fp_names.getD i "", "  "]
                  ++ t.flatMap (fun m => [fp_names.getD m "", "  "]) ++ ["\n"]
              ∧ (write_cluster OUTPUT_FORMAT.CSV_FORMAT clus_num fp_names c.1 c.2 out sn sg).1
                = out ++ [toString clus_num, ",", toString c.1.length, ",", fp_names.getD i "",
                    ",", fp_names.getD i "", ",", toString c.2, "\n"]
                  ++ t.flatMap (fun m =>
                      [toString clus_num, ",", toString c.1.length, ",", fp_names.getD i "",
                       ",", fp_names.getD m "", ",", toString c.2, "\n"]) := by
  constructor
  · intro clusters l hl
    obtain ⟨i, t, heq, hi, hsub⟩ := remove_clusters_from_nns_seeded
      (make_nnlist calc_distance toFloat threshold n) n clusters []
      (make_nnlists calc_distance toFloat threshold 0 n n []) (Or.inl rfl)
      (fun l hl => (make_nnlists_full_ok calc_distance toFloat threshold n l hl).2)
      (make_nnlists_full_seeded calc_distance toFloat threshold n) l hl
    refine ⟨i, t, heq, hi, heq ▸ hsub, ?_⟩
    rw [make_nnlist_eq]
    rfl
  · obtain ⟨cs, hcs, hemits⟩ := output_clusters_loop_emits n
      ((make_nnlists calc_distance toFloat threshold 0 n n []).map List.length) n []
      (make_nnlists calc_distance toFloat threshold 0 n n []) (Or.inl rfl)
      (make_nnlists_full_ok calc_distance toFloat threshold n)
      (by rw [make_nnlists_full_length])
    refine ⟨cs, hcs, ?_⟩
    intro c hc
    obtain ⟨i, t, heq, hi, hsub⟩ := Emits_seeded _ n _ _ _ hemits
      (make_nnlists_full_seeded calc_distance toFloat threshold n) c hc
    refine ⟨i, t, heq, hi, by rw [heq]; exact List.mem_cons_self _ _, heq ▸ hsub, ?_⟩
    intro clus_num fp_names out sn sg
    rw [heq]
    constructor
    · simp [write_cluster, List.flatMap_cons]
    · simp [write_cluster, List.flatMap_cons]

/-! ### All fingerprints within the threshold of each other -/

theorem nbs_indices_length_of_all {D : Type} [LinearOrder D] (calc_distance : Nat → Nat → D → D)
    (threshold : D) (n i : Nat) (hi : i < n)
    (hall : ∀ i j, i < n → j < n → i ≠ j → calc_distance i j threshold < threshold) :
    (nbs_indices calc_distance threshold n i).length = n - 1 := by
  have h1 : nbs_indices calc_distance threshold n i = (List.range n).erase i := by
    rw [(List.nodup_range n).erase_eq_filter]
    unfold nbs_indices
    apply List.filter_congr
    intro j hj
    rw [List.mem_range] at hj
    by_cases hij : i = j
    · subst hij; simp
    · have h2 : j ≠ i := fun h => hij h.symm
      simp [hij, h2, hall i j hi hj hij]
  rw [h1, List.length_erase_of_mem (List.mem_range.mpr hi), List.length_range]

theorem make_nnlist_length_of_all {D : Type} [LinearOrder D] [Zero D]
    (calc_distance : Nat → Nat → D → D) (toFloat : D → D) (threshold : D) (n i : Nat)
    (hi : i < n)
    (hall : ∀ i j, i < n → j < n → i ≠ j → calc_distance i j threshold < threshold) :
    (make_nnlist calc_distance toFloat threshold n i).length = n := by
  rw [make_nnlist_eq, List.length_cons,
    (make_nnlist_tail_perm calc_distance toFloat threshold n i).length_eq,
    nbs_indices_length_of_all calc_distance threshold n i hi hall]
  omega

theorem make_nnlists_full_getD {D : Type} [LinearOrder D] [Zero D]
    (calc_distance : Nat → Nat → D → D) (toFloat : D → D) (threshold : D) (n i : Nat)
    (hi : i < n) :
    (make_nnlists calc_distance toFloat threshold 0 n n []).getD i []
      = make_nnlist calc_distance toFloat threshold n i := by
  have := make_nnlists_getD calc_distance toFloat threshold 0 n n [] i (by simpa using hi)
  simpa using this

theorem make_nnlists_full_ascending {D : Type} [LinearOrder D] [Zero D]
    (calc_distance : Nat → Nat → D → D) (toFloat : D → D) (threshold : D) (n : Nat) :
    ((make_nnlists calc_distance toFloat threshold 0 n n []).map
      (fun l => l.headD 0)).Pairwise (fun a b => a < b) := by
  rw [make_nnlists_full_heads]
  exact List.pairwise_lt_range n

theorem orig_sizes_getD (nns : List (List Nat)) (i : Nat) :
    (nns.map List.length).getD i 0 = (nns.getD i []).length := by
  rw [List.getD_eq_getElem?_getD, List.getD_eq_getElem?_getD, List.getElem?_map]
  cases nns[i]? <;> rfl

theorem find_next_seed_of_all {D : Type} [LinearOrder D] [Zero D]
    (calc_distance : Nat → Nat → D → D) (toFloat : D → D) (threshold : D) (n : Nat)
    (hn : 1 ≤ n)
    (hall : ∀ i j, i < n → j < n → i ≠ j → calc_distance i j threshold < threshold) :
    find_next_seed (make_nnlists calc_distance toFloat threshold 0 n n [])
      ((make_nnlists calc_distance toFloat threshold 0 n n []).map List.length) = n - 1 := by
  have hlen := make_nnlists_full_length calc_distance toFloat threshold n
  have hne : make_nnlists calc_distance toFloat threshold 0 n n [] ≠ [] := by
    intro h
    rw [h] at hlen
    simp at hlen
    omega
  have hs := find_next_seed_lt _ ((make_nnlists calc_distance toFloat threshold 0 n n []).map
    List.length) hne
  rw [hlen] at hs
  by_contra hcon
  have hmax := find_next_seed_max _ ((make_nnlists calc_distance toFloat threshold 0 n n []).map
    List.length) (make_nnlists_full_ascending calc_distance toFloat threshold n) (n - 1)
    (by omega) (fun h => hcon h.symm)
  generalize find_next_seed (make_nnlists calc_distance toFloat threshold 0 n n [])
    ((make_nnlists calc_distance toFloat threshold 0 n n []).map List.length) = s at hs hcon hmax
  unfold seed_key_lt at hmax
  rw [make_nnlists_full_getD _ _ _ _ _ (by omega : n - 1 < n),
    make_nnlists_full_getD _ _ _ _ _ hs] at hmax
  simp only [make_nnlist_headD, orig_sizes_getD] at hmax
  rw [make_nnlists_full_getD _ _ _ _ _ (by omega : n - 1 < n),
    make_nnlists_full_getD _ _ _ _ _ hs] at hmax
  rw [make_nnlist_length_of_all _ _ _ _ _ (by omega : n - 1 < n) hall,
    make_nnlist_length_of_all _ _ _ _ _ hs hall] at hmax
  omega

theorem remove_all_of_all {D : Type} [LinearOrder D] [Zero D]
    (calc_distance : Nat → Nat → D → D) (toFloat : D → D) (threshold : D) (n i : Nat)
    (hi : i < n)
    (hall : ∀ i j, i < n → j < n → i ≠ j → calc_distance i j threshold < threshold) :
    remove_members_graph (make_nnlist calc_distance toFloat threshold n i)
      (make_nnlists calc_distance toFloat threshold 0 n n []) = [] := by
  rw [List.eq_nil_iff_forall_not_mem]
  intro l2 hl2
  obtain ⟨a, t, hmem, ha, _⟩ := mem_remove_members_graph _ _ l2 hl2
  apply ha
  have halt := (make_nnlists_full_ok calc_distance toFloat threshold n _ hmem).2 a
    (List.mem_cons_self _ _)
  rw [mem_make_nnlist]
  by_cases hai : a = i
  · exact Or.inl hai
  · exact Or.inr ⟨halt, hai, hall i a hi halt (fun h => hai h.symm)⟩

/-- C7. Seed selection: on a non-empty graph whose seeds are strictly ascending
in graph order, `find_next_seed` returns the position of the list that is
greatest in the order (current length, original size of the seed, seed index):
every other list is smaller in that order.  When all `n ≥ 1` fingerprints are
within the threshold of each other, `output_clusters` emits one cluster, with
seed `n - 1`, of `n` members and original size `n`. -/
theorem find_next_seed_selection {D : Type} [LinearOrder D] [Zero D] :
    (∀ (nns : List (List Nat)) (orig_nn_sizes : List Nat), nns ≠ [] →
      (nns.map (fun l => l.headD 0)).Pairwise (fun a b => a < b) →
      find_next_seed nns orig_nn_sizes < nns.length
      ∧ ∀ i, i < nns.length → i ≠ find_next_seed nns orig_nn_sizes →
          seed_key_lt orig_nn_sizes (nns.getD i [])
            (nns.getD (find_next_seed nns orig_nn_sizes) []))
    ∧ (∀ (calc_distance : Nat → Nat → D → D) (toFloat : D → D) (threshold : D) (n : Nat),
        1 ≤ n →
        (∀ i j, i < n → j < n → i ≠ j → calc_distance i j threshold < threshold) →
        ∃ c, output_clusters_emitted n n
              (make_nnlists calc_distance toFloat threshold 0 n n []) = some [c]
          ∧ c.1.head? = some (n - 1) ∧ c.1.length = n ∧ c.2 = n) := by
  constructor
  · intro nns orig hne hasc
    exact ⟨find_next_seed_lt nns orig hne, fun i hi hne2 => find_next_seed_max nns orig hasc i hi hne2⟩
  · intro calc_distance toFloat threshold n hn hall
    obtain ⟨cs, hcs, hemits⟩ := output_clusters_loop_emits n
      ((make_nnlists calc_distance toFloat threshold 0 n n []).map List.length) n []
      (make_nnlists calc_distance toFloat threshold 0 n n []) (Or.inl rfl)
      (make_nnlists_full_ok calc_distance toFloat threshold n)
      (by rw [make_nnlists_full_length])
    have hlen := make_nnlists_full_length calc_distance toFloat threshold n
    have hne : make_nnlists calc_distance toFloat threshold 0 n n [] ≠ [] := by
      intro h
      rw [h] at hlen
      simp at hlen
      omega
    have hseed := find_next_seed_of_all calc_distance toFloat threshold n hn hall
    have hlast : n - 1 < n := by omega
    have hone : Emits ((make_nnlists calc_distance toFloat threshold 0 n n []).map List.length)
        (make_nnlists calc_distance toFloat threshold 0 n n [])
        [(make_nnlist calc_distance toFloat threshold n (n - 1), n)] := by
      have hpass := @Emits.pass
        ((make_nnlists calc_distance toFloat threshold 0 n n []).map List.length)
        (make_nnlists calc_distance toFloat threshold 0 n n []) [] hne
      rw [hseed, make_nnlists_full_getD _ _ _ _ _ hlast, make_nnlist_headD, orig_sizes_getD,
        make_nnlists_full_getD _ _ _ _ _ hlast,
        make_nnlist_length_of_all _ _ _ _ _ hlast hall,
        remove_all_of_all _ _ _ _ _ hlast hall] at hpass
      exact hpass Emits.done
    have hcs2 := Emits_unique _ _ _ _ hemits hone
    refine ⟨(make_nnlist calc_distance toFloat threshold n (n - 1), n), ?_, ?_, ?_, rfl⟩
    · unfold output_clusters_emitted
      rw [hcs, hcs2]
    · rw [make_nnlist_eq]
      rfl
    · exact make_nnlist_length_of_all _ _ _ _ _ hlast hall

/-- Witness for C7: a graph of three lists for the first part, three fingerprints
at distance 0 of each other with threshold 1 for the second. -/
theorem find_next_seed_selection_witness :
    ([[0, 1], [1, 0], [2]] ≠ []
      ∧ (([[0, 1], [1, 0], [2]] : List (List Nat)).map (fun l => l.headD 0)).Pairwise
          (fun a b => a < b)
      ∧ find_next_seed [[0, 1], [1, 0], [2]] [2, 2, 1] < ([[0, 1], [1, 0], [2]] : List (List Nat)).length
      ∧ ∀ i, i < ([[0, 1], [1, 0], [2]] : List (List Nat)).length →
          i ≠ find_next_seed [[0, 1], [1, 0], [2]] [2, 2, 1] →
          seed_key_lt [2, 2, 1] (([[0, 1], [1, 0], [2]] : List (List Nat)).getD i [])
            (([[0, 1], [1, 0], [2]] : List (List Nat)).getD
              (find_next_seed [[0, 1], [1, 0], [2]] [2, 2, 1]) []))
    ∧ (1 ≤ 3
      ∧ (∀ i j : Nat, i < 3 → j < 3 → i ≠ j → (fun (_ _ : Nat) (_ : Nat) => 0) i j 1 < 1)
      ∧ ∃ c, output_clusters_emitted 3 3
            (make_nnlists (fun (_ _ : Nat) (_ : Nat) => 0) id 1 0 3 3 []) = some [c]
        ∧ c.1.head? = some (3 - 1) ∧ c.1.length = 3 ∧ c.2 = 3) :=
  ⟨⟨by decide, by decide,
      ((@find_next_seed_selection Nat _ _).1 [[0, 1], [1, 0], [2]] [2, 2, 1] (by decide)
        (by decide)).1,
      ((@find_next_seed_selection Nat _ _).1 [[0, 1], [1, 0], [2]] [2, 2, 1] (by decide)
        (by decide)).2⟩,
    ⟨by decide, fun _ _ _ _ _ => Nat.zero_lt_one,
      (@find_next_seed_selection Nat _ _).2 (fun (_ _ : Nat) (_ : Nat) => 0) id 1 3 (by decide)
        (fun _ _ _ _ _ => Nat.zero_lt_one)⟩⟩

/-! ### The reduction of the master -/

theorem receive_best_step_inv (seen : List BestClusterReply) (b : BestCluster)
    (r : BestClusterReply) (hinv : ReduceInv seen b)
    (hsize : r.this_best_clus ≠ -1 → 1 ≤ r.details.1) :
    ReduceInv (seen ++ [r]) (receive_best_step b r) := by
  by_cases hr : r.this_best_clus = -1
  · have hstep : receive_best_step b r = b := by simp [receive_best_step, hr]
    rw [hstep]
    rcases hinv with ⟨h1, h2, h3⟩ | ⟨r0, hr0, hne0, hholds, hmax⟩
    · refine Or.inl ⟨h1, h2, ?_⟩
      intro r2 hr2
      rcases List.mem_append.mp hr2 with h | h
      · exact h3 r2 h
      · rw [List.mem_singleton] at h; rw [h]; exact hr
    · refine Or.inr ⟨r0, List.mem_append_left _ hr0, hne0, hholds, ?_⟩
      intro r2 hr2 hne2
      rcases List.mem_append.mp hr2 with h | h
      · exact hmax r2 h hne2
      · rw [List.mem_singleton] at h; rw [h] at hne2; exact absurd hr hne2
  · have hsz := hsize hr
    have hrmem : r ∈ seen ++ [r] := List.mem_append_right _ (List.mem_singleton.mpr rfl)
    rcases hinv with ⟨h1, h2, h3⟩ | ⟨r0, hr0, hne0, hholds, hmax⟩
    · have hstep : receive_best_step b r =
          { best_clus := r.this_best_clus, best_clus_slave := r.source,
            best_clus_size := r.details.1, best_orig_nn_size := r.details.2.1,
            best_clus_front := r.details.2.2 } := by
        have : r.details.1 > b.best_clus_size := by omega
        simp [receive_best_step, hr, this]
      rw [hstep]
      refine Or.inr ⟨r, hrmem, hr, ⟨rfl, rfl, rfl, rfl, rfl⟩, ?_⟩
      intro r2 hr2 hne2
      rcases List.mem_append.mp hr2 with h | h
      · exact absurd (h3 r2 h) hne2
      · rw [List.mem_singleton] at h
        rw [h]
        unfold reply_key_lt
        omega
    · obtain ⟨hc, hs, hbsz, hbo, hbf⟩ := hholds
      have hold : ∀ r2 ∈ seen ++ [r], r2.this_best_clus ≠ -1 → r2 = r
          ∨ ¬ reply_key_lt r0.details r2.details := by
        intro r2 hr2 hne2
        rcases List.mem_append.mp hr2 with h | h
        · exact Or.inr (hmax r2 h hne2)
        · exact Or.inl (List.mem_singleton.mp h)
      unfold receive_best_step
      simp only [hr, if_false]
      split_ifs with h1 h2 h3 h4 h5
      · refine Or.inr ⟨r, hrmem, hr, ⟨rfl, rfl, rfl, rfl, rfl⟩, ?_⟩
        intro r2 hr2 hne2
        rcases hold r2 hr2 hne2 with h | h
        · rw [h]; unfold reply_key_lt; omega
        · unfold reply_key_lt at h ⊢; omega
      · refine Or.inr ⟨r, hrmem, hr, ⟨rfl, rfl, ?_, rfl, rfl⟩, ?_⟩
        · exact h2.symm
        · intro r2 hr2 hne2
          rcases hold r2 hr2 hne2 with h | h
          · rw [h]; unfold reply_key_lt; omega
          · unfold reply_key_lt at h ⊢; omega
      · refine Or.inr ⟨r, hrmem, hr, ⟨rfl, rfl, ?_, ?_, rfl⟩, ?_⟩
        · exact h2.symm
        · exact h4.symm
        · intro r2 hr2 hne2
          rcases hold r2 hr2 hne2 with h | h
          · rw [h]; unfold reply_key_lt; omega
          · unfold reply_key_lt at h ⊢; omega
      · refine Or.inr ⟨r0, List.mem_append_left _ hr0, hne0, ⟨hc, hs, hbsz, hbo, hbf⟩, ?_⟩
        intro r2 hr2 hne2
        rcases hold r2 hr2 hne2 with h | h
        · rw [h]; unfold reply_key_lt; omega
        · exact h
      · refine Or.inr ⟨r0, List.mem_append_left _ hr0, hne0, ⟨hc, hs, hbsz, hbo, hbf⟩, ?_⟩
        intro r2 hr2 hne2
        rcases hold r2 hr2 hne2 with h | h
        · rw [h]; unfold reply_key_lt; omega
        · exact h
      · refine Or.inr ⟨r0, List.mem_append_left _ hr0, hne0, ⟨hc, hs, hbsz, hbo, hbf⟩, ?_⟩
        intro r2 hr2 hne2
        rcases hold r2 hr2 hne2 with h | h
        · rw [h]; unfold reply_key_lt; omega
        · exact h

theorem receive_best_fold_inv (rs : List BestClusterReply) :
    ∀ (seen : List BestClusterReply) (b : BestCluster), ReduceInv seen b →
      (∀ r ∈ rs, r.this_best_clus ≠ -1 → 1 ≤ r.details.1) →
      ReduceInv (seen ++ rs) (rs.foldl receive_best_step b) := by
  induction rs with
  | nil => intro seen b h _; simpa using h
  | cons r rs ih =>
    intro seen b h hsize
    have h1 := receive_best_step_inv seen b r h (hsize r (List.mem_cons_self _ _))
    have h2 := ih (seen ++ [r]) (receive_best_step b r) h1
      (fun r2 hr2 => hsize r2 (List.mem_cons_of_mem _ hr2))
    simpa using h2

theorem reduce_best_clusters_inv (rs : List BestClusterReply)
    (hsize : ∀ r ∈ rs, r.this_best_clus ≠ -1 → 1 ≤ r.details.1) :
    ReduceInv rs (reduce_best_clusters rs) := by
  have := receive_best_fold_inv rs [] BestCluster.init
    (Or.inl ⟨rfl, rfl, fun r hr => absurd hr (List.not_mem_nil r)⟩) hsize
  simpa using this

theorem BestCluster.holds_unique (b1 b2 : BestCluster) (r : BestClusterReply)
    (h1 : b1.holds r) (h2 : b2.holds r) : b1 = b2 := by
  obtain ⟨a1, a2, a3, a4, a5⟩ := h1
  obtain ⟨c1, c2, c3, c4, c5⟩ := h2
  cases b1
  cases b2
  simp only [BestCluster.mk.injEq]
  simp only at a1 a2 a3 a4 a5 c1 c2 c3 c4 c5
  exact ⟨a1.trans c1.symm, a2.trans c2.symm, a3.trans c3.symm, a4.trans c4.symm,
    a5.trans c5.symm⟩

theorem receive_best_fold_all_empty (rs : List BestClusterReply) (b : BestCluster)
    (h : ∀ r ∈ rs, r.this_best_clus = -1) : rs.foldl receive_best_step b = b := by
  induction rs generalizing b with
  | nil => rfl
  | cons r rs ih =>
    have hr := h r (List.mem_cons_self _ _)
    have hstep : receive_best_step b r = b := by simp [receive_best_step, hr]
    rw [List.foldl_cons, hstep]
    exact ih b (fun r2 hr2 => h r2 (List.mem_cons_of_mem _ hr2))

theorem reduce_best_clusters_winner (replies : List BestClusterReply)
    (hsome : ∃ r ∈ replies, r.this_best_clus ≠ -1)
    (hsize : ∀ r ∈ replies, r.this_best_clus ≠ -1 → 1 ≤ r.details.1) :
    ∃ r ∈ replies, r.this_best_clus ≠ -1 ∧ (reduce_best_clusters replies).holds r
      ∧ ∀ r2 ∈ replies, r2.this_best_clus ≠ -1 → ¬ reply_key_lt r.details r2.details := by
  rcases reduce_best_clusters_inv replies hsize with ⟨_, _, h3⟩ | h
  · obtain ⟨r, hr, hne⟩ := hsome
    exact absurd (h3 r hr) hne
  · exact h

theorem replies_front_injective (replies : List BestClusterReply)
    (hdistinct : ((replies.filter (fun r => decide (r.this_best_clus ≠ -1))).map
      (fun r => r.details.2.2)).Nodup)
    (a b : BestClusterReply) (ha : a ∈ replies) (hb : b ∈ replies)
    (hane : a.this_best_clus ≠ -1) (hbne : b.this_best_clus ≠ -1)
    (hfront : a.details.2.2 = b.details.2.2) : a = b := by
  apply List.inj_on_of_nodup_map hdistinct
  · exact List.mem_filter.mpr ⟨ha, by simpa using hane⟩
  · exact List.mem_filter.mpr ⟨hb, by simpa using hbne⟩
  · exact hfront

/-- C8. Master winner selection: when at least one reply is not `-1`, the replies
that are not `-1` have size at least 1 and pairwise distinct seed indices, then
there is a reply `r` that is strictly greater than every other such reply in the
order (size, original size of the seed, seed index), and for every order of
arrival of the replies the reduction ends holding `r` (its local index, its
worker, its size and original size), so that `receive_best_clusters_from_slaves`
returns the same result.  When all replies are `-1` it returns the empty
cluster and original size 0. -/
theorem master_winner_selection :
    (∀ replies : List BestClusterReply,
      (∃ r ∈ replies, r.this_best_clus ≠ -1) →
      (∀ r ∈ replies, r.this_best_clus ≠ -1 → 1 ≤ r.details.1) →
      ((replies.filter (fun r => decide (r.this_best_clus ≠ -1))).map
        (fun r => r.details.2.2)).Nodup →
      ∃ r ∈ replies, r.this_best_clus ≠ -1
        ∧ (∀ r2 ∈ replies, r2.this_best_clus ≠ -1 → r2 ≠ r →
            reply_key_lt r2.details r.details)
        ∧ ∀ arrival : List BestClusterReply, arrival.Perm replies →
            (reduce_best_clusters arrival).holds r
            ∧ ∀ send_cluster : Nat → Int → List Nat,
                receive_best_clusters_from_slaves arrival send_cluster
                  = receive_best_clusters_from_slaves replies send_cluster)
    ∧ (∀ (replies : List BestClusterReply) (send_cluster : Nat → Int → List Nat),
        (∀ r ∈ replies, r.this_best_clus = -1) →
        receive_best_clusters_from_slaves replies send_cluster = some ([], 0)) := by
  constructor
  · intro replies hsome hsize hdistinct
    obtain ⟨r, hr, hne, hholds, hmax⟩ := reduce_best_clusters_winner replies hsome hsize
    refine ⟨r, hr, hne, ?_, ?_⟩
    · intro r2 hr2 hne2 hdiff
      have h1 := hmax r2 hr2 hne2
      have h2 : r2.details.2.2 ≠ r.details.2.2 :=
        fun h => hdiff (replies_front_injective replies hdistinct r2 r hr2 hr hne2 hne h)
      unfold reply_key_lt at h1 ⊢
      omega
    · intro arrival hperm
      have hsome2 : ∃ r ∈ arrival, r.this_best_clus ≠ -1 := ⟨r, hperm.mem_iff.mpr hr, hne⟩
      have hsize2 : ∀ r ∈ arrival, r.this_best_clus ≠ -1 → 1 ≤ r.details.1 :=
        fun r2 hr2 => hsize r2 (hperm.mem_iff.mp hr2)
      obtain ⟨r3, hr3, hne3, hholds3, hmax3⟩ := reduce_best_clusters_winner arrival hsome2 hsize2
      have h1 := hmax r3 (hperm.mem_iff.mp hr3) hne3
      have h2 := hmax3 r (hperm.mem_iff.mpr hr) hne
      have hfront : r3.details.2.2 = r.details.2.2 := by
        unfold reply_key_lt at h1 h2
        omega
      have heq : r3 = r :=
        replies_front_injective replies hdistinct r3 r (hperm.mem_iff.mp hr3) hr hne3 hne hfront
      rw [heq] at hholds3
      refine ⟨hholds3, ?_⟩
      intro send_cluster
      unfold receive_best_clusters_from_slaves
      rw [BestCluster.holds_unique _ _ r hholds3 hholds]
  · intro replies send_cluster hall
    have hfold := receive_best_fold_all_empty replies BestCluster.init hall
    unfold receive_best_clusters_from_slaves reduce_best_clusters
    rw [hfold]
    simp [BestCluster.init]

/-- Witness for C8: three replies, one of them `-1`, and one order of arrival;
then two replies that are both `-1`. -/
theorem master_winner_selection_witness :
    ((∃ r ∈ [(⟨1, 0, (2, 3, 0)⟩ : BestClusterReply), ⟨2, -1, (0, 0, 0)⟩, ⟨3, 1, (2, 3, 7)⟩],
        r.this_best_clus ≠ -1)
      ∧ (∀ r ∈ [(⟨1, 0, (2, 3, 0)⟩ : BestClusterReply), ⟨2, -1, (0, 0, 0)⟩, ⟨3, 1, (2, 3, 7)⟩],
          r.this_best_clus ≠ -1 → 1 ≤ r.details.1)
      ∧ ∃ r ∈ [(⟨1, 0, (2, 3, 0)⟩ : BestClusterReply), ⟨2, -1, (0, 0, 0)⟩, ⟨3, 1, (2, 3, 7)⟩],
          r.this_best_clus ≠ -1
          ∧ (∀ r2 ∈ [(⟨1, 0, (2, 3, 0)⟩ : BestClusterReply), ⟨2, -1, (0, 0, 0)⟩,
                ⟨3, 1, (2, 3, 7)⟩],
              r2.this_best_clus ≠ -1 → r2 ≠ r → reply_key_lt r2.details r.details)
          ∧ ∀ arrival : List BestClusterReply,
              arrival.Perm [⟨1, 0, (2, 3, 0)⟩, ⟨2, -1, (0, 0, 0)⟩, ⟨3, 1, (2, 3, 7)⟩] →
              (reduce_best_clusters arrival).holds r
              ∧ ∀ send_cluster : Nat → Int → List Nat,
                  receive_best_clusters_from_slaves arrival send_cluster
                    = receive_best_clusters_from_slaves
                        [⟨1, 0, (2, 3, 0)⟩, ⟨2, -1, (0, 0, 0)⟩, ⟨3, 1, (2, 3, 7)⟩] send_cluster)
    ∧ ((∀ r ∈ [(⟨1, -1, (0, 0, 0)⟩ : BestClusterReply), ⟨2, -1, (0, 0, 0)⟩],
          r.this_best_clus = -1)
      ∧ receive_best_clusters_from_slaves [⟨1, -1, (0, 0, 0)⟩, ⟨2, -1, (0, 0, 0)⟩]
          (fun _ _ => []) = some ([], 0)) :=
  ⟨⟨by decide, by decide,
      master_winner_selection.1 [⟨1, 0, (2, 3, 0)⟩, ⟨2, -1, (0, 0, 0)⟩, ⟨3, 1, (2, 3, 7)⟩]
        (by decide) (by decide) (by decide)⟩,
    ⟨by decide,
      master_winner_selection.2 [⟨1, -1, (0, 0, 0)⟩, ⟨2, -1, (0, 0, 0)⟩] (fun _ _ => [])
        (by decide)⟩⟩

/-! ### The shards of the workers -/

theorem send_search_details_eq (num_fps w : Nat) (hw : 1 ≤ w) (hsmall : num_fps + w ≤ 2 ^ 32) :
    ∃ slave_does, send_search_details 1 num_fps (w + 1) = some slave_does
      ∧ num_fps ≤ slave_does * w ∧ slave_does * w < 2 ^ 32 := by
  have h1 : num_fps / w * w ≤ num_fps := Nat.div_mul_le_self num_fps w
  have h2 : num_fps < w * (num_fps / w + 1) := Nat.lt_mul_div_succ num_fps (by omega)
  have h3 : (num_fps / w + 1) * w = num_fps / w * w + w := Nat.succ_mul _ _
  have h4 : w * (num_fps / w + 1) = (num_fps / w + 1) * w := Nat.mul_comm _ _
  unfold send_search_details
  simp only [Nat.add_sub_cancel]
  by_cases hlt : num_fps / w * w < num_fps
  · refine ⟨num_fps / w + 1, ?_, by omega, by omega⟩
    have hmod1 : (num_fps / w * w) % 2 ^ 32 = num_fps / w * w := Nat.mod_eq_of_lt (by omega)
    have hle : num_fps / w ≤ num_fps / w * w := Nat.le_mul_of_pos_right _ (by omega)
    have hmod2 : (num_fps / w + 1) % 2 ^ 32 = num_fps / w + 1 := Nat.mod_eq_of_lt (by omega)
    have hmod3 : ((num_fps / w + 1) * w) % 2 ^ 32 = (num_fps / w + 1) * w :=
      Nat.mod_eq_of_lt (by omega)
    have hnlt : ¬ (num_fps / w + 1) * w < num_fps := by omega
    simp only [send_search_details_loop, Nat.add_sub_cancel, hmod1, hlt, if_true, hmod2, hmod3,
      hnlt, if_false]
  · refine ⟨num_fps / w, ?_, by omega, by omega⟩
    have hmod1 : (num_fps / w * w) % 2 ^ 32 = num_fps / w * w := Nat.mod_eq_of_lt (by omega)
    simp only [send_search_details_loop, Nat.add_sub_cancel, hmod1, hlt, if_false]

theorem foldl_set_length (f : Nat → Nat) (a : Nat) (l : List Nat) (m : Nat) :
    ((List.range m).foldl (fun orig j => orig.set (a + j) (f j)) l).length = l.length := by
  induction m with
  | zero => rfl
  | succ m ih => rw [List.range_succ, List.foldl_append]; simp [ih]

theorem foldl_set_getD (f : Nat → Nat) (a : Nat) (l : List Nat) (m : Nat)
    (h : a + m ≤ l.length) (j : Nat) (hj : j < m) :
    ((List.range m).foldl (fun orig j => orig.set (a + j) (f j)) l).getD (a + j) 0 = f j := by
  induction m with
  | zero => omega
  | succ m ih =>
    rw [List.range_succ, List.foldl_append]
    simp only [List.foldl_cons, List.foldl_nil, List.getD_eq_getElem?_getD, List.getElem?_set,
      foldl_set_length]
    by_cases hjm : j = m
    · subst hjm
      have : a + j < l.length := by omega
      simp [this]
    · have h1 : ¬ a + m = a + j := by omega
      simp only [h1, if_false]
      have := ih (by omega) (by omega)
      rw [List.getD_eq_getElem?_getD] at this
      exact this

theorem slave_search_details_nns {D : Type} [LinearOrder D] [Zero D]
    (calc_distance : Nat → Nat → D → D) (toFloat : D → D) (threshold : D)
    (n c w rank : Nat) (hrank1 : 1 ≤ rank) (hrank2 : rank ≤ w) (hcw : c * w < 2 ^ 32) :
    (slave_search_details calc_distance toFloat threshold n c rank).nns
      = (List.range' ((rank - 1) * c) (min (rank * c) n - (rank - 1) * c)).map
          (make_nnlist calc_distance toFloat threshold n) := by
  have h1 : (rank - 1) * c + c = rank * c := by
    have : rank = (rank - 1) + 1 := by omega
    conv => rhs; rw [this, Nat.succ_mul]
  have h2 : rank * c ≤ w * c := Nat.mul_le_mul_right c hrank2
  have h3 : w * c = c * w := Nat.mul_comm _ _
  have hmod1 : ((rank - 1) * c) % 2 ^ 32 = (rank - 1) * c := Nat.mod_eq_of_lt (by omega)
  have hmod2 : ((rank - 1) * c + c) % 2 ^ 32 = (rank - 1) * c + c := Nat.mod_eq_of_lt (by omega)
  unfold slave_search_details receive_search_details make_nnlists_cs
  simp only [hmod1, hmod2]
  split
  · rename_i hgt
    simp only []
    rw [make_nnlists_eq, List.nil_append]
    congr 2
    omega
  · rename_i hgt
    simp only []
    rw [make_nnlists_eq, List.nil_append]
    congr 2
    omega

theorem slave_search_details_orig {D : Type} [LinearOrder D] [Zero D]
    (calc_distance : Nat → Nat → D → D) (toFloat : D → D) (threshold : D)
    (n c w rank : Nat) (hrank1 : 1 ≤ rank) (hrank2 : rank ≤ w) (hcw : c * w < 2 ^ 32)
    (hn : n < 2 ^ 32) (j : Nat) (hj : j < min (rank * c) n - (rank - 1) * c) :
    (slave_search_details calc_distance toFloat threshold n c rank).orig_nn_sizes.getD
        ((rank - 1) * c + j) 0
      = (make_nnlist calc_distance toFloat threshold n ((rank - 1) * c + j)).length := by
  have hnns := slave_search_details_nns calc_distance toFloat threshold n c w rank hrank1 hrank2 hcw
  have h1 : (rank - 1) * c + c = rank * c := by
    have : rank = (rank - 1) + 1 := by omega
    conv => rhs; rw [this, Nat.succ_mul]
  have h2 : rank * c ≤ w * c := Nat.mul_le_mul_right c hrank2
  have h3 : w * c = c * w := Nat.mul_comm _ _
  have hmod1 : ((rank - 1) * c) % 2 ^ 32 = (rank - 1) * c := Nat.mod_eq_of_lt (by omega)
  have hmod2 : ((rank - 1) * c + c) % 2 ^ 32 = (rank - 1) * c + c := Nat.mod_eq_of_lt (by omega)
  have horig : (slave_search_details calc_distance toFloat threshold n c rank).orig_nn_sizes
      = (List.range (min (rank * c) n - (rank - 1) * c)).foldl
          (fun orig j => orig.set ((rank - 1) * c + j)
            (((slave_search_details calc_distance toFloat threshold n c rank).nns).getD j
              []).length)
          (List.replicate n 0) := by
    unfold slave_search_details receive_search_details make_nnlists_cs make_orig_nn_sizes
    simp only [hmod1, hmod2]
    split
    · rename_i hgt
      simp only []
      congr 2
      omega
    · rename_i hgt
      simp only []
      congr 2
      omega
  rw [horig, foldl_set_getD _ _ _ _ (by simp; omega) j hj, hnns,
    List.getD_eq_getElem?_getD, List.getElem?_map, List.getElem?_range' _ _ hj]
  simp

theorem shards_flatten (c n : Nat) (m : Nat) :
    ((List.range m).map
      (fun k => List.range' (k * c) (min ((k + 1) * c) n - k * c))).flatten
      = List.range (min (m * c) n) := by
  induction m with
  | zero => simp
  | succ m ih =>
    rw [List.range_succ, List.map_append, List.flatten_append, ih]
    simp only [List.map_cons, List.map_nil, List.flatten_cons, List.flatten_nil,
      List.append_nil]
    have hsucc : (m + 1) * c = m * c + c := Nat.succ_mul _ _
    by_cases hle : m * c ≤ n
    · rw [Nat.min_eq_left hle, List.range_eq_range', List.range_eq_range']
      have := List.range'_append_1 0 (m * c) (min ((m + 1) * c) n - m * c)
      rw [Nat.zero_add] at this
      rw [this]
      congr 1
      omega
    · have h1 : min ((m + 1) * c) n - m * c = 0 := by omega
      rw [h1]
      simp only [List.range'_zero, List.append_nil]
      congr 1
      omega

/-! ### One pass of the master/worker loop -/

theorem remove_members_graph_flatten (cluster : List Nat) (shards : List (List (List Nat))) :
    remove_members_graph cluster shards.flatten
      = (shards.map (remove_members_graph cluster)).flatten := by
  induction shards with
  | nil => rfl
  | cons g gs ih =>
    rw [List.flatten_cons, remove_members_graph_append, ih, List.map_cons, List.flatten_cons]

theorem heads_ascending_remove (cluster : List Nat) (nns : List (List Nat))
    (hne : ∀ l ∈ nns, l ≠ [])
    (hasc : (nns.map (fun l => l.headD 0)).Pairwise (fun a b => a < b)) :
    ((remove_members_graph cluster nns).map (fun l => l.headD 0)).Pairwise
      (fun a b => a < b) := by
  rw [remove_members_graph_heads cluster nns hne]
  exact hasc.filter _

theorem find_next_seed_max_mem (nns : List (List Nat)) (orig_nn_sizes : List Nat)
    (hasc : (nns.map (fun l => l.headD 0)).Pairwise (fun a b => a < b))
    (l : List Nat) (hl : l ∈ nns) (hne : l ≠ nns.getD (find_next_seed nns orig_nn_sizes) []) :
    seed_key_lt orig_nn_sizes l (nns.getD (find_next_seed nns orig_nn_sizes) []) := by
  obtain ⟨i, hi, rfl⟩ := List.getElem_of_mem hl
  have hne2 : i ≠ find_next_seed nns orig_nn_sizes := by
    intro h
    apply hne
    rw [← h, List.getD_eq_getElem _ _ hi]
  have := find_next_seed_max nns orig_nn_sizes hasc i hi hne2
  rw [List.getD_eq_getElem _ _ hi] at this
  exact this

theorem seed_key_lt_asymm (orig_nn_sizes : List Nat) (a b : List Nat)
    (h : seed_key_lt orig_nn_sizes a b) : ¬ seed_key_lt orig_nn_sizes b a := by
  unfold seed_key_lt at *
  omega

theorem seed_key_lt_congr (orig1 orig2 : List Nat) (a b : List Nat)
    (ha : orig1.getD (a.headD 0) 0 = orig2.getD (a.headD 0) 0)
    (hb : orig1.getD (b.headD 0) 0 = orig2.getD (b.headD 0) 0)
    (h : seed_key_lt orig1 a b) : seed_key_lt orig2 a b := by
  unfold seed_key_lt at *
  rw [← ha, ← hb]
  exact h

theorem cross_off_cluster_eq (cluster : List Nat) (s : Slave)
    (hic : InClusterOk s.num_fps s.in_cluster) (hr : ∀ l ∈ s.nns, ∀ x ∈ l, x < s.num_fps) :
    cross_off_cluster cluster s
      = { nns := remove_members_graph cluster s.nns, orig_nn_sizes := s.orig_nn_sizes,
          num_fps := s.num_fps, in_cluster := List.replicate s.num_fps false } := by
  unfold cross_off_cluster
  rw [remove_cluster_from_nns_eq s.num_fps s.in_cluster cluster s.nns hic hr]

theorem SlavesInv_mem (num_fps : Nat) (orig_nn_sizes : List Nat) (nns : List (List Nat))
    (slaves : List Slave) (hinv : SlavesInv num_fps orig_nn_sizes nns slaves)
    (s : Slave) (hs : s ∈ slaves) (l : List Nat) (hl : l ∈ s.nns) : l ∈ nns := by
  rw [hinv.1, List.mem_flatten]
  exact ⟨s.nns, List.mem_map_of_mem _ hs, hl⟩

theorem SlavesInv_cross_off (num_fps : Nat) (orig_nn_sizes : List Nat) (nns : List (List Nat))
    (slaves : List Slave) (cluster : List Nat)
    (hinv : SlavesInv num_fps orig_nn_sizes nns slaves) (hg : GraphOk num_fps nns) :
    SlavesInv num_fps orig_nn_sizes (remove_members_graph cluster nns)
      (slaves.map (cross_off_cluster cluster)) := by
  have heq : ∀ s ∈ slaves, cross_off_cluster cluster s
      = { nns := remove_members_graph cluster s.nns, orig_nn_sizes := s.orig_nn_sizes,
          num_fps := s.num_fps, in_cluster := List.replicate s.num_fps false } := by
    intro s hs
    apply cross_off_cluster_eq cluster s
    · rw [(hinv.2 s hs).1]
      exact (hinv.2 s hs).2.1
    · intro l hl x hx
      rw [(hinv.2 s hs).1]
      exact (hg l (SlavesInv_mem _ _ _ _ hinv s hs l hl)).2 x hx
  constructor
  · rw [hinv.1, remove_members_graph_flatten, List.map_map, List.map_map]
    congr 1
    apply List.map_congr_left
    intro s hs
    simp only [Function.comp]
    rw [heq s hs]
  · intro s2 hs2
    rw [List.mem_map] at hs2
    obtain ⟨s, hs, rfl⟩ := hs2
    rw [heq s hs]
    refine ⟨(hinv.2 s hs).1, ?_, ?_⟩
    · rw [(hinv.2 s hs).1]
      exact Or.inr rfl
    · intro l2 hl2
      simp only at hl2
      obtain ⟨a, t, hmem, _, rfl⟩ := mem_remove_members_graph cluster s.nns l2 hl2
      exact (hinv.2 s hs).2.2 (a :: t) hmem

theorem slave_heads_ascending (num_fps : Nat) (orig_nn_sizes : List Nat)
    (nns : List (List Nat)) (slaves : List Slave)
    (hinv : SlavesInv num_fps orig_nn_sizes nns slaves)
    (hasc : (nns.map (fun l => l.headD 0)).Pairwise (fun a b => a < b))
    (s : Slave) (hs : s ∈ slaves) :
    (s.nns.map (fun l => l.headD 0)).Pairwise (fun a b => a < b) := by
  have hsub : s.nns.Sublist nns := by
    rw [hinv.1]
    exact List.sublist_flatten_of_mem (List.mem_map_of_mem _ hs)
  exact hasc.sublist (hsub.map _)

theorem send_best_cluster_details_of_ne (rank : Nat) (s : Slave) (h : s.nns ≠ []) :
    send_best_cluster_details_to_master rank s
      = { source := rank, this_best_clus := (find_next_seed s.nns s.orig_nn_sizes : Int),
          details := ((s.nns.getD (find_next_seed s.nns s.orig_nn_sizes) []).length,
            s.orig_nn_sizes.getD
              ((s.nns.getD (find_next_seed s.nns s.orig_nn_sizes) []).headD 0) 0,
            (s.nns.getD (find_next_seed s.nns s.orig_nn_sizes) []).headD 0) } := by
  unfold send_best_cluster_details_to_master
  have : s.nns.isEmpty = false := by
    cases hn : s.nns with
    | nil => exact absurd hn h
    | cons _ _ => rfl
  simp [this]

theorem send_best_cluster_details_of_nil (rank : Nat) (s : Slave) (h : s.nns = []) :
    send_best_cluster_details_to_master rank s
      = { source := rank, this_best_clus := -1, details := (0, 0, 0) } := by
  unfold send_best_cluster_details_to_master
  simp [h]

theorem receive_best_clusters_all_empty (replies : List BestClusterReply)
    (send_cluster : Nat → Int → List Nat) (hall : ∀ r ∈ replies, r.this_best_clus = -1) :
    receive_best_clusters_from_slaves replies send_cluster = some ([], 0) := by
  unfold receive_best_clusters_from_slaves reduce_best_clusters
  rw [receive_best_fold_all_empty replies BestCluster.init hall]
  simp [BestCluster.init]

theorem slave_of_rank_mem (slaves : List Slave) (rank : Nat) (h1 : 1 ≤ rank)
    (h2 : rank ≤ slaves.length) : slave_of_rank slaves rank ∈ slaves := by
  unfold slave_of_rank
  rw [List.getD_eq_getElem _ _ (by omega : rank - 1 < slaves.length)]
  exact List.getElem_mem _

theorem exists_rank_of_mem (slaves : List Slave) (s : Slave) (hs : s ∈ slaves) :
    ∃ rank, 1 ≤ rank ∧ rank ≤ slaves.length ∧ slave_of_rank slaves rank = s := by
  obtain ⟨i, hi, rfl⟩ := List.getElem_of_mem hs
  refine ⟨i + 1, by omega, by omega, ?_⟩
  unfold slave_of_rank
  rw [List.getD_eq_getElem _ _ (by omega : i + 1 - 1 < slaves.length)]
  rfl

theorem slave_best (num_fps : Nat) (orig_nn_sizes : List Nat) (nns : List (List Nat))
    (slaves : List Slave) (hinv : SlavesInv num_fps orig_nn_sizes nns slaves)
    (hasc : (nns.map (fun l => l.headD 0)).Pairwise (fun a b => a < b))
    (s : Slave) (hs : s ∈ slaves) (hsne : s.nns ≠ []) :
    s.nns.getD (find_next_seed s.nns s.orig_nn_sizes) [] ∈ s.nns
    ∧ s.orig_nn_sizes.getD ((s.nns.getD (find_next_seed s.nns s.orig_nn_sizes) []).headD 0) 0
        = orig_nn_sizes.getD ((s.nns.getD (find_next_seed s.nns s.orig_nn_sizes) []).headD 0) 0
    ∧ ∀ l ∈ s.nns, l ≠ s.nns.getD (find_next_seed s.nns s.orig_nn_sizes) [] →
        seed_key_lt orig_nn_sizes l (s.nns.getD (find_next_seed s.nns s.orig_nn_sizes) []) := by
  have hmem := find_next_seed_mem s.nns s.orig_nn_sizes hsne
  have hagree := (hinv.2 s hs).2.2
  refine ⟨hmem, hagree _ hmem, ?_⟩
  intro l hl hne
  have := find_next_seed_max_mem s.nns s.orig_nn_sizes
    (slave_heads_ascending num_fps orig_nn_sizes nns slaves hinv hasc s hs) l hl hne
  exact seed_key_lt_congr _ _ _ _ (hagree l hl) (hagree _ hmem) this

theorem slave_best_of_owner (num_fps : Nat) (orig_nn_sizes : List Nat) (nns : List (List Nat))
    (slaves : List Slave) (hinv : SlavesInv num_fps orig_nn_sizes nns slaves)
    (hasc : (nns.map (fun l => l.headD 0)).Pairwise (fun a b => a < b))
    (s : Slave) (hs : s ∈ slaves)
    (hown : nns.getD (find_next_seed nns orig_nn_sizes) [] ∈ s.nns) :
    s.nns.getD (find_next_seed s.nns s.orig_nn_sizes) []
      = nns.getD (find_next_seed nns orig_nn_sizes) [] := by
  have hsne : s.nns ≠ [] := List.ne_nil_of_mem hown
  obtain ⟨hmem, _, hmax⟩ := slave_best num_fps orig_nn_sizes nns slaves hinv hasc s hs hsne
  by_contra hne
  have h1 := hmax _ hown (fun h => hne h.symm)
  have h2 := find_next_seed_max_mem nns orig_nn_sizes hasc _
    (SlavesInv_mem _ _ _ _ hinv s hs _ hmem) hne
  exact seed_key_lt_asymm _ _ _ h1 h2

theorem parallel_pass (num_fps : Nat) (orig_nn_sizes : List Nat) (nns : List (List Nat))
    (slaves : List Slave) (hinv : SlavesInv num_fps orig_nn_sizes nns slaves)
    (hg : GraphOk num_fps nns)
    (hasc : (nns.map (fun l => l.headD 0)).Pairwise (fun a b => a < b))
    (hne : nns ≠ []) (ar : List Nat)
    (har1 : ∀ rank ∈ ar, 1 ≤ rank ∧ rank ≤ slaves.length)
    (har2 : ∀ rank, 1 ≤ rank → rank ≤ slaves.length → rank ∈ ar) :
    receive_best_clusters_from_slaves
        (ar.map (fun rank => send_best_cluster_details_to_master rank (slave_of_rank slaves rank)))
        (fun rank clus_num => send_cluster_to_master (slave_of_rank slaves rank) clus_num)
      = some (nns.getD (find_next_seed nns orig_nn_sizes) [],
          orig_nn_sizes.getD ((nns.getD (find_next_seed nns orig_nn_sizes) []).headD 0) 0) := by
  have hC := find_next_seed_mem nns orig_nn_sizes hne
  -- the worker that owns the list selected by the serial run
  have hflat : ∀ l ∈ nns, l ∈ (slaves.map (fun s => s.nns)).flatten := by
    intro l hl
    rw [← hinv.1]
    exact hl
  have hCflat := hflat _ hC
  rw [List.mem_flatten] at hCflat
  obtain ⟨g0, hg0, hCg0⟩ := hCflat
  rw [List.mem_map] at hg0
  obtain ⟨s0, hs0, rfl⟩ := hg0
  obtain ⟨rank0, hr01, hr02, hr0eq⟩ := exists_rank_of_mem slaves s0 hs0
  have hs0ne : s0.nns ≠ [] := List.ne_nil_of_mem hCg0
  have hbest0 := slave_best_of_owner num_fps orig_nn_sizes nns slaves hinv hasc s0 hs0 hCg0
  have hagree0 := (slave_best num_fps orig_nn_sizes nns slaves hinv hasc s0 hs0 hs0ne).2.1
  have hreply0 := send_best_cluster_details_of_ne rank0 s0 hs0ne
  rw [hbest0] at hreply0 hagree0
  rw [hagree0] at hreply0
  have hr0mem : send_best_cluster_details_to_master rank0 (slave_of_rank slaves rank0)
      ∈ ar.map (fun rank =>
          send_best_cluster_details_to_master rank (slave_of_rank slaves rank)) :=
    List.mem_map.mpr ⟨rank0, har2 rank0 hr01 hr02, rfl⟩
  rw [hr0eq] at hr0mem
  -- every reply that is not -1 comes from a worker with lists and reports its best list
  have hreplies : ∀ r ∈ ar.map (fun rank =>
      send_best_cluster_details_to_master rank (slave_of_rank slaves rank)),
      r.this_best_clus ≠ -1 →
      ∃ rank s, s ∈ slaves ∧ slave_of_rank slaves rank = s ∧ s.nns ≠ []
        ∧ r = send_best_cluster_details_to_master rank s := by
    intro r hr hrne
    rw [List.mem_map] at hr
    obtain ⟨rank, hrank, rfl⟩ := hr
    have hmem := slave_of_rank_mem slaves rank (har1 rank hrank).1 (har1 rank hrank).2
    refine ⟨rank, _, hmem, rfl, ?_, rfl⟩
    intro hnil
    rw [send_best_cluster_details_of_nil rank _ hnil] at hrne
    exact hrne rfl
  have hsome : ∃ r ∈ ar.map (fun rank =>
      send_best_cluster_details_to_master rank (slave_of_rank slaves rank)),
      r.this_best_clus ≠ -1 := by
    refine ⟨_, hr0mem, ?_⟩
    rw [hreply0]
    simp only [ne_eq]
    omega
  have hsize : ∀ r ∈ ar.map (fun rank =>
      send_best_cluster_details_to_master rank (slave_of_rank slaves rank)),
      r.this_best_clus ≠ -1 → 1 ≤ r.details.1 := by
    intro r hr hrne
    obtain ⟨rank, s, hs, _, hsne, rfl⟩ := hreplies r hr hrne
    rw [send_best_cluster_details_of_ne rank s hsne]
    simp only []
    have hmem := find_next_seed_mem s.nns s.orig_nn_sizes hsne
    have := (hg _ (SlavesInv_mem _ _ _ _ hinv s hs _ hmem)).1
    exact List.length_pos.mpr this
  obtain ⟨r, hr, hrne, hholds, hmax⟩ := reduce_best_clusters_winner _ hsome hsize
  obtain ⟨rank, s, hs, hrankeq, hsne, hreq⟩ := hreplies r hr hrne
  obtain ⟨hmem1, hagree1, _⟩ := slave_best num_fps orig_nn_sizes nns slaves hinv hasc s hs hsne
  have hreply1 := send_best_cluster_details_of_ne rank s hsne
  rw [hagree1] at hreply1
  -- the winner reports the list selected by the serial run
  have hsame : s.nns.getD (find_next_seed s.nns s.orig_nn_sizes) []
      = nns.getD (find_next_seed nns orig_nn_sizes) [] := by
    by_contra hdiff
    have hlt := find_next_seed_max_mem nns orig_nn_sizes hasc _
      (SlavesInv_mem _ _ _ _ hinv s hs _ hmem1) hdiff
    have hnot := hmax _ hr0mem (by rw [hreply0]; simp only [ne_eq]; omega)
    rw [hreq, hreply1, hreply0] at hnot
    apply hnot
    unfold seed_key_lt at hlt
    unfold reply_key_lt
    exact hlt
  obtain ⟨hb1, hb2, hb3, hb4, hb5⟩ := hholds
  rw [hreq, hreply1] at hb1 hb2 hb3 hb4 hb5
  simp only at hb1 hb2 hb3 hb4 hb5
  rw [hsame] at hb3 hb4
  unfold receive_best_clusters_from_slaves
  simp only []
  have hnot1 : ¬ (reduce_best_clusters (ar.map (fun rank =>
      send_best_cluster_details_to_master rank (slave_of_rank slaves rank)))).best_clus = -1 := by
    rw [hb1]
    omega
  have hsend : send_cluster_to_master (slave_of_rank slaves
      (reduce_best_clusters (ar.map (fun rank =>
        send_best_cluster_details_to_master rank (slave_of_rank slaves rank)))).best_clus_slave)
      (reduce_best_clusters (ar.map (fun rank =>
        send_best_cluster_details_to_master rank (slave_of_rank slaves rank)))).best_clus
      = nns.getD (find_next_seed nns orig_nn_sizes) [] := by
    rw [hb1, hb2, hrankeq]
    unfold send_cluster_to_master
    rw [Int.toNat_ofNat]
    exact hsame
  rw [if_neg hnot1, hsend, hb3, hb4]
  simp

theorem parallel_cluster_loop_emits (num_fps : Nat) (orig_nn_sizes : List Nat)
    (arrival : Nat → List Nat) (w : Nat)
    (harr : ∀ round, (arrival round).Perm (List.range' 1 w)) :
    ∀ (fuel round : Nat) (slaves : List Slave) (nns : List (List Nat)),
      slaves.length = w → SlavesInv num_fps orig_nn_sizes nns slaves → GraphOk num_fps nns →
      (nns.map (fun l => l.headD 0)).Pairwise (fun a b => a < b) → nns.length < fuel →
      ∃ cs, parallel_cluster_loop arrival fuel round slaves = some cs
        ∧ Emits orig_nn_sizes nns cs := by
  intro fuel
  induction fuel with
  | zero => intro _ _ _ _ _ _ _ h; omega
  | succ fuel ih =>
    intro round slaves nns hlen hinv hg hasc hfuel
    have har1 : ∀ rank ∈ arrival round, 1 ≤ rank ∧ rank ≤ slaves.length := by
      intro rank hrank
      have := (harr round).mem_iff.mp hrank
      rw [List.mem_range'_1] at this
      omega
    have har2 : ∀ rank, 1 ≤ rank → rank ≤ slaves.length → rank ∈ arrival round := by
      intro rank h1 h2
      apply (harr round).mem_iff.mpr
      rw [List.mem_range'_1]
      omega
    by_cases hnil : nns = []
    · subst hnil
      have hall : ∀ r ∈ (arrival round).map (fun rank =>
          send_best_cluster_details_to_master rank (slave_of_rank slaves rank)),
          r.this_best_clus = -1 := by
        intro r hr
        rw [List.mem_map] at hr
        obtain ⟨rank, hrank, rfl⟩ := hr
        have hmem := slave_of_rank_mem slaves rank (har1 rank hrank).1 (har1 rank hrank).2
        have hsnil : (slave_of_rank slaves rank).nns = [] := by
          by_contra hne
          obtain ⟨l, hl⟩ := List.exists_mem_of_ne_nil _ hne
          exact List.not_mem_nil l (SlavesInv_mem _ _ _ _ hinv _ hmem l hl)
        rw [send_best_cluster_details_of_nil rank _ hsnil]
      refine ⟨[], ?_, Emits.done⟩
      simp only [parallel_cluster_loop]
      rw [receive_best_clusters_all_empty _ _ hall]
      rfl
    · have hpass := parallel_pass num_fps orig_nn_sizes nns slaves hinv hg hasc hnil
        (arrival round) har1 har2
      have hmem := find_next_seed_mem nns orig_nn_sizes hnil
      have hcne := (hg _ hmem).1
      have hlt := remove_members_graph_length_lt _ nns hmem hcne
      obtain ⟨rest, hrest, hemits⟩ := ih (round + 1)
        (slaves.map (cross_off_cluster (nns.getD (find_next_seed nns orig_nn_sizes) [])))
        (remove_members_graph (nns.getD (find_next_seed nns orig_nn_sizes) []) nns)
        (by rw [List.length_map]; exact hlen)
        (SlavesInv_cross_off _ _ _ _ _ hinv hg)
        (remove_members_graph_ok _ _ _ hg)
        (heads_ascending_remove _ _ (fun l hl => (hg l hl).1) hasc)
        (by omega)
      refine ⟨_, ?_, Emits.pass nns rest hnil hemits⟩
      have hempty : (nns.getD (find_next_seed nns orig_nn_sizes) []).isEmpty = false := by
        cases hc : nns.getD (find_next_seed nns orig_nn_sizes) [] with
        | nil => exact absurd hc hcne
        | cons _ _ => rfl
      simp only [parallel_cluster_loop]
      rw [hpass]
      simp only [hempty, Bool.false_eq_true, if_false, hrest, Option.map_some']

theorem initial_slaves_nns {D : Type} [LinearOrder D] [Zero D]
    (calc_distance : Nat → Nat → D → D) (toFloat : D → D) (threshold : D)
    (n c w : Nat) (hcw : c * w < 2 ^ 32) (hcover : n ≤ c * w) :
    make_nnlists calc_distance toFloat threshold 0 n n []
      = (((List.range' 1 w).map
          (slave_search_details calc_distance toFloat threshold n c)).map
            (fun s => s.nns)).flatten := by
  rw [List.map_map]
  have h1 : (List.range' 1 w).map
      ((fun s : Slave => s.nns) ∘ slave_search_details calc_distance toFloat threshold n c)
      = (List.range' 1 w).map (fun rank =>
          (List.range' ((rank - 1) * c) (min (rank * c) n - (rank - 1) * c)).map
            (make_nnlist calc_distance toFloat threshold n)) := by
    apply List.map_congr_left
    intro rank hrank
    rw [List.mem_range'_1] at hrank
    exact slave_search_details_nns calc_distance toFloat threshold n c w rank (by omega)
      (by omega) hcw
  rw [h1, List.range'_eq_map_range, List.map_map]
  have h2 : (List.range w).map
      ((fun rank => (List.range' ((rank - 1) * c) (min (rank * c) n - (rank - 1) * c)).map
          (make_nnlist calc_distance toFloat threshold n)) ∘ fun x => 1 + x)
      = ((List.range w).map
          (fun k => List.range' (k * c) (min ((k + 1) * c) n - k * c))).map
          (List.map (make_nnlist calc_distance toFloat threshold n)) := by
    rw [List.map_map]
    apply List.map_congr_left
    intro k _
    simp only [Function.comp]
    have e1 : 1 + k - 1 = k := by omega
    have e2 : 1 + k = k + 1 := by omega
    rw [e1, e2]
  rw [h2, ← List.map_flatten, shards_flatten, make_nnlists_full]
  have h3 : min (w * c) n = n := by
    rw [Nat.mul_comm]
    exact Nat.min_eq_right hcover
  rw [h3]

theorem initial_slaves_inv {D : Type} [LinearOrder D] [Zero D]
    (calc_distance : Nat → Nat → D → D) (toFloat : D → D) (threshold : D)
    (n c w : Nat) (hcw : c * w < 2 ^ 32) (hcover : n ≤ c * w) :
    SlavesInv n ((make_nnlists calc_distance toFloat threshold 0 n n []).map List.length)
      (make_nnlists calc_distance toFloat threshold 0 n n [])
      ((List.range' 1 w).map (slave_search_details calc_distance toFloat threshold n c)) := by
  refine ⟨initial_slaves_nns calc_distance toFloat threshold n c w hcw hcover, ?_⟩
  intro s hs
  rw [List.mem_map] at hs
  obtain ⟨rank, hrank, rfl⟩ := hs
  rw [List.mem_range'_1] at hrank
  refine ⟨rfl, Or.inl rfl, ?_⟩
  intro l hl
  rw [slave_search_details_nns calc_distance toFloat threshold n c w rank (by omega) (by omega)
    hcw, List.mem_map] at hl
  obtain ⟨i, hi, rfl⟩ := hl
  rw [List.mem_range'_1] at hi
  have hin : i < n := by omega
  have hj : i - (rank - 1) * c < min (rank * c) n - (rank - 1) * c := by omega
  have horig := slave_search_details_orig calc_distance toFloat threshold n c w rank (by omega)
    (by omega) hcw (by omega) (i - (rank - 1) * c) hj
  have hi2 : (rank - 1) * c + (i - (rank - 1) * c) = i := by omega
  rw [hi2] at horig
  rw [make_nnlist_headD, horig, orig_sizes_getD, make_nnlists_full_getD _ _ _ _ _ hin]

/-- C9. Distributed run equals single-host run: with `w ≥ 1` workers that each
hold the same `n` fingerprints (the master counting `file_num_fps ≥ n` in the
file, `file_num_fps + w ≤ 2^32`), whatever the order in which the replies of the
workers arrive in each pass, `parallel_run` emits the same sequence of clusters,
with the same members in the same order and the same original sizes, as
`output_clusters` on the graph that `make_nnlists` builds over `[0, n)`. -/
theorem parallel_run_eq_serial_run {D : Type} [LinearOrder D] [Zero D]
    (calc_distance : Nat → Nat → D → D) (toFloat : D → D) (threshold : D)
    (n file_num_fps w : Nat) (arrival : Nat → List Nat) (fuel serial_fuel : Nat)
    (hw : 1 ≤ w) (hfile : n ≤ file_num_fps) (hsmall : file_num_fps + w ≤ 2 ^ 32)
    (harr : ∀ round, (arrival round).Perm (List.range' 1 w))
    (hfuel : n < fuel) (hserial : n ≤ serial_fuel) :
    ∃ cs, parallel_run_emitted calc_distance toFloat threshold n file_num_fps (w + 1) arrival
          1 fuel = some cs
      ∧ output_clusters_emitted serial_fuel n
          (make_nnlists calc_distance toFloat threshold 0 n n []) = some cs := by
  obtain ⟨cs, hcs, hemits⟩ := output_clusters_loop_emits n
    ((make_nnlists calc_distance toFloat threshold 0 n n []).map List.length) serial_fuel []
    (make_nnlists calc_distance toFloat threshold 0 n n []) (Or.inl rfl)
    (make_nnlists_full_ok calc_distance toFloat threshold n)
    (by rw [make_nnlists_full_length]; exact hserial)
  refine ⟨cs, ?_, hcs⟩
  unfold parallel_run_emitted
  by_cases hzero : file_num_fps = 0
  · have hn : n = 0 := by omega
    subst hn
    rw [if_pos hzero]
    have hnil : make_nnlists calc_distance toFloat threshold 0 0 0 [] = [] := by
      rw [make_nnlists_full]
      rfl
    rw [hnil] at hemits
    cases hemits with
    | done => rfl
    | pass _ _ hne _ => exact absurd rfl hne
  · rw [if_neg hzero]
    obtain ⟨c, hc, hcover, hcw⟩ := send_search_details_eq file_num_fps w hw hsmall
    rw [hc]
    simp only [Nat.add_sub_cancel]
    obtain ⟨cs2, hcs2, hemits2⟩ := parallel_cluster_loop_emits n
      ((make_nnlists calc_distance toFloat threshold 0 n n []).map List.length) arrival w harr
      fuel 0 ((List.range' 1 w).map (slave_search_details calc_distance toFloat threshold n c))
      (make_nnlists calc_distance toFloat threshold 0 n n [])
      (by simp)
      (initial_slaves_inv calc_distance toFloat threshold n c w hcw (by omega))
      (make_nnlists_full_ok calc_distance toFloat threshold n)
      (make_nnlists_full_ascending calc_distance toFloat threshold n)
      (by rw [make_nnlists_full_length]; exact hfuel)
    rw [hcs2, Emits_unique _ _ _ _ hemits2 hemits]

/-- Witness for C9: five fingerprints with distances `(i + j) % 4`, threshold 3,
two workers whose replies arrive in the order 2, 1 in every pass. -/
theorem parallel_run_eq_serial_run_witness :
    (1 ≤ 2 ∧ 5 ≤ 5 ∧ 5 + 2 ≤ 2 ^ 32
      ∧ (∀ _round : Nat, ([2, 1] : List Nat).Perm (List.range' 1 2)) ∧ 5 < 6 ∧ 5 ≤ 5)
    ∧ ∃ cs, parallel_run_emitted (fun i j (_ : Nat) => (i + j) % 4) id 3 5 5 (2 + 1)
          (fun _ => [2, 1]) 1 6 = some cs
      ∧ output_clusters_emitted 5 5
          (make_nnlists (fun i j (_ : Nat) => (i + j) % 4) id 3 0 5 5 []) = some cs :=
  ⟨⟨by decide, by decide, by decide, fun _ => List.Perm.swap 1 2 [], by decide, by decide⟩,
    parallel_run_eq_serial_run (fun i j (_ : Nat) => (i + j) % 4) id 3 5 5 2 (fun _ => [2, 1])
      6 5 (by decide) (by decide) (by decide) (fun _ => List.Perm.swap 1 2 []) (by decide)
      (by decide)⟩

/-! ### The subset filter -/

theorem sorted_getD_not_lt (xs : List String)
    (hsorted : xs.Pairwise (fun a b => ¬ b.toList < a.toList))
    (i j : Nat) (hij : i ≤ j) (hj : j < xs.length) :
    ¬ (xs.getD j "").toList < (xs.getD i "").toList := by
  rw [List.getD_eq_getElem _ _ hj, List.getD_eq_getElem _ _ (by omega : i < xs.length)]
  by_cases h : i = j
  · subst h
    exact lt_irrefl _
  · rw [List.pairwise_iff_getElem] at hsorted
    exact hsorted i j (by omega) hj (by omega)

theorem lower_bound_loop_spec (xs : List String) (value : String)
    (hsorted : xs.Pairwise (fun a b => ¬ b.toList < a.toList)) :
    ∀ (fuel first len : Nat), len ≤ fuel → first + len ≤ xs.length →
      (∀ i, i < first → (xs.getD i "").toList < value.toList) →
      (∀ i, first + len ≤ i → i < xs.length → ¬ (xs.getD i "").toList < value.toList) →
      lower_bound_loop xs value fuel first len ≤ xs.length
      ∧ (∀ i, i < lower_bound_loop xs value fuel first len →
          (xs.getD i "").toList < value.toList)
      ∧ (∀ i, lower_bound_loop xs value fuel first len ≤ i → i < xs.length →
          ¬ (xs.getD i "").toList < value.toList) := by
  intro fuel
  induction fuel with
  | zero =>
    intro first len hlen hbound hlow hhigh
    have : len = 0 := by omega
    subst this
    simp only [lower_bound_loop]
    exact ⟨by omega, hlow, fun i hi => hhigh i (by omega)⟩
  | succ fuel ih =>
    intro first len hlen hbound hlow hhigh
    simp only [lower_bound_loop]
    by_cases hpos : len > 0
    · simp only [hpos, if_true]
      have hhalf : len / 2 < len := Nat.div_lt_self hpos (by decide)
      have hmid : first + len / 2 < xs.length := by omega
      by_cases hlt : (xs.getD (first + len / 2) "").toList < value.toList
      · simp only [hlt, if_true]
        apply ih (first + len / 2 + 1) (len - len / 2 - 1) (by omega) (by omega)
        · intro i hi
          have h1 := sorted_getD_not_lt xs hsorted i (first + len / 2) (by omega) hmid
          exact lt_of_le_of_lt (not_lt.mp h1) hlt
        · intro i hi hi2
          exact hhigh i (by omega) hi2
      · simp only [hlt, if_false]
        apply ih first (len / 2) (by omega) (by omega) hlow
        intro i hi hi2 hcon
        have h1 := sorted_getD_not_lt xs hsorted (first + len / 2) i hi hi2
        exact hlt (lt_of_le_of_lt (not_lt.mp h1) hcon)
    · have : len = 0 := by omega
      subst this
      simp only [gt_iff_lt, lt_self_iff_false, if_false]
      exact ⟨by omega, hlow, fun i hi => hhigh i (by omega)⟩

theorem binary_search_iff (xs : List String) (value : String)
    (hsorted : xs.Pairwise (fun a b => ¬ b.toList < a.toList)) :
    binary_search xs value = true ↔ value ∈ xs := by
  obtain ⟨hle, hlow, hhigh⟩ := lower_bound_loop_spec xs value hsorted xs.length 0 xs.length
    (le_refl _) (by omega) (fun i hi => absurd hi (Nat.not_lt_zero i))
    (fun i hi hi2 => absurd hi2 (by omega))
  unfold binary_search
  simp only [Bool.and_eq_true, decide_eq_true_eq, Bool.not_eq_true', decide_eq_false_iff_not]
  constructor
  · rintro ⟨hne, hnlt⟩
    have hr : lower_bound_loop xs value xs.length 0 xs.length < xs.length := by omega
    have h2 := hhigh _ (le_refl _) hr
    have heq : (xs.getD (lower_bound_loop xs value xs.length 0 xs.length) "").toList
        = value.toList := by
      rcases lt_trichotomy
        (xs.getD (lower_bound_loop xs value xs.length 0 xs.length) "").toList value.toList
        with h | h | h
      · exact absurd h h2
      · exact h
      · exact absurd h hnlt
    rw [String.toList_inj] at heq
    rw [← heq, List.getD_eq_getElem _ _ hr]
    exact List.getElem_mem _
  · intro hmem
    obtain ⟨i, hi, rfl⟩ := List.getElem_of_mem hmem
    have hri : lower_bound_loop xs xs[i] xs.length 0 xs.length ≤ i := by
      by_contra hcon
      have := hlow i (by omega)
      rw [List.getD_eq_getElem _ _ hi] at this
      exact lt_irrefl _ this
    refine ⟨by omega, ?_⟩
    have := sorted_getD_not_lt xs hsorted _ i hri hi
    rw [List.getD_eq_getElem _ _ hi] at this
    exact this

theorem read_subset_file_sorted (names : List String) :
    (read_subset_file names).Pairwise (fun a b => ¬ b.toList < a.toList) := by
  have := std_sort_pairwise (fun a b : String => decide (a.toList < b.toList))
    (by
      intro a b h
      simp only [decide_eq_true_eq] at h
      simp only [decide_eq_false_iff_not]
      exact lt_asymm h)
    (by
      intro a b c h1 h2
      simp only [decide_eq_false_iff_not, not_lt] at h1 h2 ⊢
      exact le_trans h1 h2)
    names
  unfold read_subset_file
  refine this.imp ?_
  intro a b h
  simpa using h

theorem compaction_fold (p : String → Bool) (fps : List String) :
    ∀ k, k ≤ fps.length →
      (List.range k).foldl
        (fun (st : Nat × List String) i =>
          if p (st.2.getD i "") then (st.1 + 1, st.2.set st.1 (st.2.getD i "")) else st)
        (0, fps)
      = (((fps.take k).filter p).length,
          (fps.take k).filter p ++ fps.drop ((fps.take k).filter p).length) := by
  intro k
  induction k with
  | zero => intro _; simp
  | succ k ih =>
    intro hk
    have hk2 : k < fps.length := by omega
    rw [List.range_succ, List.foldl_append, ih (by omega)]
    have hjk : ((fps.take k).filter p).length ≤ k := by
      have h1 := List.length_filter_le p (fps.take k)
      have h2 : (fps.take k).length ≤ k := by simp
      omega
    have hget : ((fps.take k).filter p ++ fps.drop ((fps.take k).filter p).length).getD k ""
        = fps[k] := by
      rw [List.getD_eq_getElem?_getD, List.getElem?_append_right hjk, List.getElem?_drop]
      have : ((fps.take k).filter p).length + (k - ((fps.take k).filter p).length) = k := by
        omega
      rw [this, List.getElem?_eq_getElem hk2]
      rfl
    have htake : fps.take (k + 1) = fps.take k ++ [fps[k]] := by
      rw [List.take_succ, List.getElem?_eq_getElem hk2]
      rfl
    simp only [List.foldl_cons, List.foldl_nil]
    rw [hget, htake, List.filter_append]
    by_cases hp : p fps[k] = true
    · simp only [hp, if_true, List.filter_cons, List.filter_nil, List.length_append,
        List.length_singleton]
      congr 1
      have hjlen : ((fps.take k).filter p).length < fps.length := by omega
      rw [List.set_append_right _ _ (le_refl _), Nat.sub_self,
        List.drop_eq_getElem_cons hjlen, List.set_cons_zero, List.append_assoc,
        List.singleton_append]
    · simp only [hp, Bool.false_eq_true, if_false, List.filter_cons, List.filter_nil,
        List.append_nil]

theorem apply_subset_names_eq_filter (subset_names fps : List String) :
    apply_subset_names subset_names fps
      = fps.filter (fun name => !binary_search subset_names name) := by
  unfold apply_subset_names
  have := compaction_fold (fun name => !binary_search subset_names name) fps fps.length
    (le_refl _)
  simp only [List.take_length] at this
  simp only []
  rw [this]
  simp

/-- What `apply_subset_names` does with the sorted names of a subset file: it
keeps, in their order, the fingerprints whose name is not among them. -/
theorem apply_subset_names_complement (names_in_file fps : List String) :
    apply_subset_names (read_subset_file names_in_file) fps
      = fps.filter (fun name => decide (name ∉ names_in_file)) := by
  rw [apply_subset_names_eq_filter]
  apply List.filter_congr
  intro name _
  have h := binary_search_iff (read_subset_file names_in_file) name
    (read_subset_file_sorted names_in_file)
  have hperm : name ∈ read_subset_file names_in_file ↔ name ∈ names_in_file :=
    (std_sort_perm _ names_in_file).mem_iff
  by_cases hmem : name ∈ names_in_file
  · have : binary_search (read_subset_file names_in_file) name = true :=
      h.mpr (hperm.mpr hmem)
    simp [this, hmem]
  · have : binary_search (read_subset_file names_in_file) name = false := by
      rw [← Bool.not_eq_true]
      exact fun hb => hmem (hperm.mp (h.mp hb))
    simp [this, hmem]

/-- C10 (the code at a failing input). With the subset file holding the one name
`a` and the fingerprints named `a` and `b`, `apply_subset_names` leaves the
fingerprint `b`, whose name is absent from the subset, and deletes `a`. -/
theorem apply_subset_names_keeps_absent :
    apply_subset_names (read_subset_file ["a"]) ["a", "b"] = ["b"] := by
  decide

/-! ### Removal: semantics and idempotence -/

theorem remove_members_graph_eq_filter_map (cluster : List Nat) (nns : List (List Nat))
    (hne : ∀ l ∈ nns, l ≠ []) :
    remove_members_graph cluster nns
      = (nns.filter (fun l => decide (l.headD 0 ∉ cluster))).map
          (fun l => l.filter (fun x => decide (x ∉ cluster))) := by
  induction nns with
  | nil => rfl
  | cons l g ih =>
    have ih2 := ih (fun l2 hl2 => hne l2 (List.mem_cons_of_mem _ hl2))
    have hcons : remove_members_graph cluster (l :: g)
        = remove_members_graph cluster [l] ++ remove_members_graph cluster g :=
      remove_members_graph_append cluster [l] g
    rw [hcons, ih2]
    cases l with
    | nil => exact absurd rfl (hne [] (List.mem_cons_self _ _))
    | cons a t =>
      by_cases ha : a ∈ cluster
      · simp [remove_members_graph, remove_members_of_mem _ _ _ ha, List.filter_cons, ha]
      · simp [remove_members_graph, remove_members_cons _ _ _ ha, List.filter_cons, ha]

/-- C11. Removal semantics: for a graph of non-empty lists with members below
`num_fps`, and the static `in_cluster` not yet allocated or all zero on entry,
`remove_cluster_from_nns` leaves the lists whose first member is not in the
cluster, in their order, each without its members that are in the cluster (the
others in their order), and leaves `in_cluster` as `num_fps` zeros. -/
theorem remove_cluster_from_nns_semantics (num_fps : Nat) (in_cluster : List Bool)
    (cluster : List Nat) (nns : List (List Nat))
    (hic : InClusterOk num_fps in_cluster) (hne : ∀ l ∈ nns, l ≠ [])
    (hr : ∀ l ∈ nns, ∀ x ∈ l, x < num_fps) :
    remove_cluster_from_nns in_cluster num_fps cluster nns
      = (List.replicate num_fps false,
          (nns.filter (fun l => decide (l.headD 0 ∉ cluster))).map
            (fun l => l.filter (fun x => decide (x ∉ cluster)))) := by
  rw [remove_cluster_from_nns_eq num_fps in_cluster cluster nns hic hr,
    remove_members_graph_eq_filter_map cluster nns hne]

/-- Witness for C11: a graph of four lists over five fingerprints and the cluster
`[4, 0, 1]`, with `in_cluster` not yet allocated. -/
theorem remove_cluster_from_nns_semantics_witness :
    InClusterOk 5 []
    ∧ (∀ l ∈ ([[0, 4, 1, 2], [2, 3, 4, 0], [3, 1, 2], [4, 0, 1]] : List (List Nat)), l ≠ [])
    ∧ (∀ l ∈ ([[0, 4, 1, 2], [2, 3, 4, 0], [3, 1, 2], [4, 0, 1]] : List (List Nat)),
        ∀ x ∈ l, x < 5)
    ∧ remove_cluster_from_nns [] 5 [4, 0, 1] [[0, 4, 1, 2], [2, 3, 4, 0], [3, 1, 2], [4, 0, 1]]
      = (List.replicate 5 false,
          (([[0, 4, 1, 2], [2, 3, 4, 0], [3, 1, 2], [4, 0, 1]] : List (List Nat)).filter
            (fun l => decide (l.headD 0 ∉ [4, 0, 1]))).map
            (fun l => l.filter (fun x => decide (x ∉ [4, 0, 1])))) :=
  ⟨Or.inl rfl, by decide, by decide,
    remove_cluster_from_nns_semantics 5 [] [4, 0, 1]
      [[0, 4, 1, 2], [2, 3, 4, 0], [3, 1, 2], [4, 0, 1]] (Or.inl rfl) (by decide) (by decide)⟩

theorem remove_members_graph_idem (cluster : List Nat) (nns : List (List Nat)) :
    remove_members_graph cluster (remove_members_graph cluster nns)
      = remove_members_graph cluster nns := by
  have hfix : ∀ l ∈ remove_members_graph cluster nns, remove_members cluster l = l := by
    intro l2 hl2
    obtain ⟨a, t, _, ha, rfl⟩ := mem_remove_members_graph cluster nns l2 hl2
    rw [remove_members_cons cluster a _ ha, List.filter_filter]
    simp
  have hne : ∀ l ∈ remove_members_graph cluster nns, (!l.isEmpty) = true := by
    intro l2 hl2
    obtain ⟨a, t, _, _, rfl⟩ := mem_remove_members_graph cluster nns l2 hl2
    rfl
  generalize remove_members_graph cluster nns = g at hfix hne
  unfold remove_members_graph
  rw [List.map_congr_left hfix, List.map_id', List.filter_eq_self.mpr hne]

/-- C12. Idempotent removal: for a graph with members below `num_fps` (and
`in_cluster` as between two calls), a second `remove_cluster_from_nns` with the
same cluster, applied to what the first one leaves, changes neither the graph nor
`in_cluster`. -/
theorem remove_cluster_from_nns_idempotent (num_fps : Nat) (in_cluster : List Bool)
    (cluster : List Nat) (nns : List (List Nat))
    (hic : InClusterOk num_fps in_cluster) (hr : ∀ l ∈ nns, ∀ x ∈ l, x < num_fps) :
    remove_cluster_from_nns (remove_cluster_from_nns in_cluster num_fps cluster nns).1 num_fps
        cluster (remove_cluster_from_nns in_cluster num_fps cluster nns).2
      = remove_cluster_from_nns in_cluster num_fps cluster nns := by
  rw [remove_cluster_from_nns_eq num_fps in_cluster cluster nns hic hr]
  simp only []
  rw [remove_cluster_from_nns_eq num_fps _ cluster _ (Or.inr rfl)
    (in_range_remove num_fps cluster nns hr), remove_members_graph_idem]

/-- Witness for C12: the graph and cluster of the witness for C11. -/
theorem remove_cluster_from_nns_idempotent_witness :
    InClusterOk 5 []
    ∧ (∀ l ∈ ([[0, 4, 1, 2], [2, 3, 4, 0], [3, 1, 2], [4, 0, 1]] : List (List Nat)),
        ∀ x ∈ l, x < 5)
    ∧ remove_cluster_from_nns
        (remove_cluster_from_nns [] 5 [4, 0, 1]
          [[0, 4, 1, 2], [2, 3, 4, 0], [3, 1, 2], [4, 0, 1]]).1 5 [4, 0, 1]
        (remove_cluster_from_nns [] 5 [4, 0, 1]
          [[0, 4, 1, 2], [2, 3, 4, 0], [3, 1, 2], [4, 0, 1]]).2
      = remove_cluster_from_nns [] 5 [4, 0, 1]
          [[0, 4, 1, 2], [2, 3, 4, 0], [3, 1, 2], [4, 0, 1]] :=
  ⟨Or.inl rfl, by decide,
    remove_cluster_from_nns_idempotent 5 [] [4, 0, 1]
      [[0, 4, 1, 2], [2, 3, 4, 0], [3, 1, 2], [4, 0, 1]] (Or.inl rfl) (by decide)⟩

/-! ### The share of a worker -/

theorem ceil_div_eq (n w : Nat) (hw : 1 ≤ w) :
    (n / w * w = n → (n + w - 1) / w = n / w)
    ∧ (n / w * w < n → (n + w - 1) / w = n / w + 1) := by
  have h1 : n / w * w ≤ n := Nat.div_mul_le_self n w
  have h2 : n < w * (n / w + 1) := Nat.lt_mul_div_succ n (by omega)
  have h3 : (n / w + 1) * w = n / w * w + w := Nat.succ_mul _ _
  have h4 : w * (n / w + 1) = (n / w + 1) * w := Nat.mul_comm _ _
  have h5 : (n / w + 1 + 1) * w = (n / w + 1) * w + w := Nat.succ_mul _ _
  constructor
  · intro heq
    exact Nat.div_eq_of_lt_le (by omega) (by omega)
  · intro hlt
    exact Nat.div_eq_of_lt_le (by omega) (by omega)

theorem send_search_details_loop_diverges (fuel slave_does : Nat) :
    send_search_details_loop (2 ^ 32 - 1) 3 fuel slave_does = none := by
  induction fuel generalizing slave_does with
  | zero =>
    have h : (slave_does * (3 - 1)) % 2 ^ 32 < 2 ^ 32 - 1 := by omega
    simp only [send_search_details_loop, h, if_true]
  | succ fuel ih =>
    have h : (slave_does * (3 - 1)) % 2 ^ 32 < 2 ^ 32 - 1 := by omega
    simp only [send_search_details_loop, h, if_true]
    exact ih _

/-- C13 (counterexample). For `n = 2^32 - 1` fingerprints and two workers
(`world_size = 3`) the loop of `send_search_details` never ends: the product
`slave_does * 2` is even in 32-bit arithmetic and stays below the odd `n`, so no
number of passes yields a value of `slave_does`. -/
theorem send_search_details_not_total :
    ¬ ∃ fuel slave_does, send_search_details fuel (2 ^ 32 - 1) 3 = some slave_does := by
  rintro ⟨fuel, slave_does, h⟩
  unfold send_search_details at h
  rw [send_search_details_loop_diverges] at h
  exact Option.noConfusion h

/-- C13 (amended). Per-worker share: for `w = world_size - 1 ≥ 1` workers and
`n` fingerprints with `ceil(n / w) * w < 2^32` (so that the product does not
wrap; this holds whenever `n + w ≤ 2^32`), the computation of
`send_search_details` ends after at most one increment with
`slave_does = ceil(n / w)`. -/
theorem send_search_details_ceil (num_fps w fuel : Nat) (hw : 1 ≤ w) (hfuel : 1 ≤ fuel)
    (hsmall : (num_fps + w - 1) / w * w < 2 ^ 32) :
    send_search_details fuel num_fps (w + 1) = some ((num_fps + w - 1) / w) := by
  have h1 : num_fps / w * w ≤ num_fps := Nat.div_mul_le_self num_fps w
  have h2 : num_fps < w * (num_fps / w + 1) := Nat.lt_mul_div_succ num_fps (by omega)
  have h3 : (num_fps / w + 1) * w = num_fps / w * w + w := Nat.succ_mul _ _
  have h4 : w * (num_fps / w + 1) = (num_fps / w + 1) * w := Nat.mul_comm _ _
  obtain ⟨hc1, hc2⟩ := ceil_div_eq num_fps w hw
  obtain ⟨f, rfl⟩ : ∃ f, fuel = f + 1 := ⟨fuel - 1, by omega⟩
  unfold send_search_details
  by_cases hlt : num_fps / w * w < num_fps
  · rw [hc2 hlt] at hsmall ⊢
    have hmod1 : (num_fps / w * w) % 2 ^ 32 = num_fps / w * w := Nat.mod_eq_of_lt (by omega)
    have hle : num_fps / w ≤ num_fps / w * w := Nat.le_mul_of_pos_right _ (by omega)
    have hmod2 : (num_fps / w + 1) % 2 ^ 32 = num_fps / w + 1 := Nat.mod_eq_of_lt (by omega)
    have hmod3 : ((num_fps / w + 1) * w) % 2 ^ 32 = (num_fps / w + 1) * w :=
      Nat.mod_eq_of_lt hsmall
    have hnlt : ¬ (num_fps / w + 1) * w < num_fps := by omega
    simp only [send_search_details_loop, Nat.add_sub_cancel, hmod1, hlt, if_true, hmod2]
    cases f with
    | zero => simp only [send_search_details_loop, Nat.add_sub_cancel, hmod3, hnlt, if_false]
    | succ f => simp only [send_search_details_loop, Nat.add_sub_cancel, hmod3, hnlt, if_false]
  · rw [hc1 (by omega)] at hsmall ⊢
    have hmod1 : (num_fps / w * w) % 2 ^ 32 = num_fps / w * w := Nat.mod_eq_of_lt hsmall
    simp only [send_search_details_loop, Nat.add_sub_cancel, hmod1, hlt, if_false]

/-- Witness for C13 (amended): ten fingerprints and three workers. -/
theorem send_search_details_ceil_witness :
    1 ≤ 3 ∧ 1 ≤ 1 ∧ (10 + 3 - 1) / 3 * 3 < 2 ^ 32
    ∧ send_search_details 1 10 (3 + 1) = some ((10 + 3 - 1) / 3) :=
  ⟨by decide, by decide, by decide,
    send_search_details_ceil 10 3 1 (by decide) (by decide) (by decide)⟩

/-! ### The shard of a worker -/

theorem make_nnlists_cs_share {D : Type} [LinearOrder D] [Zero D]
    (calc_distance : Nat → Nat → D → D) (toFloat : D → D) (threshold : D)
    (n c start : Nat) (hstart : start + c < 2 ^ 32) (hn : n < 2 ^ 32) :
    (make_nnlists_cs calc_distance toFloat threshold n start c).2
        = (List.range' start (min c (n - start))).map
            (make_nnlist calc_distance toFloat threshold n)
    ∧ (start ≤ n →
        (make_nnlists_cs calc_distance toFloat threshold n start c).1 = min c (n - start)) := by
  have hmod : (start + c) % 2 ^ 32 = start + c := Nat.mod_eq_of_lt hstart
  unfold make_nnlists_cs
  simp only [hmod]
  split
  · rename_i hgt
    simp only []
    constructor
    · rw [make_nnlists_eq, List.nil_append]
      congr 2
      omega
    · intro hle
      omega
  · rename_i hgt
    simp only []
    constructor
    · rw [make_nnlists_eq, List.nil_append]
      congr 2
      omega
    · intro hle
      omega

/-- C14 (counterexample). Five fingerprints and four workers: the share is 2, the
worker of rank 4 starts at 6, beyond the array, and its revised `num_fps_to_do`
is `5 - 6` in 32-bit unsigned arithmetic, 4294967295: it is neither at most the
share nor such that `start + num_to_do ≤ n`. -/
theorem worker_share_beyond_array :
    send_search_details 1 5 (4 + 1) = some 2
    ∧ (receive_search_details 2 4).2 = 6
    ∧ (make_nnlists_cs (fun (_ _ : Nat) (_ : Nat) => 0) id 1 5 6 2).1 = 4294967295
    ∧ ¬ ((make_nnlists_cs (fun (_ _ : Nat) (_ : Nat) => 0) id 1 5 6 2).1 ≤ 2
        ∧ 6 + (make_nnlists_cs (fun (_ _ : Nat) (_ : Nat) => 0) id 1 5 6 2).1 ≤ 5) := by
  decide

/-- C14 (amended). Worker shards: with the share `c = ceil(n / w)` of `w ≥ 1`
workers and `c * w < 2^32`, the worker of rank `k` in `1..w` derives
`start = (k - 1) * c` and builds the lists of the pivots
`start, ..., start + min(c, n - start) - 1` (none when `start ≥ n`); when
`start ≤ n` its revised `num_fps_to_do` is `min(c, n - start)`, at most `c`, with
`start + num_fps_to_do ≤ n`; the pivot ranges of ranks `1..w`, taken in rank
order, make up `0, ..., n - 1`, so they are pairwise disjoint and cover `[0, n)`. -/
theorem worker_shards {D : Type} [LinearOrder D] [Zero D]
    (calc_distance : Nat → Nat → D → D) (toFloat : D → D) (threshold : D)
    (n w c : Nat) (hw : 1 ≤ w) (hc : c = (n + w - 1) / w) (hsmall : c * w < 2 ^ 32) :
    (∀ k, 1 ≤ k → k ≤ w →
      (receive_search_details c k).1 = c
      ∧ (receive_search_details c k).2 = (k - 1) * c
      ∧ (make_nnlists_cs calc_distance toFloat threshold n ((k - 1) * c) c).2
          = (List.range' ((k - 1) * c) (min c (n - (k - 1) * c))).map
              (make_nnlist calc_distance toFloat threshold n)
      ∧ ((k - 1) * c ≤ n →
          (make_nnlists_cs calc_distance toFloat threshold n ((k - 1) * c) c).1
            = min c (n - (k - 1) * c)
          ∧ (make_nnlists_cs calc_distance toFloat threshold n ((k - 1) * c) c).1 ≤ c
          ∧ (k - 1) * c
              + (make_nnlists_cs calc_distance toFloat threshold n ((k - 1) * c) c).1 ≤ n))
    ∧ ((List.range' 1 w).map
        (fun k => List.range' ((k - 1) * c) (min c (n - (k - 1) * c)))).flatten
        = List.range n := by
  have hcover : n ≤ c * w := by
    have h1 : n + w - 1 < w * ((n + w - 1) / w + 1) := Nat.lt_mul_div_succ _ (by omega)
    have h2 : w * ((n + w - 1) / w + 1) = w * ((n + w - 1) / w) + w := Nat.mul_succ _ _
    have h3 : w * ((n + w - 1) / w) = (n + w - 1) / w * w := Nat.mul_comm _ _
    rw [hc]
    omega
  constructor
  · intro k hk1 hk2
    have h1 : (k - 1) * c + c = k * c := by
      have : k = (k - 1) + 1 := by omega
      conv => rhs; rw [this, Nat.succ_mul]
    have h2 : k * c ≤ w * c := Nat.mul_le_mul_right c hk2
    have h3 : w * c = c * w := Nat.mul_comm _ _
    have hmod : ((k - 1) * c) % 2 ^ 32 = (k - 1) * c := Nat.mod_eq_of_lt (by omega)
    obtain ⟨hlists, hnum⟩ := make_nnlists_cs_share calc_distance toFloat threshold n c
      ((k - 1) * c) (by omega) (by omega)
    refine ⟨rfl, ?_, hlists, ?_⟩
    · simp only [receive_search_details, hmod]
    · intro hle
      have := hnum hle
      refine ⟨this, ?_, ?_⟩
      · rw [this]; omega
      · rw [this]; omega
  · rw [List.range'_eq_map_range, List.map_map]
    have h2 : (List.range w).map
        ((fun k => List.range' ((k - 1) * c) (min c (n - (k - 1) * c))) ∘ fun x => 1 + x)
        = (List.range w).map
          (fun k => List.range' (k * c) (min ((k + 1) * c) n - k * c)) := by
      apply List.map_congr_left
      intro k _
      simp only [Function.comp]
      have e1 : 1 + k - 1 = k := by omega
      have e2 : (k + 1) * c = k * c + c := Nat.succ_mul _ _
      rw [e1]
      congr 1
      omega
    rw [h2, shards_flatten]
    have h3 : min (w * c) n = n := by
      rw [Nat.mul_comm]
      exact Nat.min_eq_right hcover
    rw [h3]

/-- Witness for C14 (amended): five fingerprints, four workers, share 2. -/
theorem worker_shards_witness :
    (1 ≤ 4 ∧ 2 = (5 + 4 - 1) / 4 ∧ 2 * 4 < 2 ^ 32)
    ∧ (∀ k, 1 ≤ k → k ≤ 4 →
        (receive_search_details 2 k).1 = 2
        ∧ (receive_search_details 2 k).2 = (k - 1) * 2
        ∧ (make_nnlists_cs (fun i j (_ : Nat) => (i + j) % 4) id 3 5 ((k - 1) * 2) 2).2
            = (List.range' ((k - 1) * 2) (min 2 (5 - (k - 1) * 2))).map
                (make_nnlist (fun i j (_ : Nat) => (i + j) % 4) id 3 5)
        ∧ ((k - 1) * 2 ≤ 5 →
            (make_nnlists_cs (fun i j (_ : Nat) => (i + j) % 4) id 3 5 ((k - 1) * 2) 2).1
              = min 2 (5 - (k - 1) * 2)
            ∧ (make_nnlists_cs (fun i j (_ : Nat) => (i + j) % 4) id 3 5 ((k - 1) * 2) 2).1 ≤ 2
            ∧ (k - 1) * 2
                + (make_nnlists_cs (fun i j (_ : Nat) => (i + j) % 4) id 3 5 ((k - 1) * 2) 2).1
                ≤ 5))
    ∧ ((List.range' 1 4).map
        (fun k => List.range' ((k - 1) * 2) (min 2 (5 - (k - 1) * 2)))).flatten
        = List.range 5 :=
  ⟨⟨by decide, by decide, by decide⟩,
    worker_shards (fun i j (_ : Nat) => (i + j) % 4) id 3 5 4 2 (by decide) (by decide)
      (by decide)⟩

/-! ### The SAMPLES output -/

theorem write_cluster_samples (clus_num : Nat) (fp_names : List String) (clus : List Nat)
    (orig_nn_size : Nat) (out sn sg : List String) :
    write_cluster OUTPUT_FORMAT.SAMPLES_FORMAT clus_num fp_names clus orig_nn_size out sn sg
      = (out ++ samples_line fp_names clus orig_nn_size,
          sn ++ [fp_names.getD (clus.headD 0) ""],
          if clus.length = 1 then sg ++ [fp_names.getD (clus.headD 0) ""] else sg) := by
  simp [write_cluster, samples_line]

theorem write_clusters_samples (fp_names : List String) :
    ∀ (calls : List (List Nat × Nat)) (num_written : Nat)
      (st : List String × List String × List String),
      (write_clusters OUTPUT_FORMAT.SAMPLES_FORMAT fp_names calls num_written st).1
        = st.1 ++ calls.flatMap (fun c => samples_line fp_names c.1 c.2) := by
  intro calls
  induction calls with
  | nil => intro _ st; simp [write_clusters]
  | cons c rest ih =>
    intro k st
    obtain ⟨clus, orig⟩ := c
    simp only [write_clusters]
    rw [ih, write_cluster_samples]
    simp [List.flatMap_cons]

/-- C18. SAMPLES output: for a graph of non-empty lists with members below
`fp_names.size()`, `output_clusters` in SAMPLES format finishes and the stream
then holds what it held before, the header line
`Molecule name : Cluster size : Cluster Members`, and one line per emitted
cluster in emission order; `write_cluster` adds for a cluster exactly the items
of `samples_line`: seed name, `" : "`, size, `"("`, original size, `") : "`,
every member name (seed first, in list order) followed by two spaces, end of
line. -/
theorem output_clusters_samples (fuel : Nat) (fp_names : List String)
    (nns : List (List Nat)) (out sn sg : List String)
    (hg : GraphOk fp_names.length nns) (hfuel : nns.length ≤ fuel) :
    (∃ emitted r, output_clusters_emitted fuel fp_names.length nns = some emitted
      ∧ output_clusters fuel fp_names nns OUTPUT_FORMAT.SAMPLES_FORMAT out sn sg = some r
      ∧ r.1 = out ++ ["Molecule name : Cluster size : Cluster Members", "\n"]
          ++ emitted.flatMap (fun c => samples_line fp_names c.1 c.2))
    ∧ ∀ (clus_num seed : Nat) (rest : List Nat) (orig_nn_size : Nat)
        (out2 sn2 sg2 : List String),
        (write_cluster OUTPUT_FORMAT.SAMPLES_FORMAT clus_num fp_names (seed :: rest)
            orig_nn_size out2 sn2 sg2).1
          = out2 ++ [fp_names.getD seed "", " : ", toString (rest.length + 1), "(",
                toString orig_nn_size, ") : ", fp_names.getD seed "", "  "]
              ++ rest.flatMap (fun m => [fp_names.getD m "", "  "]) ++ ["\n"] := by
  constructor
  · obtain ⟨cs, hcs, _⟩ := output_clusters_loop_emits fp_names.length (nns.map List.length)
      fuel [] nns (Or.inl rfl) hg hfuel
    have hcs2 : output_clusters_emitted fuel fp_names.length nns = some cs := hcs
    refine ⟨cs, write_clusters OUTPUT_FORMAT.SAMPLES_FORMAT fp_names cs 0
      (out ++ ["Molecule name : Cluster size : Cluster Members", "\n"], sn, sg), hcs2, ?_, ?_⟩
    · unfold output_clusters
      rw [hcs2]
      rfl
    · rw [write_clusters_samples]
  · intro clus_num seed rest orig_nn_size out2 sn2 sg2
    simp [write_cluster, List.flatMap_cons]

/-- Witness for C18: three named fingerprints, a graph of three lists. -/
theorem output_clusters_samples_witness :
    (GraphOk (["a", "b", "c"] : List String).length [[0, 1], [1, 0], [2]]
      ∧ ([[0, 1], [1, 0], [2]] : List (List Nat)).length ≤ 3)
    ∧ (∃ emitted r, output_clusters_emitted 3 (["a", "b", "c"] : List String).length
          [[0, 1], [1, 0], [2]] = some emitted
        ∧ output_clusters 3 ["a", "b", "c"] [[0, 1], [1, 0], [2]]
            OUTPUT_FORMAT.SAMPLES_FORMAT [] [] [] = some r
        ∧ r.1 = [] ++ ["Molecule name : Cluster size : Cluster Members", "\n"]
            ++ emitted.flatMap (fun c => samples_line ["a", "b", "c"] c.1 c.2)) :=
  ⟨⟨by unfold GraphOk; decide, by decide⟩,
    (output_clusters_samples 3 ["a", "b", "c"] [[0, 1], [1, 0], [2]] [] [] []
      (by unfold GraphOk; decide) (by decide)).1⟩

/-! ### Spaces in fingerprint names -/

theorem fix_spaces_of_no_space (name : String) (h : ' ' ∉ name.toList) :
    fix_spaces_in_fp_name name = name := by
  unfold fix_spaces_in_fp_name
  have hmap : name.toList.map (fun c => if c = ' ' then '_' else c) = name.toList := by
    conv => rhs; rw [← List.map_id name.toList]
    apply List.map_congr_left
    intro c hc
    have : c ≠ ' ' := fun hcs => h (hcs ▸ hc)
    simp [this]
  rw [hmap]
  rfl

theorem check_for_spaces_loop_ok (i : Nat) (names : List String)
    (h : ∀ name ∈ names, ' ' ∉ name.toList) :
    check_for_spaces_loop false i names = Except.ok names := by
  induction names generalizing i with
  | nil => rfl
  | cons name rest ih =>
    have h1 := h name (List.mem_cons_self _ _)
    simp only [check_for_spaces_loop, h1, if_false]
    rw [ih (i + 1) (fun n hn => h n (List.mem_cons_of_mem _ hn))]
    rfl

theorem check_for_spaces_loop_error (i : Nat) (names : List String)
    (h : ∃ name ∈ names, ' ' ∈ name.toList) :
    ∃ k, k < names.length
      ∧ check_for_spaces_loop false i names = Except.error (i + k, names.getD k "")
      ∧ ' ' ∈ (names.getD k "").toList
      ∧ ∀ j, j < k → ' ' ∉ (names.getD j "").toList := by
  induction names generalizing i with
  | nil =>
    obtain ⟨name, hmem, _⟩ := h
    exact absurd hmem (List.not_mem_nil name)
  | cons name rest ih =>
    by_cases h1 : ' ' ∈ name.toList
    · refine ⟨0, by simp, ?_, ?_, ?_⟩
      · have hstep : check_for_spaces_loop false i (name :: rest) = Except.error (i, name) := by
          simp only [check_for_spaces_loop, h1, if_true, Bool.not_false]
        rw [hstep]
        rfl
      · exact h1
      · intro j hj
        omega
    · have hrest : ∃ n ∈ rest, ' ' ∈ n.toList := by
        obtain ⟨n, hmem, hsp⟩ := h
        rcases List.mem_cons.mp hmem with rfl | hmem
        · exact absurd hsp h1
        · exact ⟨n, hmem, hsp⟩
      obtain ⟨k, hk, herr, hsp, hmin⟩ := ih (i + 1) hrest
      refine ⟨k + 1, by simp; omega, ?_, ?_, ?_⟩
      · simp only [check_for_spaces_loop, h1, if_false]
        rw [herr]
        simp only [Except.map, List.getD_cons_succ]
        congr 2
        omega
      · simpa using hsp
      · intro j hj
        cases j with
        | zero => simpa using h1
        | succ j =>
          have := hmin j (by omega)
          simpa using this

theorem check_for_spaces_loop_fix (i : Nat) (names : List String) :
    check_for_spaces_loop true i names = Except.ok (names.map fix_spaces_in_fp_name) := by
  induction names generalizing i with
  | nil => rfl
  | cons name rest ih =>
    by_cases h1 : ' ' ∈ name.toList
    · simp only [check_for_spaces_loop, h1, if_true, Bool.not_true, Bool.false_eq_true,
        if_false]
      rw [ih (i + 1)]
      rfl
    · simp only [check_for_spaces_loop, h1, if_false]
      rw [ih (i + 1), List.map_cons, fix_spaces_of_no_space name h1]
      rfl

/-- C15. Space check: with `fix_spaces` off, `check_for_spaces_in_fp_names` leaves
the names as they are when none holds a space, and otherwise stops with the
smallest index whose name holds a space (and that name), so it fails exactly
when some name holds a space; with `fix_spaces` on it never fails and every name
becomes its input with each space replaced by an underscore, of the same length,
the other characters unchanged. -/
theorem check_for_spaces_in_fp_names_spec (fp_names : List String) :
    ((∀ name ∈ fp_names, ' ' ∉ name.toList) →
        check_for_spaces_in_fp_names false fp_names = Except.ok fp_names)
    ∧ ((∃ name ∈ fp_names, ' ' ∈ name.toList) →
        ∃ i, i < fp_names.length
          ∧ check_for_spaces_in_fp_names false fp_names
              = Except.error (i, fp_names.getD i "")
          ∧ ' ' ∈ (fp_names.getD i "").toList
          ∧ ∀ j, j < i → ' ' ∉ (fp_names.getD j "").toList)
    ∧ check_for_spaces_in_fp_names true fp_names
        = Except.ok (fp_names.map fix_spaces_in_fp_name)
    ∧ ∀ name : String,
        (fix_spaces_in_fp_name name).toList
          = name.toList.map (fun c => if c = ' ' then '_' else c)
        ∧ (fix_spaces_in_fp_name name).length = name.length
        ∧ ' ' ∉ (fix_spaces_in_fp_name name).toList := by
  refine ⟨check_for_spaces_loop_ok 0 fp_names, ?_, check_for_spaces_loop_fix 0 fp_names, ?_⟩
  · intro h
    obtain ⟨k, hk, herr, hsp, hmin⟩ := check_for_spaces_loop_error 0 fp_names h
    refine ⟨k, hk, ?_, hsp, hmin⟩
    unfold check_for_spaces_in_fp_names
    rw [herr, Nat.zero_add]
  · intro name
    refine ⟨rfl, ?_, ?_⟩
    · show (name.toList.map (fun c => if c = ' ' then '_' else c)).length = name.toList.length
      rw [List.length_map]
    · intro hmem
      have hmem2 : ' ' ∈ name.toList.map (fun c => if c = ' ' then '_' else c) := hmem
      rw [List.mem_map] at hmem2
      obtain ⟨c, _, hc⟩ := hmem2
      by_cases hcs : c = ' '
      · rw [if_pos hcs] at hc
        exact absurd hc (by decide)
      · rw [if_neg hcs] at hc
        exact hcs hc

/-- Witness for C15: three names, the second and third with spaces. -/
theorem check_for_spaces_in_fp_names_spec_witness :
    (∃ name ∈ ["ab", "c d", "e f g"], ' ' ∈ name.toList)
    ∧ (∃ i, i < (["ab", "c d", "e f g"] : List String).length
        ∧ check_for_spaces_in_fp_names false ["ab", "c d", "e f g"]
            = Except.error (i, (["ab", "c d", "e f g"] : List String).getD i "")
        ∧ ' ' ∈ ((["ab", "c d", "e f g"] : List String).getD i "").toList
        ∧ ∀ j, j < i → ' ' ∉ ((["ab", "c d", "e f g"] : List String).getD j "").toList)
    ∧ check_for_spaces_in_fp_names true ["ab", "c d", "e f g"]
        = Except.ok ((["ab", "c d", "e f g"] : List String).map fix_spaces_in_fp_name) :=
  ⟨by decide,
    (check_for_spaces_in_fp_names_spec ["ab", "c d", "e f g"]).2.1 (by decide),
    (check_for_spaces_in_fp_names_spec ["ab", "c d", "e f g"]).2.2.1⟩

/-! ### Tanimoto and Tversky -/

theorem BIT_COUNT_ARRAY_split (x y : Nat) :
    BIT_COUNT_ARRAY x
      = BIT_COUNT_ARRAY (x &&& y) + BIT_COUNT_ARRAY (x &&& (65535 ^^^ y)) := by
  unfold BIT_COUNT_ARRAY
  rw [← List.sum_map_add]
  congr 1
  apply List.map_congr_left
  intro i hi
  rw [List.mem_range] at hi
  have h65535 : (65535 : Nat) = 2 ^ 16 - 1 := by decide
  rw [Nat.testBit_land, Nat.testBit_land, Nat.testBit_xor, h65535,
    Nat.testBit_two_pow_sub_one]
  simp only [hi, decide_True]
  cases x.testBit i <;> cases y.testBit i <;> rfl

theorem foldl_add_eq_sum (f : Nat → Nat) (l : List Nat) (init : Nat) :
    l.foldl (fun acc j => acc + f j) init = init + (l.map f).sum := by
  induction l generalizing init with
  | nil => simp
  | cons j js ih =>
    simp only [List.foldl_cons, List.map_cons, List.sum_cons]
    rw [ih]
    omega

theorem foldl_triple_eq_sum (f g h : Nat → Nat) (l : List Nat) (init : Nat × Nat × Nat) :
    l.foldl (fun (acc : Nat × Nat × Nat) j => (acc.1 + f j, acc.2.1 + g j, acc.2.2 + h j)) init
      = (init.1 + (l.map f).sum, init.2.1 + (l.map g).sum, init.2.2 + (l.map h).sum) := by
  induction l generalizing init with
  | nil => simp
  | cons j js ih =>
    simp only [List.foldl_cons, List.map_cons, List.sum_cons]
    rw [ih]
    simp only [Prod.mk.injEq]
    omega

theorem tversky_counts_eq (pus_a pus_b : List Nat) (i_num_shorts : Nat) :
    tversky_counts pus_a pus_b i_num_shorts
      = (((List.range i_num_shorts).map
            (fun j => BIT_COUNT_ARRAY (pus_a.getD j 0 &&& pus_b.getD j 0))).sum,
          ((List.range i_num_shorts).map
            (fun j => BIT_COUNT_ARRAY (pus_a.getD j 0 &&& (65535 ^^^ pus_b.getD j 0)))).sum,
          ((List.range i_num_shorts).map
            (fun j => BIT_COUNT_ARRAY (pus_b.getD j 0 &&& (65535 ^^^ pus_a.getD j 0)))).sum) := by
  unfold tversky_counts
  rw [foldl_triple_eq_sum]
  simp

theorem true_bit_count_split (pus_a pus_b : List Nat) (i_num_shorts : Nat) :
    true_bit_count pus_a i_num_shorts
      = (tversky_counts pus_a pus_b i_num_shorts).1
        + (tversky_counts pus_a pus_b i_num_shorts).2.1
    ∧ true_bit_count pus_b i_num_shorts
      = (tversky_counts pus_a pus_b i_num_shorts).1
        + (tversky_counts pus_a pus_b i_num_shorts).2.2 := by
  rw [tversky_counts_eq]
  unfold true_bit_count
  constructor
  · have h := @List.sum_map_add Nat Nat _ (List.range i_num_shorts)
      (fun j => BIT_COUNT_ARRAY (pus_a.getD j 0 &&& pus_b.getD j 0))
      (fun j => BIT_COUNT_ARRAY (pus_a.getD j 0 &&& (65535 ^^^ pus_b.getD j 0)))
    have hm : (List.range i_num_shorts).map (fun j => BIT_COUNT_ARRAY (pus_a.getD j 0))
        = (List.range i_num_shorts).map
            (fun j => BIT_COUNT_ARRAY (pus_a.getD j 0 &&& pus_b.getD j 0)
              + BIT_COUNT_ARRAY (pus_a.getD j 0 &&& (65535 ^^^ pus_b.getD j 0))) :=
      List.map_congr_left (fun j _ => BIT_COUNT_ARRAY_split (pus_a.getD j 0) (pus_b.getD j 0))
    rw [hm]
    exact h
  · have h := @List.sum_map_add Nat Nat _ (List.range i_num_shorts)
      (fun j => BIT_COUNT_ARRAY (pus_a.getD j 0 &&& pus_b.getD j 0))
      (fun j => BIT_COUNT_ARRAY (pus_b.getD j 0 &&& (65535 ^^^ pus_a.getD j 0)))
    have hm : (List.range i_num_shorts).map (fun j => BIT_COUNT_ARRAY (pus_b.getD j 0))
        = (List.range i_num_shorts).map
            (fun j => BIT_COUNT_ARRAY (pus_a.getD j 0 &&& pus_b.getD j 0)
              + BIT_COUNT_ARRAY (pus_b.getD j 0 &&& (65535 ^^^ pus_a.getD j 0))) :=
      List.map_congr_left (fun j _ => by
        rw [Nat.land_comm (pus_a.getD j 0) (pus_b.getD j 0)]
        exact BIT_COUNT_ARRAY_split (pus_b.getD j 0) (pus_a.getD j 0))
    rw [hm]
    exact h

theorem calc_tanimoto_eq (pus_a pus_b : List Nat) (i_num_shorts a b : Nat)
    (r_alpha r_beta r_theta : ℚ) :
    calc_tanimoto pus_a pus_b i_num_shorts a b r_alpha r_beta r_theta
      = 1 - ((tversky_counts pus_a pus_b i_num_shorts).1 : ℚ)
          / ((a : ℚ) + (b : ℚ) - ((tversky_counts pus_a pus_b i_num_shorts).1 : ℚ)) := by
  unfold calc_tanimoto
  rw [tversky_counts_eq, foldl_add_eq_sum]
  simp

/-- C19 (counterexample). The one-word bit arrays `A = 1` and `B = 3`, with their
true bit counts 1 and 2: `calc_tanimoto` gives `1 - 1/2 = 1/2`, `calc_tversky`
with `r_alpha = r_beta = 0.5` and `r_theta = 1` gives `1 - 1/1.5 = 1/3`. -/
theorem tversky_half_ne_tanimoto :
    true_bit_count [1] 1 = 1 ∧ true_bit_count [3] 1 = 2
    ∧ calc_tanimoto [1] [3] 1 1 2 (1 / 2) (1 / 2) 1 = 1 / 2
    ∧ calc_tversky [1] [3] 1 1 2 (1 / 2) (1 / 2) 1 = 1 / 3
    ∧ calc_tversky [1] [3] 1 1 2 (1 / 2) (1 / 2) 1
        ≠ calc_tanimoto [1] [3] 1 1 2 (1 / 2) (1 / 2) 1 := by
  have hcounts : tversky_counts [1] [3] 1 = (1, 0, 1) := by decide
  have htan : calc_tanimoto [1] [3] 1 1 2 (1 / 2) (1 / 2) 1 = 1 / 2 := by
    rw [calc_tanimoto_eq, hcounts]
    norm_num
  have htv : calc_tversky [1] [3] 1 1 2 (1 / 2) (1 / 2) 1 = 1 / 3 := by
    unfold calc_tversky
    rw [hcounts]
    norm_num
  refine ⟨by decide, by decide, htan, htv, ?_⟩
  rw [htan, htv]
  norm_num

/-- C19 (amended). For bit arrays whose cached bit counts `a`, `b` equal their
true bit counts, in exact arithmetic: with `r_alpha = r_beta = 1` and
`r_theta = 1`, `calc_tversky` returns the same distance as `calc_tanimoto`,
`1 - c / (u + v + c) = 1 - c / (a + b - c)`; with `r_alpha = r_beta = 0.5` it
returns `1 - c / (0.5 u + 0.5 v + c) = 1 - 2 c / (a + b)`.  The arrays are not
both empty (`a + b > 0`), so that no divisor is zero. -/
theorem tversky_one_eq_tanimoto (pus_a pus_b : List Nat) (i_num_shorts a b : Nat)
    (ha : a = true_bit_count pus_a i_num_shorts) (hb : b = true_bit_count pus_b i_num_shorts)
    (hpos : 0 < a + b) :
    calc_tversky pus_a pus_b i_num_shorts a b 1 1 1
        = calc_tanimoto pus_a pus_b i_num_shorts a b 1 1 1
    ∧ calc_tversky pus_a pus_b i_num_shorts a b (1 / 2) (1 / 2) 1
        = 1 - 2 * ((tversky_counts pus_a pus_b i_num_shorts).1 : ℚ) / ((a : ℚ) + (b : ℚ))
    ∧ (a : ℚ) + (b : ℚ) - ((tversky_counts pus_a pus_b i_num_shorts).1 : ℚ) ≠ 0
    ∧ ((tversky_counts pus_a pus_b i_num_shorts).2.1 : ℚ) * (1 / 2)
        + ((tversky_counts pus_a pus_b i_num_shorts).2.2 : ℚ) * (1 / 2)
        + ((tversky_counts pus_a pus_b i_num_shorts).1 : ℚ) * 1 ≠ 0 := by
  obtain ⟨hsa, hsb⟩ := true_bit_count_split pus_a pus_b i_num_shorts
  rw [← ha] at hsa
  rw [← hb] at hsb
  have hn : 0 < (tversky_counts pus_a pus_b i_num_shorts).1
      + (tversky_counts pus_a pus_b i_num_shorts).2.1
      + (tversky_counts pus_a pus_b i_num_shorts).2.2 := by
    omega
  have hq : (0 : ℚ) < ((tversky_counts pus_a pus_b i_num_shorts).1 : ℚ)
      + ((tversky_counts pus_a pus_b i_num_shorts).2.1 : ℚ)
      + ((tversky_counts pus_a pus_b i_num_shorts).2.2 : ℚ) := by
    exact_mod_cast hn
  have hc0 : (0 : ℚ) ≤ ((tversky_counts pus_a pus_b i_num_shorts).1 : ℚ) := Nat.cast_nonneg _
  have hu0 : (0 : ℚ) ≤ ((tversky_counts pus_a pus_b i_num_shorts).2.1 : ℚ) := Nat.cast_nonneg _
  have hv0 : (0 : ℚ) ≤ ((tversky_counts pus_a pus_b i_num_shorts).2.2 : ℚ) := Nat.cast_nonneg _
  have hqa : (a : ℚ) = ((tversky_counts pus_a pus_b i_num_shorts).1 : ℚ)
      + ((tversky_counts pus_a pus_b i_num_shorts).2.1 : ℚ) := by
    rw [hsa]; push_cast; rfl
  have hqb : (b : ℚ) = ((tversky_counts pus_a pus_b i_num_shorts).1 : ℚ)
      + ((tversky_counts pus_a pus_b i_num_shorts).2.2 : ℚ) := by
    rw [hsb]; push_cast; rfl
  refine ⟨?_, ?_, ?_, ?_⟩
  · rw [calc_tanimoto_eq]
    unfold calc_tversky
    simp only []
    rw [hqa, hqb]
    congr 2
    ring
  rotate_left
  · rw [hqa, hqb]
    apply ne_of_gt
    linarith
  · apply ne_of_gt
    linarith
  · unfold calc_tversky
    simp only []
    rw [hqa, hqb]
    congr 1
    have hden : ((tversky_counts pus_a pus_b i_num_shorts).2.1 : ℚ) * (1 / 2)
        + ((tversky_counts pus_a pus_b i_num_shorts).2.2 : ℚ) * (1 / 2)
        + ((tversky_counts pus_a pus_b i_num_shorts).1 : ℚ) * 1
        = (((tversky_counts pus_a pus_b i_num_shorts).1 : ℚ)
            + ((tversky_counts pus_a pus_b i_num_shorts).2.1 : ℚ)
            + (((tversky_counts pus_a pus_b i_num_shorts).1 : ℚ)
              + ((tversky_counts pus_a pus_b i_num_shorts).2.2 : ℚ))) / 2 := by
      ring
    rw [hden, div_div_eq_mul_div]
    ring

/-- Witness for C19 (amended): the arrays `A = 1`, `B = 3` of one word. -/
theorem tversky_one_eq_tanimoto_witness :
    (1 = true_bit_count [1] 1 ∧ 2 = true_bit_count [3] 1 ∧ 0 < 1 + 2)
    ∧ calc_tversky [1] [3] 1 1 2 1 1 1 = calc_tanimoto [1] [3] 1 1 2 1 1 1
    ∧ calc_tversky [1] [3] 1 1 2 (1 / 2) (1 / 2) 1
        = 1 - 2 * ((tversky_counts [1] [3] 1).1 : ℚ) / (((1 : Nat) : ℚ) + ((2 : Nat) : ℚ))
    ∧ ((1 : Nat) : ℚ) + ((2 : Nat) : ℚ) - ((tversky_counts [1] [3] 1).1 : ℚ) ≠ 0
    ∧ ((tversky_counts [1] [3] 1).2.1 : ℚ) * (1 / 2)
        + ((tversky_counts [1] [3] 1).2.2 : ℚ) * (1 / 2)
        + ((tversky_counts [1] [3] 1).1 : ℚ) * 1 ≠ 0 :=
  ⟨⟨by decide, by decide, by decide⟩,
    tversky_one_eq_tanimoto [1] [3] 1 1 2 (by decide) (by decide) (by decide)⟩

/-! ### The CSV files of `amtec` -/

/-- C20 (the code at a failing input). For the clusters `[a, b]` and `[c]` with
original sizes 2 and 1, `output_new_clusters` in CSV format writes the rows
`1,2,a,a,2`, `2,2,a,b,2` and `1,1,c,c,1`: the first field is the number of the
member within its cluster, so the row of `c`, member of the second cluster, has
first field 1; `read_csv_file` reads the file back as the clusters `[a, c]` and
`[b]`. -/
theorem amtec_csv_first_field :
    Amtec.output_new_clusters [["a", "b"], ["c"]] [2, 1] Amtec.CLUS_FILE_FORMAT.CSV_FORMAT
      = ["1", ",", "2", ",", "a", ",", "a", ",", "2", "\n",
         "2", ",", "2", ",", "a", ",", "b", ",", "2", "\n",
         "1", ",", "1", ",", "c", ",", "c", ",", "1", "\n"]
    ∧ Amtec.read_csv_file (Amtec.file_text
        (Amtec.output_new_clusters [["a", "b"], ["c"]] [2, 1]
          Amtec.CLUS_FILE_FORMAT.CSV_FORMAT))
      = some [["a", "c"], ["b"]] := by
  decide

/-! ### The collapse of singletons: the nearest seed -/

theorem nearest_seed_fold_inv {β D : Type} [LinearOrder D] (calc_distance : β → β → D → D)
    (singletons_threshold : D) (seed_fps : List (Option (Fingerprint β)))
    (singleton : Fingerprint β) (k : Nat) :
    NearestInv calc_distance singletons_threshold seed_fps singleton k
      ((List.range k).foldl
        (fun (st : D × Option Nat) j =>
          match seed_fps.getD j none with
          | none => st
          | some seed =>
            if singleton.name = seed.name then st
            else
              let dist := calc_distance seed.bits singleton.bits singletons_threshold
              if dist < st.1 then (dist, some j) else st)
        (singletons_threshold, none)) := by
  induction k with
  | zero =>
    refine ⟨fun _ => ⟨rfl, fun j d hj => absurd hj (Nat.not_lt_zero j)⟩, ?_⟩
    intro j0 h
    simp at h
  | succ k ih =>
    rw [List.range_succ, List.foldl_append]
    generalize (List.range k).foldl
        (fun (st : D × Option Nat) j =>
          match seed_fps.getD j none with
          | none => st
          | some seed =>
            if singleton.name = seed.name then st
            else
              let dist := calc_distance seed.bits singleton.bits singletons_threshold
              if dist < st.1 then (dist, some j) else st)
        (singletons_threshold, none) = st at ih
    obtain ⟨hnone, hsome⟩ := ih
    simp only [List.foldl_cons, List.foldl_nil]
    -- the distance of slot `k`, if it is considered
    have hsd : ∀ d, seed_distance calc_distance singletons_threshold seed_fps singleton k
        = some d → ∃ seed, seed_fps.getD k none = some seed ∧ singleton.name ≠ seed.name
          ∧ d = calc_distance seed.bits singleton.bits singletons_threshold := by
      intro d hd
      unfold seed_distance at hd
      cases hk : seed_fps.getD k none with
      | none => rw [hk] at hd; simp at hd
      | some seed =>
        rw [hk] at hd
        by_cases hn : singleton.name = seed.name
        · simp [hn] at hd
        · simp only [hn, if_false, Option.some.injEq] at hd
          exact ⟨seed, rfl, hn, hd.symm⟩
    have hsame : NearestInv calc_distance singletons_threshold seed_fps singleton k st →
        (∀ d, seed_distance calc_distance singletons_threshold seed_fps singleton k = some d →
          ¬ d < st.1) →
        NearestInv calc_distance singletons_threshold seed_fps singleton (k + 1) st := by
      intro hinv hk
      obtain ⟨h1, h2⟩ := hinv
      constructor
      · intro hst
        obtain ⟨ha, hb⟩ := h1 hst
        refine ⟨ha, ?_⟩
        intro j d hj hd
        by_cases hjk : j = k
        · subst hjk
          rw [← ha]
          exact hk d hd
        · exact hb j d (by omega) hd
      · intro j0 hst
        obtain ⟨ha, hb, hc, he⟩ := h2 j0 hst
        refine ⟨by omega, hb, hc, ?_⟩
        intro j d hj hd
        by_cases hjk : j = k
        · subst hjk
          exact ⟨not_lt.mp (hk d hd), fun _ => by omega⟩
        · exact he j d (by omega) hd
    cases hk : seed_fps.getD k none with
    | none =>
      simp only []
      apply hsame ⟨hnone, hsome⟩
      intro d hd
      obtain ⟨seed, hs, _⟩ := hsd d hd
      rw [hk] at hs
      exact absurd hs (by simp)
    | some seed =>
      simp only []
      by_cases hn : singleton.name = seed.name
      · simp only [hn, if_true]
        apply hsame ⟨hnone, hsome⟩
        intro d hd
        obtain ⟨seed2, hs, hne, _⟩ := hsd d hd
        rw [hk] at hs
        injection hs with hs
        rw [← hs] at hne
        exact absurd hn hne
      · simp only [hn, if_false]
        have hdk : seed_distance calc_distance singletons_threshold seed_fps singleton k
            = some (calc_distance seed.bits singleton.bits singletons_threshold) := by
          unfold seed_distance
          rw [hk]
          simp [hn]
        by_cases hlt : calc_distance seed.bits singleton.bits singletons_threshold < st.1
        · simp only [hlt, if_true]
          have hthr : st.1 ≤ singletons_threshold := by
            cases hst : st.2 with
            | none => exact le_of_eq (hnone hst).1
            | some j0 => exact le_of_lt (hsome j0 hst).2.2.1
          constructor
          · intro h
            simp at h
          · intro j0 h
            simp only [Option.some.injEq] at h
            subst h
            refine ⟨by omega, hdk, lt_of_lt_of_le hlt hthr, ?_⟩
            intro j d hj hd
            by_cases hjk : j = k
            · subst hjk
              rw [hdk] at hd
              injection hd with hd
              exact ⟨le_of_eq hd, fun _ => le_refl _⟩
            · have hjlt : j < k := by omega
              have hge : st.1 ≤ d := by
                cases hst : st.2 with
                | none =>
                  obtain ⟨ha, hb⟩ := hnone hst
                  rw [ha]
                  exact not_lt.mp (hb j d hjlt hd)
                | some j0 => exact ((hsome j0 hst).2.2.2 j d hjlt hd).1
              have hstrict := lt_of_lt_of_le hlt hge
              exact ⟨le_of_lt hstrict, fun heq => absurd heq (ne_of_gt hstrict)⟩
        · simp only [hlt, if_false]
          apply hsame ⟨hnone, hsome⟩
          intro d hd
          rw [hdk] at hd
          injection hd with hd
          rw [← hd]
          exact hlt

theorem seed_distance_beyond {β D : Type} (calc_distance : β → β → D → D)
    (singletons_threshold : D) (seed_fps : List (Option (Fingerprint β)))
    (singleton : Fingerprint β) (j : Nat) (hj : seed_fps.length ≤ j) :
    seed_distance calc_distance singletons_threshold seed_fps singleton j = none := by
  unfold seed_distance
  rw [List.getD_eq_default _ _ hj]

theorem nearest_seed_loop_inv {β D : Type} [LinearOrder D] (calc_distance : β → β → D → D)
    (singletons_threshold : D) (seed_fps : List (Option (Fingerprint β)))
    (singleton : Fingerprint β) :
    NearestInv calc_distance singletons_threshold seed_fps singleton seed_fps.length
      (nearest_seed_loop calc_distance singletons_threshold seed_fps singleton) :=
  nearest_seed_fold_inv calc_distance singletons_threshold seed_fps singleton seed_fps.length

/-- The counterexample to C16: the two fingerprints `A` and `B` are both
singletons (and both seeds, of their own clusters), at distance 1 of each other,
with `singletons_threshold = 5`.  There is no seed that is not a singleton, yet
for singleton `A` the search gives the seed in slot 1, the singleton `B`; `A` is
attached to it, and the rewritten file holds the one cluster `B A`. -/
theorem singleton_attached_to_singleton_seed :
    nearest_seed_loop (fun (a b : Nat) (_ : Nat) => if a ≤ b then b - a else a - b) 5
        [some ⟨"A", 0⟩, some ⟨"B", 1⟩] ⟨"A", 0⟩ = (1, some 1)
    ∧ (collapse_loop (fun (a b : Nat) (_ : Nat) => if a ≤ b then b - a else a - b) id 5 2
        [⟨"A", 0⟩, ⟨"B", 1⟩] [⟨"A", 0⟩, ⟨"B", 1⟩]).seed_nbs = [[], [(0, 1)]]
    ∧ collapse_singletons (fun (a b : Nat) (_ : Nat) => if a ≤ b then b - a else a - b) id
        OUTPUT_FORMAT.SAMPLES_FORMAT 5 [⟨"A", 0⟩, ⟨"B", 1⟩] ["A", "B"] ["A", "B"]
        [(["A"], 1), (["B"], 1)]
      = some ["Molecule name : Cluster size : Cluster Members", "\n",
          "B", " : ", "2", "(", "1", ") : ", "B", "  ", "A", "  ", "\n"] := by
  decide

/-- C16 (amended): in `collapse_singletons`, for every singleton that is processed
(its slot `i` in `singleton_fps` is still set), the candidates are the seed slots
that have not been reset and whose seed does not have the name of the singleton,
whether or not that seed is itself a singleton.  Either no candidate is at a
distance strictly below `singletons_threshold`, and then the step changes
nothing (the singleton is attached to nothing); or the singleton is appended,
with the distance, to the list of the candidate `j0` whose distance `d` is
strictly below `singletons_threshold`, is the least among the candidates, and
which has the smallest index among the candidates at that distance. -/
theorem collapse_step_attachment {β D : Type} [LinearOrder D]
    (calc_distance : β → β → D → D) (toFloat : D → D) (singletons_threshold : D)
    (seed_map singleton_map : List String) (st : CollapseState β D) (i : Nat)
    (singleton : Fingerprint β) (hs : st.singleton_fps.getD i none = some singleton) :
    ((∀ j d, seed_distance calc_distance singletons_threshold st.seed_fps singleton j = some d →
        ¬ d < singletons_threshold)
      ∧ collapse_step calc_distance toFloat singletons_threshold seed_map singleton_map st i
          = st)
    ∨ (∃ j0 d,
        j0 < st.seed_fps.length
        ∧ seed_distance calc_distance singletons_threshold st.seed_fps singleton j0 = some d
        ∧ d < singletons_threshold
        ∧ (∀ j d2,
            seed_distance calc_distance singletons_threshold st.seed_fps singleton j = some d2 →
            d ≤ d2 ∧ (d2 = d → j0 ≤ j))
        ∧ (collapse_step calc_distance toFloat singletons_threshold seed_map singleton_map
              st i).seed_nbs
            = st.seed_nbs.set j0 (st.seed_nbs.getD j0 [] ++ [(i, toFloat d)])) := by
  have hinv := nearest_seed_loop_inv calc_distance singletons_threshold st.seed_fps singleton
  have hbeyond := seed_distance_beyond calc_distance singletons_threshold st.seed_fps singleton
  obtain ⟨hnone, hsome⟩ := hinv
  cases hr : nearest_seed_loop calc_distance singletons_threshold st.seed_fps singleton with
  | mk dist res =>
    rw [hr] at hnone hsome
    cases res with
    | none =>
      left
      obtain ⟨_, hb⟩ := hnone rfl
      constructor
      · intro j d hd
        by_cases hj : j < st.seed_fps.length
        · exact hb j d hj hd
        · rw [hbeyond j (by omega)] at hd
          exact absurd hd (by simp)
      · unfold collapse_step
        rw [hs]
        simp only []
        rw [hr]
    | some j0 =>
      right
      obtain ⟨ha, hb, hc, he⟩ := hsome j0 rfl
      refine ⟨j0, dist, ha, hb, hc, ?_, ?_⟩
      · intro j d2 hd
        by_cases hj : j < st.seed_fps.length
        · exact he j d2 hj hd
        · rw [hbeyond j (by omega)] at hd
          exact absurd hd (by simp)
      · unfold collapse_step
        rw [hs]
        simp only []
        rw [hr]

theorem collapse_step_attachment_witness :
    (CollapseState.mk [some ⟨"A", 0⟩, some ⟨"B", 1⟩, some ⟨"C", 2⟩]
        [some ⟨"A", 0⟩, some ⟨"C", 2⟩] [[], [], []] : CollapseState Nat Nat).singleton_fps.getD 1
        none = some ⟨"C", 2⟩
    ∧ (((∀ j d, seed_distance (fun (a b : Nat) (_ : Nat) => if a ≤ b then b - a else a - b) 5
            (CollapseState.mk [some ⟨"A", 0⟩, some ⟨"B", 1⟩, some ⟨"C", 2⟩]
              [some ⟨"A", 0⟩, some ⟨"C", 2⟩] [[], [], []] : CollapseState Nat Nat).seed_fps
            ⟨"C", 2⟩ j = some d → ¬ d < 5)
        ∧ collapse_step (fun (a b : Nat) (_ : Nat) => if a ≤ b then b - a else a - b) id 5
            ["A", "B", "C"] ["A", "C"]
            (CollapseState.mk [some ⟨"A", 0⟩, some ⟨"B", 1⟩, some ⟨"C", 2⟩]
              [some ⟨"A", 0⟩, some ⟨"C", 2⟩] [[], [], []] : CollapseState Nat Nat) 1
          = (CollapseState.mk [some ⟨"A", 0⟩, some ⟨"B", 1⟩, some ⟨"C", 2⟩]
              [some ⟨"A", 0⟩, some ⟨"C", 2⟩] [[], [], []] : CollapseState Nat Nat))
      ∨ (∃ j0 d,
          j0 < (CollapseState.mk [some ⟨"A", 0⟩, some ⟨"B", 1⟩, some ⟨"C", 2⟩]
              [some ⟨"A", 0⟩, some ⟨"C", 2⟩] [[], [], []] : CollapseState Nat Nat).seed_fps.length
          ∧ seed_distance (fun (a b : Nat) (_ : Nat) => if a ≤ b then b - a else a - b) 5
              (CollapseState.mk [some ⟨"A", 0⟩, some ⟨"B", 1⟩, some ⟨"C", 2⟩]
                [some ⟨"A", 0⟩, some ⟨"C", 2⟩] [[], [], []] : CollapseState Nat Nat).seed_fps
              ⟨"C", 2⟩ j0 = some d
          ∧ d < 5
          ∧ (∀ j d2,
              seed_distance (fun (a b : Nat) (_ : Nat) => if a ≤ b then b - a else a - b) 5
                (CollapseState.mk [some ⟨"A", 0⟩, some ⟨"B", 1⟩, some ⟨"C", 2⟩]
                  [some ⟨"A", 0⟩, some ⟨"C", 2⟩] [[], [], []] : CollapseState Nat Nat).seed_fps
                ⟨"C", 2⟩ j = some d2 →
              d ≤ d2 ∧ (d2 = d → j0 ≤ j))
          ∧ (collapse_step (fun (a b : Nat) (_ : Nat) => if a ≤ b then b - a else a - b) id 5
                ["A", "B", "C"] ["A", "C"]
                (CollapseState.mk [some ⟨"A", 0⟩, some ⟨"B", 1⟩, some ⟨"C", 2⟩]
                  [some ⟨"A", 0⟩, some ⟨"C", 2⟩] [[], [], []] : CollapseState Nat Nat)
                1).seed_nbs
              = (CollapseState.mk [some ⟨"A", 0⟩, some ⟨"B", 1⟩, some ⟨"C", 2⟩]
                  [some ⟨"A", 0⟩, some ⟨"C", 2⟩] [[], [], []] : CollapseState Nat Nat).seed_nbs.set
                  j0
                  ((CollapseState.mk [some ⟨"A", 0⟩, some ⟨"B", 1⟩, some ⟨"C", 2⟩]
                    [some ⟨"A", 0⟩, some ⟨"C", 2⟩] [[], [], []]
                      : CollapseState Nat Nat).seed_nbs.getD j0 [] ++ [(1, id d)]))) :=
  ⟨rfl, collapse_step_attachment (fun (a b : Nat) (_ : Nat) => if a ≤ b then b - a else a - b)
    id 5 ["A", "B", "C"] ["A", "C"]
    (CollapseState.mk [some ⟨"A", 0⟩, some ⟨"B", 1⟩, some ⟨"C", 2⟩]
      [some ⟨"A", 0⟩, some ⟨"C", 2⟩] [[], [], []]) 1 ⟨"C", 2⟩ rfl⟩

/-! ### The collapse of singletons: the rewritten clusters file -/

theorem attached_names_eq_attached_singletons {β D : Type} (seed_nbs : List (List (Nat × D)))
    (singleton_fps : List (Option (Fingerprint β))) (p : Nat)
    (hset : ∀ l ∈ seed_nbs, ∀ nb ∈ l, (singleton_fps.getD nb.1 none).isSome = true) :
    attached_names seed_nbs singleton_fps p = attached_singletons seed_nbs singleton_fps p := by
  unfold attached_names attached_singletons
  have hl : ∀ nb ∈ seed_nbs.getD p [], (singleton_fps.getD nb.1 none).isSome = true := by
    intro nb hnb
    by_cases hp : p < seed_nbs.length
    · rw [List.getD_eq_getElem _ _ hp] at hnb
      exact hset _ (List.getElem_mem hp) nb hnb
    · rw [List.getD_eq_default _ _ (by omega)] at hnb
      simp at hnb
  generalize seed_nbs.getD p [] = l at hl
  induction l with
  | nil => rfl
  | cons nb rest ih =>
    have h1 := hl nb (List.mem_cons_self _ _)
    have h2 := ih (fun x hx => hl x (List.mem_cons_of_mem _ hx))
    cases hnb : singleton_fps.getD nb.1 none with
    | none => rw [hnb] at h1; simp at h1
    | some fp =>
      rw [List.map_cons, List.filterMap_cons, h2]
      simp only [hnb, Option.map_some']

theorem update_clusters_file_loop_eq {β D : Type} (output_format : OUTPUT_FORMAT)
    (seed_nbs : List (List (Nat × D))) (seed_map : List String)
    (seed_fps singleton_fps : List (Option (Fingerprint β)))
    (hset : ∀ l ∈ seed_nbs, ∀ nb ∈ l, (singleton_fps.getD nb.1 none).isSome = true)
    (file_clusters : List (List String × Nat))
    (hne : ∀ c ∈ file_clusters, c.1 ≠ [])
    (hfound : ∀ c ∈ file_clusters, map_find seed_map (c.1.headD "") ≠ none)
    (clus_num : Nat) (ofs : List String) :
    update_clusters_file_loop output_format seed_nbs seed_map seed_fps singleton_fps
        file_clusters clus_num ofs
      = some (((rewritten_clusters seed_nbs seed_map seed_fps singleton_fps
            file_clusters).enumFrom clus_num).foldl
          (fun os nc => write_cluster_os output_format nc.2.1 nc.2.2 nc.1 os) ofs) := by
  induction file_clusters generalizing clus_num ofs with
  | nil => rfl
  | cons c rest ih =>
    obtain ⟨cluster, orig_nn_size⟩ := c
    have hc : cluster ≠ [] := hne (cluster, orig_nn_size) (List.mem_cons_self _ _)
    have hf : map_find seed_map (cluster.headD "") ≠ none :=
      hfound (cluster, orig_nn_size) (List.mem_cons_self _ _)
    have ih2 := ih (fun x hx => hne x (List.mem_cons_of_mem _ hx))
      (fun x hx => hfound x (List.mem_cons_of_mem _ hx))
    have hemp : cluster.isEmpty = false := by
      cases cluster with
      | nil => exact absurd rfl hc
      | cons a l => rfl
    cases hp : map_find seed_map (cluster.headD "") with
    | none => exact absurd hp hf
    | some p =>
      cases hsp : seed_fps.getD p none with
      | none =>
        have hrw : rewritten_clusters seed_nbs seed_map seed_fps singleton_fps
            ((cluster, orig_nn_size) :: rest)
            = rewritten_clusters seed_nbs seed_map seed_fps singleton_fps rest := by
          unfold rewritten_clusters
          rw [List.filterMap_cons]
          simp only [hp, hsp]
        rw [hrw, ← ih2 clus_num ofs]
        simp only [update_clusters_file_loop, hemp, hp, hsp, Bool.false_eq_true, if_false]
      | some fp =>
        have hrw : rewritten_clusters seed_nbs seed_map seed_fps singleton_fps
            ((cluster, orig_nn_size) :: rest)
            = (cluster ++ attached_singletons seed_nbs singleton_fps p, orig_nn_size)
              :: rewritten_clusters seed_nbs seed_map seed_fps singleton_fps rest := by
          unfold rewritten_clusters
          rw [List.filterMap_cons]
          simp only [hp, hsp]
        rw [hrw, List.enumFrom_cons, List.foldl_cons, ← ih2 (clus_num + 1)]
        simp only [update_clusters_file_loop, hemp, hp, hsp, Bool.false_eq_true, if_false,
          attached_names_eq_attached_singletons seed_nbs singleton_fps p hset]

/-- C17: for every clusters file (each cluster that is read is not empty and its
seed is in the seeds map) and every attachment result (the singletons that it
lists are set), `update_clusters_file` returns, and the new file is the header
(in SAMPLES format) followed by the output of `write_cluster` for exactly the
clusters whose seed was not consumed, in the order of the file, each with its
original members followed by its attached singletons and with its original
`orig_nn_size`, numbered 1, 2, 3, ...; the size that `write_cluster` writes is the
number of members of the cluster it is given, so the new member count. -/
theorem update_clusters_file_rewrite {β D : Type} (output_format : OUTPUT_FORMAT)
    (seed_nbs : List (List (Nat × D))) (seed_map : List String)
    (seed_fps singleton_fps : List (Option (Fingerprint β)))
    (file_clusters : List (List String × Nat))
    (hset : ∀ l ∈ seed_nbs, ∀ nb ∈ l, (singleton_fps.getD nb.1 none).isSome = true)
    (hne : ∀ c ∈ file_clusters, c.1 ≠ [])
    (hfound : ∀ c ∈ file_clusters, map_find seed_map (c.1.headD "") ≠ none) :
    update_clusters_file output_format seed_nbs seed_map seed_fps singleton_fps file_clusters
      = some (((rewritten_clusters seed_nbs seed_map seed_fps singleton_fps
            file_clusters).enumFrom 1).foldl
          (fun os nc => write_cluster_os output_format nc.2.1 nc.2.2 nc.1 os)
          (if output_format = OUTPUT_FORMAT.SAMPLES_FORMAT then
            ["Molecule name : Cluster size : Cluster Members", "\n"]
          else []))
    ∧ (∀ cluster orig_nn_size clus_num os,
        write_cluster_os OUTPUT_FORMAT.SAMPLES_FORMAT cluster orig_nn_size clus_num os
          = os ++ [cluster.headD "", " : ", toString cluster.length, "(",
              toString orig_nn_size, ") : "]
            ++ cluster.flatMap (fun m => [m, "  "]) ++ ["\n"])
    ∧ (∀ cluster orig_nn_size clus_num os,
        write_cluster_os OUTPUT_FORMAT.CSV_FORMAT cluster orig_nn_size clus_num os
          = os ++ cluster.flatMap (fun m =>
              [toString clus_num, ",", toString cluster.length, ",", cluster.headD "", ",", m,
               ",", toString orig_nn_size, "\n"])) :=
  ⟨update_clusters_file_loop_eq output_format seed_nbs seed_map seed_fps singleton_fps hset
      file_clusters hne hfound 1 _,
    fun _ _ _ _ => rfl, fun _ _ _ _ => rfl⟩

theorem update_clusters_file_rewrite_witness :
    (∀ l ∈ ([[], [(0, 4)], []] : List (List (Nat × Nat))), ∀ nb ∈ l,
        (([some ⟨"x", 24⟩] : List (Option (Fingerprint Nat))).getD nb.1 none).isSome = true)
    ∧ (∀ c ∈ [(["s1", "m1", "m4", "m5", "m6"], 5), (["s2", "m2", "m3"], 3), (["x"], 1)],
        c.1 ≠ [])
    ∧ (∀ c ∈ [(["s1", "m1", "m4", "m5", "m6"], 5), (["s2", "m2", "m3"], 3), (["x"], 1)],
        map_find ["s1", "s2", "x"] (c.1.headD "") ≠ none)
    ∧ rewritten_clusters ([[], [(0, 4)], []] : List (List (Nat × Nat))) ["s1", "s2", "x"]
        [some ⟨"s1", 0⟩, some ⟨"s2", 20⟩, none] ([some ⟨"x", 24⟩] : List (Option (Fingerprint Nat)))
        [(["s1", "m1", "m4", "m5", "m6"], 5), (["s2", "m2", "m3"], 3), (["x"], 1)]
      = [(["s1", "m1", "m4", "m5", "m6"], 5), (["s2", "m2", "m3", "x"], 3)]
    ∧ update_clusters_file OUTPUT_FORMAT.SAMPLES_FORMAT
        ([[], [(0, 4)], []] : List (List (Nat × Nat))) ["s1", "s2", "x"]
        [some ⟨"s1", 0⟩, some ⟨"s2", 20⟩, none] ([some ⟨"x", 24⟩] : List (Option (Fingerprint Nat)))
        [(["s1", "m1", "m4", "m5", "m6"], 5), (["s2", "m2", "m3"], 3), (["x"], 1)]
      = some ["Molecule name : Cluster size : Cluster Members", "\n",
          "s1", " : ", "5", "(", "5", ") : ", "s1", "  ", "m1", "  ", "m4", "  ", "m5", "  ",
          "m6", "  ", "\n",
          "s2", " : ", "4", "(", "3", ") : ", "s2", "  ", "m2", "  ", "m3", "  ", "x", "  ",
          "\n"] :=
  ⟨by decide, by decide, by decide, by decide,
    (update_clusters_file_rewrite OUTPUT_FORMAT.SAMPLES_FORMAT
      ([[], [(0, 4)], []] : List (List (Nat × Nat))) ["s1", "s2", "x"]
      [some ⟨"s1", 0⟩, some ⟨"s2", 20⟩, none] ([some ⟨"x", 24⟩] : List (Option (Fingerprint Nat)))
      [(["s1", "m1", "m4", "m5", "m6"], 5), (["s2", "m2", "m3"], 3), (["x"], 1)]
      (by decide) (by decide) (by decide)).1.trans (by decide)⟩

/-! ### The tie-break of `find_next_seed` on the example of three fingerprints -/

/-- C22 (the code at a failing input). Three fingerprints `A`, `B`, `C` (indices 0,
1, 2) with `d(A,B) = 2`, `d(A,C) = 5`, `d(B,C) = 4` (tenths) and threshold 3: the
lists are `[A, B]`, `[B, A]` and `[C]`; the first two have equal size and equal
original size, and `find_next_seed` returns position 1, the list with the higher
seed; `serial_run` writes the cluster `B A` with seed `B`, then `C`. -/
theorem find_next_seed_prefers_higher_seed :
    (make_nnlists_cs
        (fun i j (_ : Nat) => (([[0, 2, 5], [2, 0, 4], [5, 4, 0]] : List (List Nat)).getD i []).getD j 0)
        id 3 3 0 (2 ^ 32 - 1)).2 = [[0, 1], [1, 0], [2]]
    ∧ find_next_seed [[0, 1], [1, 0], [2]] [2, 2, 1] = 1
    ∧ output_clusters_emitted 3 3 [[0, 1], [1, 0], [2]] = some [([1, 0], 2), ([2], 1)]
    ∧ serial_run
        (fun a b (_ : Nat) =>
          if a = b then 0
          else if (a = "A" ∧ b = "B") ∨ (a = "B" ∧ b = "A") then 2
          else if (a = "A" ∧ b = "C") ∨ (a = "C" ∧ b = "A") then 5
          else 4)
        id 3 ⟨none, OUTPUT_FORMAT.SAMPLES_FORMAT, false⟩ ["A", "B", "C"] 3
      = some (["Molecule name : Cluster size : Cluster Members", "\n",
          "B", " : ", "2", "(", "2", ") : ", "B", "  ", "A", "  ", "\n",
          "C", " : ", "1", "(", "1", ") : ", "C", "  ", "\n"], ["B", "C"], ["C"]) := by
  decide

/-! ### The names of a distributed run -/

/-- C28 (the code at a failing input). The file holds the fingerprints `a`, `b`, `c`,
far from each other, and the subset file holds the names `a` and `c`.  The array
that a worker builds its lists over, after `apply_subset`, is `[b]`; `serial_run`
writes the cluster `b`.  In `parallel_run` with one worker the master takes its
names from `get_fp_names`, without the subset, and writes for the member index 0
the name `a`.  Without a subset file, in CSV format with `fix_spaces_in_names`, the
one fingerprint `a b` is written as `a b` by `serial_run` and as `a_b` by
`parallel_run`, whose master checks the names for spaces in every format. -/
theorem parallel_run_names_ignore_subset :
    apply_subset ⟨some ["a", "c"], OUTPUT_FORMAT.SAMPLES_FORMAT, false⟩ ["a", "b", "c"] = ["b"]
    ∧ serial_run (fun _ _ (_ : Nat) => 9) id 3
        ⟨some ["a", "c"], OUTPUT_FORMAT.SAMPLES_FORMAT, false⟩ ["a", "b", "c"] 3
      = some (["Molecule name : Cluster size : Cluster Members", "\n",
          "b", " : ", "1", "(", "1", ") : ", "b", "  ", "\n"], ["b"], ["b"])
    ∧ parallel_run (fun _ _ (_ : Nat) => 9) id 3
        ⟨some ["a", "c"], OUTPUT_FORMAT.SAMPLES_FORMAT, false⟩ ["a", "b", "c"] 2 (fun _ => [1]) 1 5
      = some (["Molecule name : Cluster size : Cluster Members", "\n",
          "a", " : ", "1", "(", "1", ") : ", "a", "  ", "\n"], ["a"], ["a"])
    ∧ serial_run (fun _ _ (_ : Nat) => 9) id 3 ⟨none, OUTPUT_FORMAT.CSV_FORMAT, true⟩ ["a b"] 3
      = some (["1", ",", "1", ",", "a b", ",", "a b", ",", "1", "\n"], ["a b"], ["a b"])
    ∧ parallel_run (fun _ _ (_ : Nat) => 9) id 3 ⟨none, OUTPUT_FORMAT.CSV_FORMAT, true⟩ ["a b"] 2
        (fun _ => [1]) 1 5
      = some (["1", ",", "1", ",", "a_b", ",", "a_b", ",", "1", "\n"], ["a_b"], ["a_b"]) := by
  decide

/-! ### The name buffer of `count_bits_set` -/

/-- C30 (the code at a failing input). For records with name lengths 5 and 6 the
first record allocates 6 bytes and sets `max_mol_name_len = 6`; for the second the
guard `6 > 6` fails, the buffer keeps its 6 bytes and 7 bytes are read into it.
For a first record with name length 0 the guard `0 > 0` fails and 1 byte is read
through the null pointer. -/
theorem count_bits_set_name_overflow :
    CountBitsSet.main_name_reads [5, 6] = [(6, some 6), (7, some 6)]
    ∧ CountBitsSet.main_name_reads [0] = [(1, none)] := by
  decide

/-! ### The event loop of a worker -/

theorem slave_event_loop_search_details_exit :
    (slave_event_loop (fun _ _ (_ : Nat) => 0) id 1
        ⟨none, OUTPUT_FORMAT.SAMPLES_FORMAT, false⟩ (some ["a b", "c"]) (fun _ => true) 1
        ⟨[], [], 0, []⟩ [⟨"Search_Details", [2, 1], ""⟩, ⟨"Send_Best_Cluster_Details", [], ""⟩]
        []).2.2 = LoopStatus.exited 1
    ∧ (slave_event_loop (fun _ _ (_ : Nat) => 0) id 1
        ⟨none, OUTPUT_FORMAT.SAMPLES_FORMAT, false⟩ none (fun _ => true) 1
        ⟨[], [], 0, []⟩ [⟨"Search_Details", [2, 1], ""⟩] []).2.2 = LoopStatus.exited 1
    ∧ slave_event_loop (fun _ _ (_ : Nat) => 0) id 1
        ⟨none, OUTPUT_FORMAT.SAMPLES_FORMAT, false⟩ (some ["a", "b", "c"]) (fun _ => true) 1
        ⟨[], [], 0, []⟩ [⟨"Search_Details", [3, 1], ""⟩, ⟨"Send_Best_Cluster_Details", [], ""⟩]
        []
      = (⟨[[0, 2, 1], [1, 2, 0], [2, 1, 0]], [3, 3, 3], 3, []⟩,
          [SlaveOutput.send_string "NNLists_Done", SlaveOutput.send_values [2],
           SlaveOutput.send_values [3, 3, 2]],
          LoopStatus.waiting) := by
  decide

/-- The counterexample to C24: the worker of rank 1, before any `Search_Details`,
receives the unknown control string `Bogus` and then
`Send_Best_Cluster_Details`.  It prints the line about the suspect message, stays
in the loop, answers the second message (with `-1`, as it has no lists) and then
waits for further messages: it has not stopped. -/
theorem slave_event_loop_survives_unknown :
    slave_event_loop (fun _ _ (_ : Nat) => 0) id 1
        ⟨none, OUTPUT_FORMAT.SAMPLES_FORMAT, false⟩ (some ["a", "b", "c"]) (fun _ => true) 1
        ⟨[], [], 0, []⟩ [⟨"Bogus", [], ""⟩, ⟨"Send_Best_Cluster_Details", [], ""⟩] []
      = (⟨[], [], 0, []⟩,
          [SlaveOutput.cout ["1", " received suspect message ", "Bogus", "\n"],
           SlaveOutput.send_values [-1]],
          LoopStatus.waiting) := by
  decide

/-- C24 (amended): in `slave_event_loop`, for every received control string that
is not one of the known tokens, the worker prints its rank, the words
`received suspect message` and the string, changes none of its variables, sends
nothing to the master and goes on with the next message as it would have without
the unknown one; when no further message arrives it waits. -/
theorem slave_event_loop_unknown_message {D : Type} [LinearOrder D] [Zero D]
    (calc_distance : String → String → D → D) (toFloat : D → D) (threshold : D)
    (cs : ClusterSettings) (input_file : Option (List String))
    (chdir_ok : String → Bool) (world_rank : Nat) (s : Slave) (m : SlaveMessage)
    (rest : List SlaveMessage) (out : List SlaveOutput)
    (hunknown : m.msg ∉ ["Finished", "Search_Details", "Send_Best_Cluster",
      "Send_Best_Cluster_Details", "Send_Cluster", "Cross_Off_Cluster", "New_CWD"]) :
    slave_event_loop calc_distance toFloat threshold cs input_file chdir_ok world_rank
        s (m :: rest) out
      = slave_event_loop calc_distance toFloat threshold cs input_file chdir_ok world_rank s
          rest
          (out ++ [SlaveOutput.cout
            [toString world_rank, " received suspect message ", m.msg, "\n"]])
    ∧ slave_event_loop calc_distance toFloat threshold cs input_file chdir_ok world_rank
        s [m] out
      = (s, out ++ [SlaveOutput.cout
            [toString world_rank, " received suspect message ", m.msg, "\n"]],
          LoopStatus.waiting) := by
  simp only [List.mem_cons, List.mem_singleton, List.not_mem_nil, or_false, not_or]
    at hunknown
  obtain ⟨h1, h2, h3, h4, h5, h6, h7⟩ := hunknown
  have hstep : ∀ (tail : List SlaveMessage),
      slave_event_loop calc_distance toFloat threshold cs input_file chdir_ok world_rank
          s (m :: tail) out
        = slave_event_loop calc_distance toFloat threshold cs input_file chdir_ok world_rank
            s tail
            (out ++ [SlaveOutput.cout
              [toString world_rank, " received suspect message ", m.msg, "\n"]]) := by
    intro tail
    conv => lhs; unfold slave_event_loop
    simp only [h1, h2, h3, h4, h5, h6, h7, if_false]
  refine ⟨hstep rest, ?_⟩
  rw [hstep []]
  rfl

/-- Witness for C24 (amended): the unknown control string `Bogus`, followed by
`Send_Best_Cluster_Details`. -/
theorem slave_event_loop_unknown_message_witness :
    "Bogus" ∉ ["Finished", "Search_Details", "Send_Best_Cluster",
      "Send_Best_Cluster_Details", "Send_Cluster", "Cross_Off_Cluster", "New_CWD"]
    ∧ slave_event_loop (fun _ _ (_ : Nat) => 0) id 1
        ⟨none, OUTPUT_FORMAT.SAMPLES_FORMAT, false⟩ (some ["a", "b", "c"]) (fun _ => true) 1
        ⟨[], [], 0, []⟩ [⟨"Bogus", [], ""⟩, ⟨"Send_Best_Cluster_Details", [], ""⟩] []
      = slave_event_loop (fun _ _ (_ : Nat) => 0) id 1
          ⟨none, OUTPUT_FORMAT.SAMPLES_FORMAT, false⟩ (some ["a", "b", "c"]) (fun _ => true) 1
          ⟨[], [], 0, []⟩ [⟨"Send_Best_Cluster_Details", [], ""⟩]
          ([] ++ [SlaveOutput.cout ["1", " received suspect message ", "Bogus", "\n"]]) :=
  ⟨by decide,
    (slave_event_loop_unknown_message (fun _ _ (_ : Nat) => 0) id 1
      ⟨none, OUTPUT_FORMAT.SAMPLES_FORMAT, false⟩ (some ["a", "b", "c"]) (fun _ => true) 1
      ⟨[], [], 0, []⟩ ⟨"Bogus", [], ""⟩ [⟨"Send_Best_Cluster_Details", [], ""⟩] []
      (by decide)).1⟩

/-! ### The additions of `amtec` -/

/-- C25 (the code at a failing input). The cluster file in CSV format holds the one
line `2,1,a,a,1`, so that `read_csv_file` gives an empty cluster 1 and the cluster
`[a]` as cluster 2; the new fingerprint `x` is at distance 1 of the seed `a`, with
threshold 5.  `cluster_seed_fps` holds the one seed `a`, at position 0, and
`add_fps_to_clusters` appends `x` to `clusters[0]`, the empty cluster, and not to
the cluster of `a`. -/
theorem add_fps_to_clusters_wrong_cluster :
    Amtec.read_csv_file "2,1,a,a,1\n".toList = some [[], ["a"]]
    ∧ Amtec.add_fps_to_clusters (fun (a b : Nat) (_ : Nat) => if a ≤ b then b - a else a - b) 5
        [⟨"a", 0⟩] [⟨"x", 1⟩] [[], ["a"]]
      = some ([⟨"a", 0⟩], [["x"], ["a"]], [0]) := by
  decide

theorem re_sort_amended_clusters_fst {β D : Type} [LinearOrder D]
    (calc_distance : β → β → D) (orig_sizes : List Nat)
    (cluster_seed_fps clus_fps new_fps : List (Fingerprint β)) (clusters : List (List String)) :
    (Amtec.re_sort_amended_clusters calc_distance orig_sizes cluster_seed_fps clus_fps new_fps
      clusters).1 = clusters := by
  have hfold : ∀ (is : List Nat) (built : List (Nat × Option (List (String × D)))),
      (is.foldl
        (fun (st : List (List String) × List (Nat × Option (List (String × D)))) i =>
          if (st.1.getD i []).length = orig_sizes.getD i 0 then st
          else
            (st.1, st.2 ++ [(i, Amtec.sorted_new_clus calc_distance cluster_seed_fps clus_fps
              new_fps i (st.1.getD i []))]))
        (clusters, built)).1 = clusters := by
    intro is
    induction is with
    | nil => intro built; rfl
    | cons i rest ih =>
      intro built
      rw [List.foldl_cons]
      by_cases h : (clusters.getD i []).length = orig_sizes.getD i 0
      · simp only [h, if_true]
        exact ih built
      · simp only [h, if_false]
        exact ih _
  exact hfold _ _

/-- C26 (the code at a failing input). The cluster `[s, m]` of original size 2, with
`m` at distance 2 of the seed `s`, has received the new fingerprint `x`, at
distance 1 of `s`.  `re_sort_amended_clusters` builds and sorts the local vector
`new_clus` into `s`, `x`, `m`, and leaves `clusters` as it was, `[s, m, x]`; `main`
writes the cluster in that order. -/
theorem re_sort_amended_clusters_no_effect :
    Amtec.re_sort_amended_clusters (fun (a b : Nat) => if a ≤ b then b - a else a - b) [2]
        [⟨"s", 0⟩] [⟨"s", 0⟩, ⟨"m", 2⟩] [⟨"x", 1⟩] [["s", "m", "x"]]
      = ([["s", "m", "x"]], [(0, some [("s", 0), ("x", 1), ("m", 2)])])
    ∧ Amtec.main (fun (a b : Nat) (_ : Nat) => if a ≤ b then b - a else a - b)
        (fun (a b : Nat) => if a ≤ b then b - a else a - b) 5 [["s", "m"]]
        [⟨"s", 0⟩, ⟨"m", 2⟩] [⟨"x", 1⟩] Amtec.CLUS_FILE_FORMAT.SAMPLES_FORMAT
      = some ["Molecule name : Cluster size : Cluster Members", "\n",
          "s", " : ", "3", "(", "2", ") : ", "s", "  ", "m", "  ", "x", "  ", "\n"] := by
  decide

/-! ### The name lookup with the descending comparator -/

theorem partition_loop_spec (p : Nat → Bool) (k : Nat) :
    ∀ (fuel first len : Nat), len ≤ fuel → first ≤ k → k ≤ first + len →
      (∀ i, first ≤ i → i < k → p i = true) →
      (∀ i, k ≤ i → i < first + len → p i = false) →
      partition_loop p fuel first len = k := by
  intro fuel
  induction fuel with
  | zero =>
    intro first len hlen hlo hhi _ _
    simp only [partition_loop]
    omega
  | succ fuel ih =>
    intro first len hlen hlo hhi htrue hfalse
    simp only [partition_loop]
    by_cases hpos : len > 0
    · simp only [hpos, if_true]
      have hhalf : len / 2 < len := Nat.div_lt_self hpos (by decide)
      by_cases hp : p (first + len / 2) = true
      · simp only [hp, if_true]
        have hmid : first + len / 2 < k := by
          by_contra hcon
          have := hfalse (first + len / 2) (by omega) (by omega)
          rw [hp] at this
          exact absurd this (by decide)
        exact ih (first + len / 2 + 1) (len - len / 2 - 1) (by omega) (by omega) (by omega)
          (fun i hi1 hi2 => htrue i (by omega) hi2)
          (fun i hi1 hi2 => hfalse i hi1 (by omega))
      · have hp2 : p (first + len / 2) = false := by
          cases hq : p (first + len / 2) with
          | true => exact absurd hq hp
          | false => rfl
        simp only [hp2, Bool.false_eq_true, if_false]
        have hmid : k ≤ first + len / 2 := by
          by_contra hcon
          have := htrue (first + len / 2) (by omega) (by omega)
          rw [hp2] at this
          exact absurd this (by decide)
        exact ih first (len / 2) (by omega) hlo hmid htrue
          (fun i hi1 hi2 => hfalse i hi1 (by omega))
    · simp only [hpos, if_false]
      omega

theorem partition_point_exists (p : Nat → Bool) (n : Nat)
    (hanti : ∀ i j, i ≤ j → j < n → p i = false → p j = false) :
    ∃ k, k ≤ n ∧ (∀ i, i < k → p i = true) ∧ (∀ i, k ≤ i → i < n → p i = false) := by
  induction n with
  | zero => exact ⟨0, le_refl _, fun i hi => absurd hi (Nat.not_lt_zero i), fun i _ hi => absurd hi (Nat.not_lt_zero i)⟩
  | succ n ih =>
    obtain ⟨k, hk, htrue, hfalse⟩ := ih (fun i j hij hj => hanti i j hij (by omega))
    by_cases hkn : k = n
    · subst hkn
      cases hp : p k with
      | true =>
        refine ⟨k + 1, le_refl _, ?_, ?_⟩
        · intro i hi
          by_cases hik : i = k
          · rw [hik]; exact hp
          · exact htrue i (by omega)
        · intro i hi1 hi2
          omega
      | false =>
        refine ⟨k, by omega, htrue, ?_⟩
        intro i hi1 hi2
        have : i = k := by omega
        rw [this]; exact hp
    · refine ⟨k, by omega, htrue, ?_⟩
      intro i hi1 hi2
      by_cases hin : i < n
      · exact hfalse i hi1 hin
      · have hkf : p k = false := hfalse k (le_refl _) (by omega)
        exact hanti k i hi1 hi2 hkf

theorem name_at_eq {β : Type} (fps : List (Fingerprint β)) (i : Nat) (hi : i < fps.length) :
    name_at fps i = (fps.get ⟨i, hi⟩).name := by
  unfold name_at
  rw [List.getD_eq_getElem _ _ (by rw [List.length_map]; exact hi)]
  simp

theorem name_at_descending {β : Type} (fps : List (Fingerprint β))
    (hsorted : fps.Pairwise (fun a b => b.name.toList < a.name.toList))
    (i j : Nat) (hij : i < j) (hj : j < fps.length) :
    (name_at fps j).toList < (name_at fps i).toList := by
  rw [name_at_eq fps j hj, name_at_eq fps i (by omega)]
  rw [List.pairwise_iff_getElem] at hsorted
  exact hsorted i j (by omega) hj hij

theorem equal_range_greater_found {β : Type} (fps : List (Fingerprint β)) (fp_name : String)
    (hsorted : fps.Pairwise (fun a b => b.name.toList < a.name.toList))
    (j : Nat) (hj : j < fps.length) (hname : name_at fps j = fp_name) :
    equal_range_greater fps fp_name = (j, j + 1) := by
  unfold equal_range_greater
  have hlo : partition_loop (fun i => decide (fp_name.toList < (name_at fps i).toList))
      fps.length 0 fps.length = j := by
    apply partition_loop_spec _ j fps.length 0 fps.length (le_refl _) (Nat.zero_le _) (by omega)
    · intro i _ hi
      have := name_at_descending fps hsorted i j hi hj
      rw [hname] at this
      exact decide_eq_true this
    · intro i hi1 hi2
      by_cases hij : i = j
      · rw [hij, hname]
        simp
      · have := name_at_descending fps hsorted j i (by omega) (by omega)
        rw [hname] at this
        simp only [decide_eq_false_iff_not]
        exact lt_asymm this
  have hhi : partition_loop (fun i => !decide ((name_at fps i).toList < fp_name.toList))
      fps.length 0 fps.length = j + 1 := by
    apply partition_loop_spec _ (j + 1) fps.length 0 fps.length (le_refl _) (Nat.zero_le _)
      (by omega)
    · intro i _ hi
      by_cases hij : i = j
      · rw [hij, hname]
        simp
      · have := name_at_descending fps hsorted i j (by omega) hj
        rw [hname] at this
        simp only [Bool.not_eq_true', decide_eq_false_iff_not]
        exact lt_asymm this
    · intro i hi1 hi2
      have := name_at_descending fps hsorted j i (by omega) (by omega)
      rw [hname] at this
      show (!decide ((name_at fps i).toList < fp_name.toList)) = false
      rw [decide_eq_true this]
      rfl
  rw [hlo, hhi]

theorem equal_range_greater_absent {β : Type} (fps : List (Fingerprint β)) (fp_name : String)
    (hsorted : fps.Pairwise (fun a b => b.name.toList < a.name.toList))
    (habsent : ∀ i, i < fps.length → name_at fps i ≠ fp_name) :
    (equal_range_greater fps fp_name).1 = (equal_range_greater fps fp_name).2 := by
  have hne : ∀ i, i < fps.length → (name_at fps i).toList ≠ fp_name.toList := by
    intro i hi heq
    exact habsent i hi (String.ext heq)
  obtain ⟨k, hk, htrue, hfalse⟩ := partition_point_exists
    (fun i => decide (fp_name.toList < (name_at fps i).toList)) fps.length
    (by
      intro i j hij hj hpi
      simp only [decide_eq_false_iff_not] at hpi ⊢
      by_cases h : i = j
      · rw [← h]; exact hpi
      · have hd := name_at_descending fps hsorted i j (by omega) hj
        intro hcon
        exact hpi (lt_trans hcon hd))
  unfold equal_range_greater
  have hlo := partition_loop_spec (fun i => decide (fp_name.toList < (name_at fps i).toList)) k
    fps.length 0 fps.length (le_refl _) (Nat.zero_le _) (by omega)
    (fun i _ hi => htrue i hi) (fun i hi1 hi2 => hfalse i hi1 (by omega))
  have hhi := partition_loop_spec (fun i => !decide ((name_at fps i).toList < fp_name.toList)) k
    fps.length 0 fps.length (le_refl _) (Nat.zero_le _) (by omega)
    (by
      intro i _ hi
      have h1 := htrue i hi
      simp only [decide_eq_true_eq] at h1
      simp only [Bool.not_eq_true', decide_eq_false_iff_not]
      exact lt_asymm h1)
    (by
      intro i hi1 hi2
      have h1 := hfalse i hi1 (by omega)
      simp only [decide_eq_false_iff_not] at h1
      simp only [Bool.not_eq_false', decide_eq_true_eq]
      rcases lt_trichotomy (name_at fps i).toList fp_name.toList with h | h | h
      · exact h
      · exact absurd h (hne i (by omega))
      · exact absurd h h1)
  simp only []
  rw [hlo, hhi]

theorem descending_distinct_strict {β : Type} (fps : List (Fingerprint β))
    (hsorted : fps.Pairwise (fun a b => ¬ a.name.toList < b.name.toList))
    (hdistinct : (fps.map (fun fp => fp.name)).Nodup) :
    fps.Pairwise (fun a b => b.name.toList < a.name.toList) := by
  have hne : fps.Pairwise (fun a b => a.name ≠ b.name) := by
    unfold List.Nodup at hdistinct
    rw [List.pairwise_map] at hdistinct
    exact hdistinct
  refine (hsorted.and hne).imp ?_
  intro a b hab
  rcases lt_trichotomy a.name.toList b.name.toList with h | h | h
  · exact absurd h hab.1
  · exact absurd (String.ext h) hab.2
  · exact h

theorem cad_find_fingerprint_eq {β : Type} (fps : List (Fingerprint β)) (fp_name : String) :
    Cad.find_fingerprint fps fp_name = Amtec.find_fingerprint fps fp_name :=
  rfl

theorem find_fingerprint_of_mem {β : Type} (fps : List (Fingerprint β)) (fp_name : String)
    (hstrict : fps.Pairwise (fun a b => b.name.toList < a.name.toList))
    (fp : Fingerprint β) (hmem : fp ∈ fps) (hname : fp.name = fp_name) :
    Amtec.find_fingerprint fps fp_name = FindResult.found fp := by
  obtain ⟨j, hj, hfp⟩ := List.getElem_of_mem hmem
  have hnm : name_at fps j = fp_name := by
    rw [name_at_eq fps j hj, ← hname, ← hfp]
    rfl
  have hrange := equal_range_greater_found fps fp_name hstrict j hj hnm
  unfold Amtec.find_fingerprint
  simp only [hrange]
  have hget : fps.get? j = some fp := by
    rw [List.get?_eq_get hj]
    exact congrArg some hfp
  rw [hget]
  simp [hname]

theorem find_fingerprint_of_absent {β : Type} (fps : List (Fingerprint β)) (fp_name : String)
    (hstrict : fps.Pairwise (fun a b => b.name.toList < a.name.toList))
    (habsent : ∀ fp ∈ fps, fp.name ≠ fp_name) :
    Amtec.find_fingerprint fps fp_name = FindResult.not_found := by
  have hrange := equal_range_greater_absent fps fp_name hstrict
    (by
      intro i hi
      rw [name_at_eq fps i hi]
      exact habsent _ (List.get_mem fps i hi))
  unfold Amtec.find_fingerprint
  simp only [hrange, if_true]

/-- C21. Name lookup: for a fingerprint array sorted by descending name with
pairwise distinct names and every query name, `find_fingerprint` of `amtec.cc` and
of `cad.cc` returns the fingerprint whose name equals the query when there is one,
and reports not-found otherwise (null in `amtec`, the abort in `cad`); it never
returns a fingerprint with a different name, and never dereferences a position
past the end of the array. -/
theorem find_fingerprint_lookup {β : Type} (fps : List (Fingerprint β)) (fp_name : String)
    (hsorted : fps.Pairwise (fun a b => ¬ a.name.toList < b.name.toList))
    (hdistinct : (fps.map (fun fp => fp.name)).Nodup) :
    (∀ fp ∈ fps, fp.name = fp_name →
        Amtec.find_fingerprint fps fp_name = FindResult.found fp
        ∧ Cad.find_fingerprint fps fp_name = FindResult.found fp)
    ∧ ((∀ fp ∈ fps, fp.name ≠ fp_name) →
        Amtec.find_fingerprint fps fp_name = FindResult.not_found
        ∧ Cad.find_fingerprint fps fp_name = FindResult.not_found)
    ∧ (∀ fp, Amtec.find_fingerprint fps fp_name = FindResult.found fp →
        fp.name = fp_name ∧ fp ∈ fps)
    ∧ (∀ fp, Cad.find_fingerprint fps fp_name = FindResult.found fp →
        fp.name = fp_name ∧ fp ∈ fps)
    ∧ Amtec.find_fingerprint fps fp_name ≠ FindResult.past_the_end
    ∧ Cad.find_fingerprint fps fp_name ≠ FindResult.past_the_end := by
  have hstrict := descending_distinct_strict fps hsorted hdistinct
  have hfound := find_fingerprint_of_mem fps fp_name hstrict
  have habsent := find_fingerprint_of_absent fps fp_name hstrict
  have hres : ∀ fp, Amtec.find_fingerprint fps fp_name = FindResult.found fp →
      fp.name = fp_name ∧ fp ∈ fps := by
    intro fp hfp
    by_cases h : ∃ fp2 ∈ fps, fp2.name = fp_name
    · obtain ⟨fp2, hmem, hname⟩ := h
      rw [hfound fp2 hmem hname] at hfp
      injection hfp with hfp
      rw [← hfp]
      exact ⟨hname, hmem⟩
    · have h2 : ∀ fp2 ∈ fps, fp2.name ≠ fp_name := fun fp2 hm hn => h ⟨fp2, hm, hn⟩
      rw [habsent h2] at hfp
      exact absurd hfp (by simp)
  have hend : Amtec.find_fingerprint fps fp_name ≠ FindResult.past_the_end := by
    by_cases h : ∃ fp2 ∈ fps, fp2.name = fp_name
    · obtain ⟨fp2, hmem, hname⟩ := h
      rw [hfound fp2 hmem hname]
      simp
    · have h2 : ∀ fp2 ∈ fps, fp2.name ≠ fp_name := fun fp2 hm hn => h ⟨fp2, hm, hn⟩
      rw [habsent h2]
      simp
  refine ⟨?_, ?_, hres, ?_, hend, ?_⟩
  · intro fp hmem hname
    exact ⟨hfound fp hmem hname, (cad_find_fingerprint_eq fps fp_name).trans (hfound fp hmem hname)⟩
  · intro h
    exact ⟨habsent h, (cad_find_fingerprint_eq fps fp_name).trans (habsent h)⟩
  · intro fp hfp
    exact hres fp ((cad_find_fingerprint_eq fps fp_name).symm.trans hfp)
  · rw [cad_find_fingerprint_eq]
    exact hend

/-- Witness for C21: the array `s`, `m`, `a` in descending order of name, and the
query `m`. -/
theorem find_fingerprint_lookup_witness :
    (([⟨"s", 0⟩, ⟨"m", 2⟩, ⟨"a", 2⟩] : List (Fingerprint Nat)).Pairwise
        (fun a b => ¬ a.name.toList < b.name.toList)
      ∧ (([⟨"s", 0⟩, ⟨"m", 2⟩, ⟨"a", 2⟩] : List (Fingerprint Nat)).map (fun fp => fp.name)).Nodup)
    ∧ Amtec.find_fingerprint ([⟨"s", 0⟩, ⟨"m", 2⟩, ⟨"a", 2⟩] : List (Fingerprint Nat)) "m"
        = FindResult.found ⟨"m", 2⟩
    ∧ Cad.find_fingerprint ([⟨"s", 0⟩, ⟨"m", 2⟩, ⟨"a", 2⟩] : List (Fingerprint Nat)) "m"
        = FindResult.found ⟨"m", 2⟩ :=
  ⟨⟨by decide, by decide⟩,
    (find_fingerprint_lookup ([⟨"s", 0⟩, ⟨"m", 2⟩, ⟨"a", 2⟩] : List (Fingerprint Nat)) "m"
      (by decide) (by decide)).1 ⟨"m", 2⟩ (by decide) rfl⟩

/-! ### Termination of the clustering loop and the original sizes reported -/

theorem Emits_length_le (num_fps : Nat) (orig_nn_sizes : List Nat) (nns : List (List Nat))
    (cs : List (List Nat × Nat)) (h : Emits orig_nn_sizes nns cs) (hg : GraphOk num_fps nns) :
    cs.length ≤ nns.length := by
  induction h with
  | done => exact le_refl _
  | pass nns rest hne _ ih =>
    have hmem := find_next_seed_mem nns orig_nn_sizes hne
    have hlt := remove_members_graph_length_lt
      (nns.getD (find_next_seed nns orig_nn_sizes) []) nns hmem (hg _ hmem).1
    have := ih (remove_members_graph_ok num_fps _ nns hg)
    simp only [List.length_cons]
    omega

theorem Emits_orig_size (orig_nn_sizes : List Nat) (nns : List (List Nat))
    (cs : List (List Nat × Nat)) (h : Emits orig_nn_sizes nns cs) :
    ∀ c ∈ cs, c.2 = orig_nn_sizes.getD (c.1.headD 0) 0 := by
  induction h with
  | done => intro c hc; simp at hc
  | pass nns rest _ _ ih =>
    intro c hc
    rcases List.mem_cons.mp hc with h | h
    · rw [h]
    · exact ih c h

theorem Emits_full_orig_size {D : Type} [LinearOrder D] [Zero D]
    (calc_distance : Nat → Nat → D → D) (toFloat : D → D) (threshold : D) (n : Nat)
    (cs : List (List Nat × Nat))
    (h : Emits ((make_nnlists calc_distance toFloat threshold 0 n n []).map List.length)
      (make_nnlists calc_distance toFloat threshold 0 n n []) cs) :
    ∀ c ∈ cs, c.1 ≠ [] ∧ c.1.headD 0 < n
      ∧ c.1.Sublist (make_nnlist calc_distance toFloat threshold n (c.1.headD 0))
      ∧ c.2 = (make_nnlist calc_distance toFloat threshold n (c.1.headD 0)).length := by
  intro c hc
  obtain ⟨a, t, hat, han, hsub⟩ := Emits_seeded
    (make_nnlist calc_distance toFloat threshold n) n _ _ cs h
    (make_nnlists_full_seeded calc_distance toFloat threshold n) c hc
  have horig := Emits_orig_size _ _ cs h c hc
  rw [hat] at horig ⊢
  simp only [List.headD_cons] at horig ⊢
  refine ⟨by simp, han, hsub, ?_⟩
  rw [horig, orig_sizes_getD, make_nnlists_full_getD _ _ _ _ _ han]

theorem foldl_set_getD_other (f : Nat → Nat) (a : Nat) (l : List Nat) (m : Nat) (p : Nat)
    (hp : p < a ∨ a + m ≤ p) :
    ((List.range m).foldl (fun orig j => orig.set (a + j) (f j)) l).getD p 0 = l.getD p 0 := by
  induction m with
  | zero => rfl
  | succ m ih =>
    rw [List.range_succ, List.foldl_append]
    simp only [List.foldl_cons, List.foldl_nil, List.getD_eq_getElem?_getD, List.getElem?_set,
      foldl_set_length]
    have h1 : ¬ a + m = p := by omega
    simp only [h1, if_false]
    have := ih (by omega)
    rw [List.getD_eq_getElem?_getD, List.getD_eq_getElem?_getD] at this
    exact this

theorem make_orig_nn_sizes_table (num_fps start_fp num_fps_to_do : Nat) (nns : List (List Nat))
    (hrange : start_fp + num_fps_to_do ≤ num_fps) (hsmall : num_fps < 2 ^ 32) :
    (make_orig_nn_sizes num_fps start_fp num_fps_to_do nns).length = num_fps
    ∧ (∀ j, j < num_fps_to_do →
        (make_orig_nn_sizes num_fps start_fp num_fps_to_do nns).getD (start_fp + j) 0
          = (nns.getD j []).length)
    ∧ (∀ p, p < start_fp ∨ start_fp + num_fps_to_do ≤ p →
        (make_orig_nn_sizes num_fps start_fp num_fps_to_do nns).getD p 0 = 0) := by
  unfold make_orig_nn_sizes
  have hmod : (start_fp + num_fps_to_do) % 2 ^ 32 = start_fp + num_fps_to_do :=
    Nat.mod_eq_of_lt (by omega)
  simp only [hmod, Nat.add_sub_cancel_left]
  refine ⟨?_, ?_, ?_⟩
  · rw [foldl_set_length (fun j => (nns.getD j []).length)]
    exact List.length_replicate _ _
  · intro j hj
    exact foldl_set_getD (fun j => (nns.getD j []).length) start_fp _ num_fps_to_do
      (by rw [List.length_replicate]; exact hrange) j hj
  · intro p hp
    rw [foldl_set_getD_other (fun j => (nns.getD j []).length) start_fp _ num_fps_to_do p hp]
    rw [List.getD_eq_getElem?_getD, List.getElem?_replicate]
    split <;> rfl

theorem slave_search_details_orig_fold {D : Type} [LinearOrder D] [Zero D]
    (calc_distance : Nat → Nat → D → D) (toFloat : D → D) (threshold : D)
    (n c w rank : Nat) (hrank1 : 1 ≤ rank) (hrank2 : rank ≤ w) (hcw : c * w < 2 ^ 32) :
    (slave_search_details calc_distance toFloat threshold n c rank).orig_nn_sizes
      = (List.range (min (rank * c) n - (rank - 1) * c)).foldl
          (fun orig j => orig.set ((rank - 1) * c + j)
            (((slave_search_details calc_distance toFloat threshold n c rank).nns).getD j
              []).length)
          (List.replicate n 0) := by
  have h1 : (rank - 1) * c + c = rank * c := by
    have : rank = (rank - 1) + 1 := by omega
    conv => rhs; rw [this, Nat.succ_mul]
  have h2 : rank * c ≤ w * c := Nat.mul_le_mul_right c hrank2
  have h3 : w * c = c * w := Nat.mul_comm _ _
  have hmod1 : ((rank - 1) * c) % 2 ^ 32 = (rank - 1) * c := Nat.mod_eq_of_lt (by omega)
  have hmod2 : ((rank - 1) * c + c) % 2 ^ 32 = (rank - 1) * c + c := Nat.mod_eq_of_lt (by omega)
  unfold slave_search_details receive_search_details make_nnlists_cs make_orig_nn_sizes
  simp only [hmod1, hmod2]
  split
  · rename_i hgt
    simp only []
    congr 2
    omega
  · rename_i hgt
    simp only []
    congr 2
    omega

theorem slave_search_details_table {D : Type} [LinearOrder D] [Zero D]
    (calc_distance : Nat → Nat → D → D) (toFloat : D → D) (threshold : D)
    (n c w rank : Nat) (hrank1 : 1 ≤ rank) (hrank2 : rank ≤ w) (hcw : c * w < 2 ^ 32)
    (hn : n < 2 ^ 32) :
    (slave_search_details calc_distance toFloat threshold n c rank).orig_nn_sizes.length = n
    ∧ ∀ p, p < n →
        (slave_search_details calc_distance toFloat threshold n c rank).orig_nn_sizes.getD p 0
          = if (rank - 1) * c ≤ p ∧ p < rank * c then
              (make_nnlist calc_distance toFloat threshold n p).length
            else 0 := by
  have hfold := slave_search_details_orig_fold calc_distance toFloat threshold n c w rank
    hrank1 hrank2 hcw
  constructor
  · rw [hfold, foldl_set_length (fun j =>
      (((slave_search_details calc_distance toFloat threshold n c rank).nns).getD j []).length)]
    exact List.length_replicate _ _
  · intro p hp
    by_cases hin : (rank - 1) * c ≤ p ∧ p < rank * c
    · rw [if_pos hin]
      have hj : p - (rank - 1) * c < min (rank * c) n - (rank - 1) * c := by omega
      have := slave_search_details_orig calc_distance toFloat threshold n c w rank hrank1
        hrank2 hcw hn (p - (rank - 1) * c) hj
      have hp2 : (rank - 1) * c + (p - (rank - 1) * c) = p := by omega
      rw [hp2] at this
      exact this
    · rw [if_neg hin, hfold,
        foldl_set_getD_other (fun j =>
          (((slave_search_details calc_distance toFloat threshold n c rank).nns).getD j
            []).length) ((rank - 1) * c) _ _ p (by omega),
        List.getD_eq_getElem?_getD, List.getElem?_replicate]
      split <;> rfl

/-- C27. Termination of clustering: for every graph of `k` non-empty lists whose
indices lie in `[0, n)` (the first elements need not even be distinct), the loop
of `output_clusters` ends within `k` passes: with room for `k` passes or more it
returns, having emitted at most `k` clusters, and `output_clusters` returns its
streams; every pass on a non-empty graph leaves strictly fewer lists, since
`remove_cluster_from_nns` removes at least the list of the seed selected. -/
theorem output_clusters_terminates (num_fps : Nat) (nns : List (List Nat)) (fuel : Nat)
    (hg : GraphOk num_fps nns) (hfuel : nns.length ≤ fuel) :
    (∃ cs, output_clusters_emitted fuel num_fps nns = some cs ∧ cs.length ≤ nns.length)
    ∧ (∀ (fp_names : List String) (output_format : OUTPUT_FORMAT)
        (output_stream seed_names singleton_names : List String),
        fp_names.length = num_fps →
        ∃ r, output_clusters fuel fp_names nns output_format output_stream seed_names
          singleton_names = some r)
    ∧ (∀ (orig_nn_sizes : List Nat) (in_cluster : List Bool),
        InClusterOk num_fps in_cluster → nns ≠ [] →
        (remove_cluster_from_nns in_cluster num_fps
          (nns.getD (find_next_seed nns orig_nn_sizes) []) nns).2.length < nns.length) := by
  obtain ⟨cs, hcs, hemits⟩ := output_clusters_loop_emits num_fps (nns.map List.length) fuel []
    nns (Or.inl rfl) hg hfuel
  refine ⟨⟨cs, hcs, Emits_length_le num_fps _ nns cs hemits hg⟩, ?_, ?_⟩
  · intro fp_names output_format output_stream seed_names singleton_names hlen
    unfold output_clusters
    rw [hlen]
    have hcs2 : output_clusters_emitted fuel num_fps nns = some cs := hcs
    rw [hcs2]
    exact ⟨_, rfl⟩
  · intro orig_nn_sizes in_cluster hic hne
    rw [remove_cluster_from_nns_eq num_fps in_cluster _ nns hic (fun l hl => (hg l hl).2)]
    have hmem := find_next_seed_mem nns orig_nn_sizes hne
    exact remove_members_graph_length_lt _ nns hmem (hg _ hmem).1

/-- Witness for C27: a graph of three lists over three fingerprints. -/
theorem output_clusters_terminates_witness :
    (GraphOk 3 [[0, 1], [1, 0], [2]] ∧ ([[0, 1], [1, 0], [2]] : List (List Nat)).length ≤ 3)
    ∧ ∃ cs, output_clusters_emitted 3 3 [[0, 1], [1, 0], [2]] = some cs
        ∧ cs.length ≤ ([[0, 1], [1, 0], [2]] : List (List Nat)).length :=
  ⟨⟨by unfold GraphOk; decide, by decide⟩,
    (output_clusters_terminates 3 [[0, 1], [1, 0], [2]] 3 (by unfold GraphOk; decide)
      (by decide)).1⟩

/-- C23. Reported original size: every cluster that `output_clusters` emits for
the graph built over `[0, n)`, and every cluster that the distributed run emits
(through `make_orig_nn_sizes` and `send_best_cluster_details_to_master`, for every
order of arrival of the replies), is a sublist of the list that `make_nnlists`
built for its seed, however shortened by removals, and the original size written
with it is the length of that list as built.  `make_orig_nn_sizes` yields a table
of length `num_fps` that holds the length of `nns[j]` at the position
`start_fp + j` for `j < num_fps_to_do` and 0 elsewhere; for the worker of rank
`rank` with share `c` it holds at every position of `[(rank - 1) c, rank c)`
the length of the list built for that fingerprint and 0 elsewhere. -/
theorem reported_orig_nn_size {D : Type} [LinearOrder D] [Zero D]
    (calc_distance : Nat → Nat → D → D) (toFloat : D → D) (threshold : D)
    (n file_num_fps w : Nat) (arrival : Nat → List Nat) (fuel serial_fuel : Nat)
    (hw : 1 ≤ w) (hfile : n ≤ file_num_fps) (hsmall : file_num_fps + w ≤ 2 ^ 32)
    (harr : ∀ round, (arrival round).Perm (List.range' 1 w))
    (hfuel : n < fuel) (hserial : n ≤ serial_fuel) :
    (∃ cs, output_clusters_emitted serial_fuel n
          (make_nnlists calc_distance toFloat threshold 0 n n []) = some cs
      ∧ ∀ c ∈ cs, c.1 ≠ [] ∧ c.1.headD 0 < n
          ∧ c.1.Sublist (make_nnlist calc_distance toFloat threshold n (c.1.headD 0))
          ∧ c.2 = (make_nnlist calc_distance toFloat threshold n (c.1.headD 0)).length)
    ∧ (∃ cs, parallel_run_emitted calc_distance toFloat threshold n file_num_fps (w + 1) arrival
          1 fuel = some cs
      ∧ ∀ c ∈ cs, c.1 ≠ [] ∧ c.1.headD 0 < n
          ∧ c.1.Sublist (make_nnlist calc_distance toFloat threshold n (c.1.headD 0))
          ∧ c.2 = (make_nnlist calc_distance toFloat threshold n (c.1.headD 0)).length)
    ∧ (∀ (num_fps start_fp num_fps_to_do : Nat) (nns : List (List Nat)),
        start_fp + num_fps_to_do ≤ num_fps → num_fps < 2 ^ 32 →
        (make_orig_nn_sizes num_fps start_fp num_fps_to_do nns).length = num_fps
        ∧ (∀ j, j < num_fps_to_do →
            (make_orig_nn_sizes num_fps start_fp num_fps_to_do nns).getD (start_fp + j) 0
              = (nns.getD j []).length)
        ∧ (∀ p, p < start_fp ∨ start_fp + num_fps_to_do ≤ p →
            (make_orig_nn_sizes num_fps start_fp num_fps_to_do nns).getD p 0 = 0))
    ∧ (∀ (c rank : Nat), 1 ≤ rank → rank ≤ w → c * w < 2 ^ 32 →
        (slave_search_details calc_distance toFloat threshold n c rank).orig_nn_sizes.length = n
        ∧ ∀ p, p < n →
            (slave_search_details calc_distance toFloat threshold n c
                rank).orig_nn_sizes.getD p 0
              = if (rank - 1) * c ≤ p ∧ p < rank * c then
                  (make_nnlist calc_distance toFloat threshold n p).length
                else 0) := by
  obtain ⟨cs, hcs, hemits⟩ := output_clusters_loop_emits n
    ((make_nnlists calc_distance toFloat threshold 0 n n []).map List.length) serial_fuel []
    (make_nnlists calc_distance toFloat threshold 0 n n []) (Or.inl rfl)
    (make_nnlists_full_ok calc_distance toFloat threshold n)
    (by rw [make_nnlists_full_length]; exact hserial)
  have hsizes := Emits_full_orig_size calc_distance toFloat threshold n cs hemits
  refine ⟨⟨cs, hcs, hsizes⟩, ⟨cs, ?_, hsizes⟩, ?_, ?_⟩
  · unfold parallel_run_emitted
    by_cases hzero : file_num_fps = 0
    · have hn : n = 0 := by omega
      subst hn
      rw [if_pos hzero]
      have hnil : make_nnlists calc_distance toFloat threshold 0 0 0 [] = [] := by
        rw [make_nnlists_full]
        rfl
      rw [hnil] at hemits
      cases hemits with
      | done => rfl
      | pass _ _ hne _ => exact absurd rfl hne
    · rw [if_neg hzero]
      obtain ⟨c, hc, hcover, hcw⟩ := send_search_details_eq file_num_fps w hw hsmall
      rw [hc]
      simp only [Nat.add_sub_cancel]
      obtain ⟨cs2, hcs2, hemits2⟩ := parallel_cluster_loop_emits n
        ((make_nnlists calc_distance toFloat threshold 0 n n []).map List.length) arrival w harr
        fuel 0 ((List.range' 1 w).map (slave_search_details calc_distance toFloat threshold n c))
        (make_nnlists calc_distance toFloat threshold 0 n n [])
        (by simp)
        (initial_slaves_inv calc_distance toFloat threshold n c w hcw (by omega))
        (make_nnlists_full_ok calc_distance toFloat threshold n)
        (make_nnlists_full_ascending calc_distance toFloat threshold n)
        (by rw [make_nnlists_full_length]; exact hfuel)
      rw [hcs2, Emits_unique _ _ _ _ hemits2 hemits]
  · intro num_fps start_fp num_fps_to_do nns hrange hlt
    exact make_orig_nn_sizes_table num_fps start_fp num_fps_to_do nns hrange hlt
  · intro c rank hr1 hr2 hcw
    exact slave_search_details_table calc_distance toFloat threshold n c w rank hr1 hr2 hcw
      (by omega)

/-- Witness for C23: five fingerprints with distances `(i + j) % 4`, threshold 3,
two workers whose replies arrive in the order 2, 1 in every pass. -/
theorem reported_orig_nn_size_witness :
    (1 ≤ 2 ∧ 5 ≤ 5 ∧ 5 + 2 ≤ 2 ^ 32
      ∧ (∀ _round : Nat, ([2, 1] : List Nat).Perm (List.range' 1 2)) ∧ 5 < 6 ∧ 5 ≤ 5)
    ∧ ∃ cs, output_clusters_emitted 5 5
          (make_nnlists (fun i j (_ : Nat) => (i + j) % 4) id 3 0 5 5 []) = some cs
      ∧ ∀ c ∈ cs, c.1 ≠ [] ∧ c.1.headD 0 < 5
          ∧ c.1.Sublist (make_nnlist (fun i j (_ : Nat) => (i + j) % 4) id 3 5 (c.1.headD 0))
          ∧ c.2 = (make_nnlist (fun i j (_ : Nat) => (i + j) % 4) id 3 5 (c.1.headD 0)).length :=
  ⟨⟨by decide, by decide, by decide, fun _ => List.Perm.swap 1 2 [], by decide, by decide⟩,
    (reported_orig_nn_size (fun i j (_ : Nat) => (i + j) % 4) id 3 5 5 2 (fun _ => [2, 1])
      6 5 (by decide) (by decide) (by decide) (fun _ => List.Perm.swap 1 2 []) (by decide)
      (by decide)).1⟩

/-! ### The partition through the collapse of singletons -/

end Flush
